import Mathlib

/-!
# Label collision engine (`src/text/collision.cpp`)

A shallow embedding of the label placement engine: the constructor that seeds
the two boundary guards, `getMergedGlyphs`, `place`, `getPlacementScale`,
`getPlacementRange` and `insert`, followed by theorems about them.

## Numbers

The source computes in C++ `float`.  `F32` keeps what the control flow of the
source depends on: the special values NaN, -infinity and +infinity with their
IEEE 754 arithmetic and comparison rules (a comparison with NaN is false,
`x / 0` is an infinity or, for `0 / 0`, NaN).  Finite values are exact
rationals: rounding, overflow and underflow are not modelled, and the two
zeros are identified (a zero divisor acts as `+0`).

Two consequences are kept in view by the theorems.  The divisors of the source
are scales and differences of anchor coordinates; the difference of two equal
floats is `+0` unless the minuend is `-0.0f` and the subtrahend `+0.0f`, so a
statement that depends on the sign of an infinity obtained from a zero anchor
difference is made for a non-zero anchor coordinate.  And a statement about
the distance between scaled boxes is a statement of exact arithmetic: where
the source rounds a quotient, the float it holds may lie just below the exact
value.

## The spatial index

The R-tree of the source is a library container.  It is embedded as the list
of the stored `(Box, PlacementBox)` pairs in insertion order; a query returns
the stored pairs whose box intersects the query box.
-/

/-- A C++ `float`: NaN, the two infinities, or a finite value. -/
inductive F32 where
  | nan : F32
  | ninf : F32
  | pinf : F32
  | fin (q : ℚ) : F32
  deriving DecidableEq

namespace F32

/-- The source's `isnan`. -/
def isnan : F32 → Bool
  | nan => true
  | _ => false

/-- Unary minus. -/
def neg : F32 → F32
  | nan => nan
  | ninf => pinf
  | pinf => ninf
  | fin q => fin (-q)

/-- Float addition. -/
def add : F32 → F32 → F32
  | nan, _ => nan
  | _, nan => nan
  | pinf, ninf => nan
  | ninf, pinf => nan
  | pinf, _ => pinf
  | _, pinf => pinf
  | ninf, _ => ninf
  | _, ninf => ninf
  | fin a, fin b => fin (a + b)

/-- Float subtraction. -/
def sub (a b : F32) : F32 := add a (neg b)

/-- Float multiplication. -/
def mul : F32 → F32 → F32
  | nan, _ => nan
  | _, nan => nan
  | pinf, pinf => pinf
  | pinf, ninf => ninf
  | ninf, pinf => ninf
  | ninf, ninf => pinf
  | pinf, fin q => if q = 0 then nan else if 0 < q then pinf else ninf
  | ninf, fin q => if q = 0 then nan else if 0 < q then ninf else pinf
  | fin q, pinf => if q = 0 then nan else if 0 < q then pinf else ninf
  | fin q, ninf => if q = 0 then nan else if 0 < q then ninf else pinf
  | fin a, fin b => fin (a * b)

/-- Float division with the quotient of two finite values exact; a zero
divisor acts as `+0` (the sign `-0.0f` of a divisor is not represented). -/
def div : F32 → F32 → F32
  | nan, _ => nan
  | _, nan => nan
  | pinf, pinf => nan
  | pinf, ninf => nan
  | ninf, pinf => nan
  | ninf, ninf => nan
  | pinf, fin q => if 0 ≤ q then pinf else ninf
  | ninf, fin q => if 0 ≤ q then ninf else pinf
  | fin _, pinf => fin 0
  | fin _, ninf => fin 0
  | fin a, fin b =>
    if b = 0 then (if a = 0 then nan else if 0 < a then pinf else ninf)
    else fin (a / b)

/-- The comparison `a < b` of the source (false when either side is NaN). -/
def lt : F32 → F32 → Bool
  | nan, _ => false
  | _, nan => false
  | ninf, ninf => false
  | ninf, _ => true
  | _, ninf => false
  | pinf, _ => false
  | fin _, pinf => true
  | fin a, fin b => decide (a < b)

/-- The comparison `a <= b` of the source (false when either side is NaN). -/
def le : F32 → F32 → Bool
  | nan, _ => false
  | _, nan => false
  | ninf, _ => true
  | _, pinf => true
  | pinf, _ => false
  | _, ninf => false
  | fin a, fin b => decide (a ≤ b)

/-- The comparison `a > b` of the source. -/
def gt (a b : F32) : Bool := lt b a

/-- The comparison `a >= b` of the source. -/
def ge (a b : F32) : Bool := le b a

/-- The comparison `a == b` of the source (NaN equals nothing). -/
def eq : F32 → F32 → Bool
  | nan, _ => false
  | _, nan => false
  | a, b => decide (a = b)

/-- The C library's `fmax`: a NaN argument is dropped in favour of the other. -/
def fmax : F32 → F32 → F32
  | nan, b => b
  | a, nan => a
  | a, b => if lt a b then b else a

/-- The C library's `fmin`: a NaN argument is dropped in favour of the other. -/
def fmin : F32 → F32 → F32
  | nan, b => b
  | a, nan => a
  | a, b => if lt b a then b else a

end F32

/-- Modelled from the spec: `util::min` of the header `llmr/util/math.hpp`,
which is not among the sources; two-argument minimum written with one
comparison, `b < a ? b : a`. -/
def util.min (a b : F32) : F32 := if F32.lt b a then b else a

/-- Modelled from the spec: `util::max` of the header `llmr/util/math.hpp`,
which is not among the sources; two-argument maximum written with one
comparison, `b > a ? b : a`. -/
def util.max (a b : F32) : F32 := if F32.gt b a then b else a

/-- Modelled from the spec: the four-argument `util::max` of the same header,
`max(max(a, b), max(c, d))`. -/
def util.max4 (a b c d : F32) : F32 := util.max (util.max a b) (util.max c d)

/-- Modelled from the spec: `CollisionPoint`, a 2D coordinate `(x, y)`
(declared in the header `llmr/text/collision.hpp`, not among the sources). -/
structure CollisionPoint where
  x : F32
  y : F32
  deriving DecidableEq

/-- Modelled from the spec: `CollisionAnchor`, an absolute point in tile
space. -/
abbrev CollisionAnchor := CollisionPoint

/-- The `==` of two anchors: both coordinates compare equal as floats. -/
def CollisionPoint.eq (a b : CollisionPoint) : Bool :=
  F32.eq a.x b.x && F32.eq a.y b.y

/-- Modelled from the spec: `CollisionRect`, an axis-aligned box given by its
top-left and bottom-right corners relative to an anchor. -/
structure CollisionRect where
  tl : CollisionPoint
  br : CollisionPoint
  deriving DecidableEq

/-- Modelled from the spec: `PlacementRange`, a pair of angles (the source
indexes it with `[0]` and `[1]`). -/
abbrev PlacementRange := F32 × F32

/-- Modelled from the spec: `GlyphBox`, a candidate placement unit. -/
structure GlyphBox where
  bbox : CollisionRect
  box : CollisionRect
  rotate : Bool
  anchor : CollisionAnchor
  minScale : F32
  maxScale : F32
  deriving DecidableEq

/-- Modelled from the spec: `PlacementBox`, the record stored in the index. -/
structure PlacementBox where
  anchor : CollisionAnchor
  bbox : CollisionRect
  box : CollisionRect
  rotate : Bool
  placementRange : PlacementRange
  placementScale : F32
  maxScale : F32
  padding : F32
  deriving DecidableEq

/-- Modelled from the spec: `PlacementProperty`, the result of `place`.  The
default-constructed ("empty") value is the `none` of `place`. -/
structure PlacementProperty where
  zoom : F32
  rotationRange : PlacementRange
  deriving DecidableEq

/-- The library's indexable box: absolute minimum and maximum corner. -/
structure Box where
  min_corner : CollisionPoint
  max_corner : CollisionPoint
  deriving DecidableEq

/-- An entry of the spatial index. -/
abbrev PlacementValue := Box × PlacementBox

/-- The state of a `Collision` object: its member `tree`, as the list of the
stored entries in insertion order. -/
abbrev RTree := List PlacementValue

/-- The library's box/box `intersects`: the boxes are not disjoint, where two
boxes are disjoint when on some axis one ends before the other starts. -/
def Box.intersects (a b : Box) : Bool :=
  !(F32.lt a.max_corner.x b.min_corner.x || F32.gt a.min_corner.x b.max_corner.x ||
    F32.lt a.max_corner.y b.min_corner.y || F32.gt a.min_corner.y b.max_corner.y)

/-- The query `tree.query(intersects(query_box), back_inserter(blocking))`. -/
def RTree.query (tree : RTree) (query_box : Box) : List PlacementValue :=
  tree.filter (fun value => value.1.intersects query_box)

/-- What the source takes from outside `collision.cpp`: the C library's `sqrt`
and `log`, the constant `M_PI`, the routine `rotationRange` (another file of
the repository) and the default-constructed `GlyphBox` of the missing header. -/
structure Externals where
  sqrt : F32 → F32
  log : F32 → F32
  pi : F32
  rotationRange : GlyphBox → PlacementBox → F32 → PlacementRange
  glyphDefault : GlyphBox

/-- The box `Box{Point{ax + r.tl.x / s, ay + r.tl.y / s}, Point{ax + r.br.x / s,
ay + r.br.y / s}}` that `getPlacementScale`, `getPlacementRange` and `insert`
build from an anchor, a rectangle and a scale. -/
def scaledBox (anchor : CollisionAnchor) (r : CollisionRect) (s : F32) : Box :=
  { min_corner := ⟨F32.add anchor.x (F32.div r.tl.x s), F32.add anchor.y (F32.div r.tl.y s)⟩
    max_corner := ⟨F32.add anchor.x (F32.div r.br.x s), F32.add anchor.y (F32.div r.br.y s)⟩ }

/-- `Collision::insert`: one entry per glyph, appended in glyph order. -/
def Collision.insert (tree : RTree) (glyphs : List GlyphBox) (anchor : CollisionAnchor)
    (placementScale : F32) (placementRange : PlacementRange) (horizontal : Bool)
    (padding : F32) : RTree :=
  tree ++ glyphs.map (fun glyph =>
    let minScale := F32.fmax placementScale glyph.minScale
    let bounds := scaledBox anchor glyph.bbox minScale
    (bounds,
      { anchor := anchor
        box := glyph.box
        bbox := glyph.bbox
        rotate := horizontal
        placementRange := placementRange
        placementScale := minScale
        maxScale := glyph.maxScale
        padding := padding }))

/-- The guard glyph `GlyphBox{r, r, 0}` of the constructor: both rectangles
`r`, minimum scale `0`, the other fields as default-constructed. -/
def guardGlyph (ext : Externals) (r : CollisionRect) : GlyphBox :=
  { ext.glyphDefault with bbox := r, box := r, minScale := F32.fin 0 }

/-- `Collision::Collision`: the index after construction, holding the two
boundary guards (`m = 4096`, so `m * 8 = 32768`). -/
def Collision.Collision (ext : Externals) : RTree :=
  let m : F32 := F32.fin 4096
  let m8 := F32.mul m (F32.fin 8)
  let twoPi := F32.mul ext.pi (F32.fin 2)
  let z : F32 := F32.fin 0
  let tree := Collision.insert []
    [guardGlyph ext ⟨⟨z, z⟩, ⟨z, m8⟩⟩, guardGlyph ext ⟨⟨z, z⟩, ⟨m8, z⟩⟩]
    ⟨z, z⟩ (F32.fin 1) (twoPi, z) false (F32.fin 2)
  Collision.insert tree
    [guardGlyph ext ⟨⟨F32.neg m8, z⟩, ⟨z, z⟩⟩, guardGlyph ext ⟨⟨z, F32.neg m8⟩, ⟨z, z⟩⟩]
    ⟨m, m⟩ (F32.fin 1) (twoPi, z) false (F32.fin 2)

/-- `getMergedGlyphs`: one glyph whose box is folded over the glyphs' boxes
from `{{inf, inf}, {-inf, -inf}}` and whose `minScale` is folded with
`util::max` from the default-constructed value `dflt.minScale`. -/
def getMergedGlyphs (dflt : GlyphBox) (glyphs : List GlyphBox) (horizontal : Bool)
    (anchor : CollisionAnchor) : GlyphBox :=
  let init : GlyphBox :=
    { dflt with
      box := ⟨⟨F32.pinf, F32.pinf⟩, ⟨F32.ninf, F32.ninf⟩⟩
      rotate := horizontal
      anchor := anchor }
  glyphs.foldl (fun mergedGlyphs glyph =>
    { mergedGlyphs with
      box :=
        ⟨⟨util.min mergedGlyphs.box.tl.x glyph.box.tl.x,
          util.min mergedGlyphs.box.tl.y glyph.box.tl.y⟩,
         ⟨util.max mergedGlyphs.box.br.x glyph.box.br.x,
          util.max mergedGlyphs.box.br.y glyph.box.br.y⟩⟩
      minScale := util.max mergedGlyphs.minScale glyph.minScale }) init

/-- The test `anchor.x < 0 || anchor.x > 4096 || anchor.y < 0 || anchor.y > 4096`
of `getPlacementScale`. -/
def outsideTile (anchor : CollisionAnchor) : Bool :=
  F32.lt anchor.x (F32.fin 0) || F32.gt anchor.x (F32.fin 4096) ||
  F32.lt anchor.y (F32.fin 0) || F32.gt anchor.y (F32.fin 4096)

/-- The value `collisionFreeScale` that `getPlacementScale` computes for a
new box `nb` at anchor `na` against a stored placement (anchor `oa`, box `ob`)
with the requested padding `pad`. -/
def collisionFreeScale (na : CollisionAnchor) (nb : CollisionRect) (pad : F32)
    (placement : PlacementBox) : F32 :=
  let oa := placement.anchor
  let ob := placement.box
  let padding := F32.mul (F32.fmax pad placement.padding) (F32.fin 8)
  let s1 := F32.div (F32.sub (F32.sub ob.tl.x nb.br.x) padding) (F32.sub na.x oa.x)
  let s2 := F32.div (F32.add (F32.sub ob.br.x nb.tl.x) padding) (F32.sub na.x oa.x)
  let s3 := F32.div (F32.sub (F32.sub ob.tl.y nb.br.y) padding) (F32.sub na.y oa.y)
  let s4 := F32.div (F32.add (F32.sub ob.br.y nb.tl.y) padding) (F32.sub na.y oa.y)
  let x := if F32.isnan s1 || F32.isnan s2 then (F32.fin 1, F32.fin 1) else (s1, s2)
  let y := if F32.isnan s3 || F32.isnan s4 then (F32.fin 1, F32.fin 1) else (s3, s4)
  F32.fmin (F32.fmax x.1 x.2) (F32.fmax y.1 y.2)

/-- The inner loop of `getPlacementScale` over the entries `blocking` of one
glyph; `none` is the early `return -1`, `some m` the running
`minPlacementScale` after the loop. -/
def blockingLoop (na : CollisionAnchor) (nb : CollisionRect) (minScale maxScale : F32)
    (maxPlacementScale pad : F32) : List PlacementValue → F32 → Option F32
  | [], minPlacementScale => some minPlacementScale
  | value :: rest, minPlacementScale =>
    let placement := value.2
    if na.eq placement.anchor then none
    else
      let collisionFreeScale := collisionFreeScale na nb pad placement
      let minPlacementScale :=
        if F32.gt collisionFreeScale minPlacementScale &&
            F32.gt collisionFreeScale minScale &&
            F32.lt collisionFreeScale maxScale &&
            F32.lt collisionFreeScale placement.maxScale
        then collisionFreeScale else minPlacementScale
      if F32.gt minPlacementScale maxPlacementScale then none
      else blockingLoop na nb minScale maxScale maxPlacementScale pad rest minPlacementScale

/-- The outer loop of `getPlacementScale` over the glyphs; `none` is the early
`return -1`, `some m` the running `minPlacementScale` after the loop.  The
test `if (blocking.size())` of the source only skips an empty inner loop. -/
def glyphLoop (tree : RTree) (maxPlacementScale pad : F32) : List GlyphBox → F32 → Option F32
  | [], minPlacementScale => some minPlacementScale
  | glyph :: rest, minPlacementScale =>
    if outsideTile glyph.anchor then none
    else
      let minScale := F32.fmax minPlacementScale glyph.minScale
      let maxScale := glyph.maxScale
      if F32.ge minScale maxScale then glyphLoop tree maxPlacementScale pad rest minPlacementScale
      else
        let blocking := tree.query (scaledBox glyph.anchor glyph.bbox minScale)
        match blockingLoop glyph.anchor glyph.box minScale maxScale maxPlacementScale pad
            blocking minPlacementScale with
        | none => none
        | some m => glyphLoop tree maxPlacementScale pad rest m

/-- `Collision::getPlacementScale`. -/
def Collision.getPlacementScale (tree : RTree) (glyphs : List GlyphBox)
    (minPlacementScale maxPlacementScale pad : F32) : F32 :=
  match glyphLoop tree maxPlacementScale pad glyphs minPlacementScale with
  | none => F32.fin (-1)
  | some m => m

/-- The body of the inner loop of `getPlacementRange` for one glyph and one
entry returned by the query. -/
def rangeStep (ext : Externals) (glyph : GlyphBox) (placementScale : F32)
    (placementRange : PlacementRange) (value : PlacementValue) : PlacementRange :=
  let s := value.1
  let b := value.2
  let q := scaledBox glyph.anchor glyph.bbox placementScale
  let intersects : Bool :=
    if F32.gt placementScale b.placementScale then
      let o := scaledBox b.anchor b.bbox placementScale
      (F32.lt o.min_corner.x q.max_corner.x && F32.gt o.max_corner.x q.min_corner.x) &&
      (F32.lt o.min_corner.y q.max_corner.y && F32.gt o.max_corner.y q.min_corner.y)
    else
      let n := scaledBox glyph.anchor glyph.bbox b.placementScale
      (F32.lt n.min_corner.x s.max_corner.x && F32.gt n.max_corner.x s.min_corner.x) &&
      (F32.lt n.min_corner.y s.max_corner.y && F32.gt n.max_corner.y s.min_corner.y)
  if !intersects then placementRange
  else
    let scale := F32.fmax placementScale b.placementScale
    let range := ext.rotationRange glyph b scale
    (F32.fmin placementRange.1 range.1, F32.fmax placementRange.2 range.2)

/-- `Collision::getPlacementRange`. -/
def Collision.getPlacementRange (ext : Externals) (tree : RTree) (glyphs : List GlyphBox)
    (placementScale : F32) : PlacementRange :=
  glyphs.foldl (fun placementRange glyph =>
    (tree.query (scaledBox glyph.anchor glyph.bbox placementScale)).foldl
      (rangeStep ext glyph placementScale) placementRange)
    (F32.mul (F32.fin 2) ext.pi, F32.fin 0)

/-- The floor that `place` hands on: the caller's `minPlacementScale` raised
with `util::max` to the `util::min` fold of the glyphs' `minScale` from
infinity. -/
def placeFloor (boxes : List GlyphBox) (minPlacementScale : F32) : F32 :=
  util.max minPlacementScale (boxes.foldl (fun minScale box => util.min minScale box.minScale) F32.pinf)

/-- The bbox `place` gives a glyph: for a horizontal label the square
`{{-diag, -diag}, {diag, diag}}`, otherwise the glyph's box. -/
def placeBBox (ext : Externals) (horizontal : Bool) (glyph : GlyphBox) : GlyphBox :=
  if horizontal then
    let box := glyph.box
    let x12 := F32.mul box.tl.x box.tl.x
    let y12 := F32.mul box.tl.y box.tl.y
    let x22 := F32.mul box.br.x box.br.x
    let y22 := F32.mul box.br.y box.br.y
    let diag := ext.sqrt (util.max4 (F32.add x12 y12) (F32.add x12 y22) (F32.add x22 y12) (F32.add x22 y22))
    { glyph with bbox := ⟨⟨F32.neg diag, F32.neg diag⟩, ⟨diag, diag⟩⟩ }
  else { glyph with bbox := glyph.box }

/-- The list `glyphs` that `place` builds: the merged glyph for a horizontal
label, the caller's boxes otherwise, each with the bbox of `placeBBox`. -/
def placeGlyphs (ext : Externals) (boxes : List GlyphBox) (anchor : CollisionAnchor)
    (horizontal : Bool) : List GlyphBox :=
  (if horizontal then [getMergedGlyphs ext.glyphDefault boxes horizontal anchor] else boxes).map
    (placeBBox ext horizontal)

/-- `Collision::place`: the returned property (`none` for the empty
`PlacementProperty{}`) and the index after the call. -/
def Collision.place (ext : Externals) (tree : RTree) (boxes : List GlyphBox)
    (anchor : CollisionAnchor) (minPlacementScale maxPlacementScale padding : F32)
    (horizontal : Bool) : Option PlacementProperty × RTree :=
  let minPlacementScale := placeFloor boxes minPlacementScale
  let glyphs := placeGlyphs ext boxes anchor horizontal
  let scale := Collision.getPlacementScale tree boxes minPlacementScale maxPlacementScale padding
  if F32.lt scale (F32.fin 0) then (none, tree)
  else
    let rotationRange := Collision.getPlacementRange ext tree glyphs scale
    let tree := Collision.insert tree glyphs anchor scale rotationRange horizontal padding
    let zoom := F32.div (ext.log scale) (ext.log (F32.fin 2))
    (some ⟨zoom, rotationRange⟩, tree)

/-! ## The engine as a state machine -/

/-- A call of one of the four member functions of `Collision`, with its
arguments. -/
inductive Collision.Call where
  | place (boxes : List GlyphBox) (anchor : CollisionAnchor)
      (minPlacementScale maxPlacementScale padding : F32) (horizontal : Bool)
  | insert (glyphs : List GlyphBox) (anchor : CollisionAnchor) (placementScale : F32)
      (placementRange : PlacementRange) (horizontal : Bool) (padding : F32)
  | getPlacementScale (glyphs : List GlyphBox) (minPlacementScale maxPlacementScale pad : F32)
  | getPlacementRange (glyphs : List GlyphBox) (placementScale : F32)

/-- The index after a call: `place` and `insert` hand on the index they
built, the two resolvers only query `tree` and hand it on as it is. -/
def Collision.after (ext : Externals) (tree : RTree) : Collision.Call → RTree
  | .place boxes anchor minPlacementScale maxPlacementScale padding horizontal =>
    (Collision.place ext tree boxes anchor minPlacementScale maxPlacementScale padding
      horizontal).2
  | .insert glyphs anchor placementScale placementRange horizontal padding =>
    Collision.insert tree glyphs anchor placementScale placementRange horizontal padding
  | .getPlacementScale _ _ _ _ => tree
  | .getPlacementRange _ _ => tree

/-- The index states reachable from construction by `place` calls. -/
inductive Collision.Reachable (ext : Externals) : RTree → Prop where
  | construct : Collision.Reachable ext (Collision.Collision ext)
  | place (tree : RTree) (boxes : List GlyphBox) (anchor : CollisionAnchor)
      (minPlacementScale maxPlacementScale padding : F32) (horizontal : Bool) :
      Collision.Reachable ext tree →
      Collision.Reachable ext
        (Collision.place ext tree boxes anchor minPlacementScale maxPlacementScale padding
          horizontal).2

/-- The index states reachable from construction by `place` calls whose
anchor argument has no NaN coordinate and is the anchor field of at least one
glyph of the label. -/
inductive Collision.ReachableAnchored (ext : Externals) : RTree → Prop where
  | construct : Collision.ReachableAnchored ext (Collision.Collision ext)
  | place (tree : RTree) (boxes : List GlyphBox) (anchor : CollisionAnchor)
      (minPlacementScale maxPlacementScale padding : F32) (horizontal : Bool) :
      Collision.ReachableAnchored ext tree →
      (∃ glyph ∈ boxes, glyph.anchor = anchor) →
      F32.isnan anchor.x = false → F32.isnan anchor.y = false →
      Collision.ReachableAnchored ext
        (Collision.place ext tree boxes anchor minPlacementScale maxPlacementScale padding
          horizontal).2

/-! ## Notions the claims are stated with -/

/-- The padding `fmax(pad, placement.padding) * 8.0f` that `getPlacementScale`
keeps between a new box and a stored placement. -/
def effectivePadding (pad : F32) (placement : PlacementBox) : F32 :=
  F32.mul (F32.fmax pad placement.padding) (F32.fin 8)

/-- The new box (anchor `na`, rectangle `nb`) and the stored box (anchor `oa`,
rectangle `ob`), each scaled by `1/s` about its anchor, are kept apart by
`padding / s` on the x axis or on the y axis: the new box ends before the
stored one starts, or the stored one ends before the new one starts. -/
def separatedAt (s padding : F32) (na : CollisionAnchor) (nb : CollisionRect)
    (oa : CollisionAnchor) (ob : CollisionRect) : Bool :=
  F32.le (F32.add (F32.add na.x (F32.div nb.br.x s)) (F32.div padding s))
      (F32.add oa.x (F32.div ob.tl.x s)) ||
  F32.le (F32.add (F32.add oa.x (F32.div ob.br.x s)) (F32.div padding s))
      (F32.add na.x (F32.div nb.tl.x s)) ||
  F32.le (F32.add (F32.add na.y (F32.div nb.br.y s)) (F32.div padding s))
      (F32.add oa.y (F32.div ob.tl.y s)) ||
  F32.le (F32.add (F32.add oa.y (F32.div ob.br.y s)) (F32.div padding s))
      (F32.add na.y (F32.div nb.tl.y s))

/-- The point lies in the tile square `[0, 4096] x [0, 4096]`. -/
def inTile (p : CollisionPoint) : Bool :=
  F32.le (F32.fin 0) p.x && F32.le p.x (F32.fin 4096) &&
  F32.le (F32.fin 0) p.y && F32.le p.y (F32.fin 4096)

/-- The value is a finite number. -/
def F32.isFinite : F32 → Bool
  | F32.fin _ => true
  | _ => false

/-- Both coordinates are finite numbers. -/
def CollisionPoint.isFinite (p : CollisionPoint) : Bool :=
  p.x.isFinite && p.y.isFinite

/-- All four coordinates are finite numbers. -/
def CollisionRect.isFinite (r : CollisionRect) : Bool :=
  r.tl.isFinite && r.br.isFinite

/-- The running `minPlacementScale` went from `a` to `b`: it was left as it
is or raised. -/
def F32.raisedTo (a b : F32) : Prop := a = b ∨ F32.lt a b = true

/-- The record `insert` stores for a guard rectangle `r` anchored at
`anchor`. -/
def guardPlacement (ext : Externals) (anchor : CollisionAnchor) (r : CollisionRect) :
    PlacementBox :=
  { anchor := anchor
    bbox := r
    box := r
    rotate := false
    placementRange := (F32.mul ext.pi (F32.fin 2), F32.fin 0)
    placementScale := F32.fin 1
    maxScale := ext.glyphDefault.maxScale
    padding := F32.fin 2 }

/-- A value of the C library's mathematical functions with rounding set
aside: NaN, an infinity, or a real number. -/
inductive MathValue where
  | nan : MathValue
  | ninf : MathValue
  | pinf : MathValue
  | fin (r : ℝ) : MathValue

/-- The C library's `log` with rounding set aside (C99 7.12.6.7 and F.9.3.7):
`log(0) = -inf`, `log(x) = NaN` for `x < 0`, `log(+inf) = +inf`,
`log(NaN) = NaN`. -/
noncomputable def MathValue.log : MathValue → MathValue
  | MathValue.nan => MathValue.nan
  | MathValue.ninf => MathValue.nan
  | MathValue.pinf => MathValue.pinf
  | MathValue.fin r =>
    if r < 0 then MathValue.nan else if r = 0 then MathValue.ninf else MathValue.fin (Real.log r)

/-- Division with rounding set aside, by the rules of `F32.div`. -/
noncomputable def MathValue.div : MathValue → MathValue → MathValue
  | MathValue.nan, _ => MathValue.nan
  | _, MathValue.nan => MathValue.nan
  | MathValue.pinf, MathValue.pinf => MathValue.nan
  | MathValue.pinf, MathValue.ninf => MathValue.nan
  | MathValue.ninf, MathValue.pinf => MathValue.nan
  | MathValue.ninf, MathValue.ninf => MathValue.nan
  | MathValue.pinf, MathValue.fin r => if 0 ≤ r then MathValue.pinf else MathValue.ninf
  | MathValue.ninf, MathValue.fin r => if 0 ≤ r then MathValue.ninf else MathValue.pinf
  | MathValue.fin _, MathValue.pinf => MathValue.fin 0
  | MathValue.fin _, MathValue.ninf => MathValue.fin 0
  | MathValue.fin a, MathValue.fin b =>
    if b = 0 then
      (if a = 0 then MathValue.nan else if 0 < a then MathValue.pinf else MathValue.ninf)
    else MathValue.fin (a / b)

/-- The comparison `a == b`: NaN equals nothing, not even itself. -/
def MathValue.eq (a b : MathValue) : Prop :=
  a ≠ MathValue.nan ∧ b ≠ MathValue.nan ∧ a = b

/-- The rectangle with corners `(a, b)` and `(c, d)`. -/
def rect (a b c d : ℚ) : CollisionRect := ⟨⟨F32.fin a, F32.fin b⟩, ⟨F32.fin c, F32.fin d⟩⟩

/-- A non-rotating glyph with the same rectangle as box and bbox. -/
def glyphAt (r : CollisionRect) (x y : ℚ) (minScale maxScale : F32) : GlyphBox :=
  { bbox := r, box := r, rotate := false, anchor := ⟨F32.fin x, F32.fin y⟩,
    minScale := minScale, maxScale := maxScale }

/-- The box `[-50,-50]-[50,50]` of the spec's concrete scenario. -/
def squareBox : CollisionRect := rect (-50) (-50) 50 50

/-- A sample choice of the outside routines, used where a theorem is
instantiated at a concrete input. -/
def sampleExternals : Externals :=
  { sqrt := fun x => x
    log := fun x => x
    pi := F32.fin (355 / 113)
    rotationRange := fun _ _ _ => (F32.fin 0, F32.fin 0)
    glyphDefault := glyphAt (rect 0 0 0 0) 0 0 (F32.fin 0) F32.pinf }

/-- A default-constructed `GlyphBox` with `minScale = 0` and `maxScale = +inf`. -/
def zeroDefaultGlyph : GlyphBox := glyphAt (rect 0 0 0 0) 0 0 (F32.fin 0) F32.pinf

/-- A glyph anchored at `(1000, 1000)` with the box `[-50,-50]-[50,50]`,
shown at every scale from `0`. -/
def centerGlyph : GlyphBox := glyphAt squareBox 1000 1000 (F32.fin 0) F32.pinf

/-- A glyph anchored at `(1080, 1010)` with the box `[-50,-50]-[50,50]`,
shown at every scale from `0`. -/
def shiftedGlyph : GlyphBox := glyphAt squareBox 1080 1010 (F32.fin 0) F32.pinf

/-- A glyph that is never displayable: `minScale = 5 >= maxScale = 3`,
anchored in the tile at `(1000, 1000)`. -/
def neverShownGlyph : GlyphBox := glyphAt squareBox 1000 1000 (F32.fin 5) (F32.fin 3)

/-- A glyph with a negative `minScale`, `-1`. -/
def negativeFloorGlyph : GlyphBox := glyphAt squareBox 1000 1000 (F32.fin (-1)) F32.pinf

/-- A stored label whose box lies to the right of its anchor `(1000, 1000)`:
box and bbox `[100,-50]-[200,50]`, shown at every scale from `0`. -/
def offsetLabel : GlyphBox := glyphAt (rect 100 (-50) 200 50) 1000 1000 (F32.fin 0) F32.pinf

/-- A label anchored at `(1010, 1025)` with box `[-50,-50]-[50,50]` and the
enlarged query rectangle `[-300,-300]-[300,300]` as bbox. -/
def wideQueryLabel : GlyphBox :=
  { glyphAt squareBox 1010 1025 (F32.fin 0) F32.pinf with bbox := rect (-300) (-300) 300 300 }

/-- A glyph anchored at `(1000, 1000)` whose box `[10,10]-[20,20]` lies
below and to the right of the anchor. -/
def lowerRightGlyph : GlyphBox := glyphAt (rect 10 10 20 20) 1000 1000 (F32.fin 0) F32.pinf

/-- A glyph anchored at the same point `(1000, 1000)` whose box
`[-20,-20]-[-10,-10]` lies above and to the left of the anchor. -/
def upperLeftGlyph : GlyphBox := glyphAt (rect (-20) (-20) (-10) (-10)) 1000 1000 (F32.fin 0) F32.pinf

/-- The entry `insert` stores for `centerGlyph` committed at scale 1 with
padding 0 at its anchor `(1000, 1000)`. -/
def centerEntry : PlacementValue :=
  (scaledBox ⟨F32.fin 1000, F32.fin 1000⟩ squareBox (F32.fin 1),
    { anchor := ⟨F32.fin 1000, F32.fin 1000⟩
      bbox := squareBox
      box := squareBox
      rotate := false
      placementRange := (F32.mul (F32.fin 2) sampleExternals.pi, F32.fin 0)
      placementScale := F32.fin 1
      maxScale := F32.pinf
      padding := F32.fin 0 })

/-- The freshly constructed index after `centerGlyph` has been committed at
scale 1. -/
def centerIndex : RTree :=
  Collision.insert (Collision.Collision sampleExternals) [centerGlyph]
    ⟨F32.fin 1000, F32.fin 1000⟩ (F32.fin 1) (F32.mul (F32.fin 2) sampleExternals.pi, F32.fin 0)
    false (F32.fin 0)

/-- The axis-aligned pre-check of `getPlacementRange` for a glyph and an entry
the query returned (`intersectX && intersectY` of the source). -/
def rangePrecheck (glyph : GlyphBox) (placementScale : F32) (value : PlacementValue) : Bool :=
  let s := value.1
  let b := value.2
  let q := scaledBox glyph.anchor glyph.bbox placementScale
  if F32.gt placementScale b.placementScale then
    let o := scaledBox b.anchor b.bbox placementScale
    (F32.lt o.min_corner.x q.max_corner.x && F32.gt o.max_corner.x q.min_corner.x) &&
    (F32.lt o.min_corner.y q.max_corner.y && F32.gt o.max_corner.y q.min_corner.y)
  else
    let n := scaledBox glyph.anchor glyph.bbox b.placementScale
    (F32.lt n.min_corner.x s.max_corner.x && F32.gt n.max_corner.x s.min_corner.x) &&
    (F32.lt n.min_corner.y s.max_corner.y && F32.gt n.max_corner.y s.min_corner.y)

/-- The (glyph, stored neighbour) pairs `getPlacementRange` hands to
`rotationRange`, in the order of the two loops: for each glyph, the entries its
query returns that pass the pre-check. -/
def rangePairs (tree : RTree) (placementScale : F32) : List GlyphBox → List (GlyphBox × PlacementValue)
  | [] => []
  | glyph :: rest =>
    ((tree.query (scaledBox glyph.anchor glyph.bbox placementScale)).filter
        (rangePrecheck glyph placementScale)).map (fun value => (glyph, value)) ++
      rangePairs tree placementScale rest

/-- Following the claim: the bboxes of the glyph and of the stored neighbour,
both projected at the comparison scale
`max(placementScale, neighbour.placementScale)`, overlap strictly on both
axes. -/
def overlapAtComparisonScale (glyph : GlyphBox) (placementScale : F32) (b : PlacementBox) :
    Bool :=
  let m := F32.fmax placementScale b.placementScale
  let g := scaledBox glyph.anchor glyph.bbox m
  let o := scaledBox b.anchor b.bbox m
  (F32.lt o.min_corner.x g.max_corner.x && F32.gt o.max_corner.x g.min_corner.x) &&
  (F32.lt o.min_corner.y g.max_corner.y && F32.gt o.max_corner.y g.min_corner.y)

/-- The squared distance from the anchor to the corner `br` of a rectangle:
for a square centred on the anchor, its squared half-diagonal. -/
def halfDiagonalSq (r : CollisionRect) : F32 :=
  F32.add (F32.mul r.br.x r.br.x) (F32.mul r.br.y r.br.y)

/-- Following the claim: the squared distance from the anchor to the farthest
corner of a box, `max(tl.x^2, br.x^2) + max(tl.y^2, br.y^2)`. -/
def farthestCornerSq (box : CollisionRect) : F32 :=
  F32.add (F32.fmax (F32.mul box.tl.x box.tl.x) (F32.mul box.br.x box.br.x))
    (F32.fmax (F32.mul box.tl.y box.tl.y) (F32.mul box.br.y box.br.y))

/-- A two-glyph label whose glyphs have `minScale` 1 and 3. -/
def mixedFloorLabel : List GlyphBox :=
  [glyphAt squareBox 1000 1000 (F32.fin 1) F32.pinf,
   glyphAt squareBox 1100 1000 (F32.fin 3) F32.pinf]

/-- A glyph with the box `[-3,-4]-[3,4]`, whose farthest corner is at distance
5 from the anchor `(1000, 1000)`. -/
def threeFourGlyph : GlyphBox := glyphAt (rect (-3) (-4) 3 4) 1000 1000 (F32.fin 0) F32.pinf

/-- The freshly constructed index after the one-glyph label `glyph` has been
committed at its anchor at scale 1 with padding 0. -/
def indexWith (ext : Externals) (glyph : GlyphBox) : RTree :=
  Collision.insert (Collision.Collision ext) [glyph] glyph.anchor (F32.fin 1)
    (F32.mul (F32.fin 2) ext.pi, F32.fin 0) false (F32.fin 0)

/-- A glyph anchored at `(1090, 1000)` with box and bbox `[-30,-40]-[30,40]`,
whose farthest corner is at distance 50 from the anchor. -/
def nearbyGlyph : GlyphBox := glyphAt (rect (-30) (-40) 30 40) 1090 1000 (F32.fin 0) F32.pinf

theorem glyphLoop_outside (tree : RTree) (maxPlacementScale pad : F32) :
    ∀ (glyphs : List GlyphBox) (minPlacementScale : F32),
      (∃ glyph ∈ glyphs, outsideTile glyph.anchor = true) →
      glyphLoop tree maxPlacementScale pad glyphs minPlacementScale = none := by
  intro glyphs
  induction glyphs with
  | nil => intro _ h; obtain ⟨g, hg, _⟩ := h; cases hg
  | cons g rest ih =>
    intro m h
    unfold glyphLoop
    by_cases hout : outsideTile g.anchor = true
    · simp [hout]
    · have hrest : ∃ glyph ∈ rest, outsideTile glyph.anchor = true := by
        obtain ⟨g', hg', ho⟩ := h
        rcases List.mem_cons.mp hg' with rfl | hmem
        · exact absurd ho hout
        · exact ⟨g', hmem, ho⟩
      simp only [hout, Bool.false_eq_true, if_false]
      split
      · exact ih _ hrest
      · split
        · rfl
        · exact ih _ hrest

theorem getPlacementScale_of_outside (tree : RTree) (glyphs : List GlyphBox)
    (minPlacementScale maxPlacementScale pad : F32)
    (h : ∃ glyph ∈ glyphs, outsideTile glyph.anchor = true) :
    Collision.getPlacementScale tree glyphs minPlacementScale maxPlacementScale pad =
      F32.fin (-1) := by
  simp [Collision.getPlacementScale, glyphLoop_outside tree maxPlacementScale pad glyphs
    minPlacementScale h]

/-- C2: a glyph list holding, anywhere, a glyph whose anchor has `x < 0`,
`x > 4096`, `y < 0` or `y > 4096` makes `getPlacementScale` return the
sentinel `-1`, for every index, window, padding and the other glyph fields. -/
theorem getPlacementScale_anchor_outside (tree : RTree) (glyphs : List GlyphBox)
    (minPlacementScale maxPlacementScale pad : F32) (glyph : GlyphBox)
    (hmem : glyph ∈ glyphs)
    (hout : F32.lt glyph.anchor.x (F32.fin 0) = true ∨ F32.gt glyph.anchor.x (F32.fin 4096) = true ∨
      F32.lt glyph.anchor.y (F32.fin 0) = true ∨ F32.gt glyph.anchor.y (F32.fin 4096) = true) :
    Collision.getPlacementScale tree glyphs minPlacementScale maxPlacementScale pad =
      F32.fin (-1) := by
  have h : outsideTile glyph.anchor = true := by
    simp only [outsideTile, Bool.or_eq_true]
    tauto
  exact getPlacementScale_of_outside tree glyphs minPlacementScale maxPlacementScale pad
    ⟨glyph, hmem, h⟩

/-- C2 at a concrete input: the second of two glyphs is anchored at
`(4097, 10)`. -/
theorem getPlacementScale_anchor_outside_witness :
    Collision.getPlacementScale (Collision.Collision sampleExternals)
      [glyphAt squareBox 1000 1000 (F32.fin 1) (F32.fin 10),
       glyphAt squareBox 4097 10 (F32.fin 1) (F32.fin 10)]
      (F32.fin 1) (F32.fin 10) (F32.fin 0) = F32.fin (-1) :=
  getPlacementScale_anchor_outside _ _ _ _ _ (glyphAt squareBox 4097 10 (F32.fin 1) (F32.fin 10))
    (by simp) (by right; left; simp [glyphAt, F32.gt, F32.lt]; norm_num)

/-! ### Rejected labels (C6) -/

theorem place_negative (ext : Externals) (tree : RTree) (boxes : List GlyphBox)
    (anchor : CollisionAnchor) (minPlacementScale maxPlacementScale padding : F32)
    (horizontal : Bool)
    (hneg : F32.lt (Collision.getPlacementScale tree boxes (placeFloor boxes minPlacementScale)
      maxPlacementScale padding) (F32.fin 0) = true) :
    Collision.place ext tree boxes anchor minPlacementScale maxPlacementScale padding horizontal =
      (none, tree) := by
  simp [Collision.place, hneg]

/-- C6: when the scale resolver, run as `place` runs it, returns a negative
scale (the sentinel), `place` returns the empty property and the index after
the call is the index before it. -/
theorem place_infeasible (ext : Externals) (tree : RTree) (boxes : List GlyphBox)
    (anchor : CollisionAnchor) (minPlacementScale maxPlacementScale padding : F32)
    (horizontal : Bool)
    (hneg : F32.lt (Collision.getPlacementScale tree boxes (placeFloor boxes minPlacementScale)
      maxPlacementScale padding) (F32.fin 0) = true) :
    Collision.place ext tree boxes anchor minPlacementScale maxPlacementScale padding horizontal =
      (none, tree) :=
  place_negative ext tree boxes anchor minPlacementScale maxPlacementScale padding horizontal hneg

/-- C6 at a concrete input: a label anchored at `(4097, 10)` on the freshly
constructed engine. -/
theorem place_infeasible_witness :
    Collision.place sampleExternals (Collision.Collision sampleExternals)
      [glyphAt squareBox 4097 10 (F32.fin 1) (F32.fin 10)] ⟨F32.fin 4097, F32.fin 10⟩
      (F32.fin 1) (F32.fin 10) (F32.fin 0) true =
      (none, Collision.Collision sampleExternals) :=
  place_infeasible _ _ _ _ _ _ _ _ (by
    rw [getPlacementScale_of_outside _ _ _ _ _
      ⟨glyphAt squareBox 4097 10 (F32.fin 1) (F32.fin 10), by simp,
        by simp [outsideTile, glyphAt, F32.gt, F32.lt]; norm_num⟩]
    simp [F32.lt])

/-! ### The index is append-only (C8) -/

/-- C8: the index is append-only.  After any call the index is the index
before the call followed by the entries the call added, so every entry stored
before is still stored, unchanged and at its place; after `getPlacementScale`
and `getPlacementRange` it is the index before the call. -/
theorem index_append_only (ext : Externals) (tree : RTree) :
    (∀ call : Collision.Call, ∃ added : RTree, Collision.after ext tree call = tree ++ added) ∧
    (∀ boxes anchor minPlacementScale maxPlacementScale padding horizontal,
      ∀ value ∈ tree, value ∈ (Collision.place ext tree boxes anchor minPlacementScale
        maxPlacementScale padding horizontal).2) ∧
    (∀ glyphs anchor placementScale placementRange horizontal padding,
      ∀ value ∈ tree, value ∈ Collision.insert tree glyphs anchor placementScale placementRange
        horizontal padding) ∧
    (∀ glyphs minPlacementScale maxPlacementScale pad,
      Collision.after ext tree (.getPlacementScale glyphs minPlacementScale maxPlacementScale pad)
        = tree) ∧
    (∀ glyphs placementScale,
      Collision.after ext tree (.getPlacementRange glyphs placementScale) = tree) := by
  have hplace : ∀ boxes anchor minPlacementScale maxPlacementScale padding horizontal,
      ∃ added : RTree, (Collision.place ext tree boxes anchor minPlacementScale
        maxPlacementScale padding horizontal).2 = tree ++ added := by
    intro boxes anchor mn mx padding horizontal
    unfold Collision.place
    by_cases h : F32.lt (Collision.getPlacementScale tree boxes (placeFloor boxes mn) mx padding)
        (F32.fin 0) = true
    · exact ⟨[], by simp [h]⟩
    · simp only [h, Bool.false_eq_true, if_false]
      exact ⟨_, rfl⟩
  refine ⟨?_, ?_, ?_, ?_, ?_⟩
  · intro call
    cases call with
    | place boxes anchor mn mx padding horizontal => exact hplace boxes anchor mn mx padding horizontal
    | insert glyphs anchor s r h p => exact ⟨_, rfl⟩
    | getPlacementScale => exact ⟨[], by simp [Collision.after]⟩
    | getPlacementRange => exact ⟨[], by simp [Collision.after]⟩
  · intro boxes anchor mn mx padding horizontal value hv
    obtain ⟨added, h⟩ := hplace boxes anchor mn mx padding horizontal
    rw [h]
    exact List.mem_append_left _ hv
  · intro glyphs anchor s r h p value hv
    exact List.mem_append_left _ hv
  · intros; rfl
  · intros; rfl

/-! ### Arithmetic of `F32` on finite values -/

namespace F32

@[simp] theorem lt_fin_fin (a b : ℚ) : lt (fin a) (fin b) = decide (a < b) := rfl
@[simp] theorem le_fin_fin (a b : ℚ) : le (fin a) (fin b) = decide (a ≤ b) := rfl
@[simp] theorem gt_fin_fin (a b : ℚ) : gt (fin a) (fin b) = decide (b < a) := rfl
@[simp] theorem ge_fin_fin (a b : ℚ) : ge (fin a) (fin b) = decide (b ≤ a) := rfl
@[simp] theorem eq_fin_fin (a b : ℚ) : eq (fin a) (fin b) = decide (a = b) := by
  simp [eq]
@[simp] theorem neg_fin (a : ℚ) : neg (fin a) = fin (-a) := rfl
@[simp] theorem add_fin_fin (a b : ℚ) : add (fin a) (fin b) = fin (a + b) := rfl
@[simp] theorem sub_fin_fin (a b : ℚ) : sub (fin a) (fin b) = fin (a - b) := by
  simp [sub, sub_eq_add_neg]
@[simp] theorem mul_fin_fin (a b : ℚ) : mul (fin a) (fin b) = fin (a * b) := rfl
theorem div_fin_fin (a b : ℚ) (hb : b ≠ 0) : div (fin a) (fin b) = fin (a / b) := by
  simp [div, hb]
theorem fmax_fin_fin (a b : ℚ) : fmax (fin a) (fin b) = fin (max a b) := by
  simp only [fmax, lt_fin_fin, decide_eq_true_eq]
  split
  · rw [max_eq_right (le_of_lt ‹a < b›)]
  · rw [max_eq_left (not_lt.mp ‹¬ a < b›)]
theorem fmin_fin_fin (a b : ℚ) : fmin (fin a) (fin b) = fin (min a b) := by
  simp only [fmin, lt_fin_fin, decide_eq_true_eq]
  split
  · rw [min_eq_right (le_of_lt ‹b < a›)]
  · rw [min_eq_left (not_lt.mp ‹¬ b < a›)]

theorem fmax_of_le {a b : F32} (h : le b a = true) : fmax a b = a := by
  cases a <;> cases b <;> simp_all [le, fmax, lt]
theorem lt_le_chain {a b c : F32} (h1 : lt a b = true) (h2 : le b c = true) : lt a c = true := by
  cases a <;> cases b <;> cases c <;> simp_all [le, lt]
  exact h1.trans_le h2
theorem le_eq_false_of_lt {a b : F32} (h : lt a b = true) : le b a = false := by
  cases a <;> cases b <;> simp_all [le, lt]

end F32

/-! ### The freshly constructed index and one-glyph labels -/

/-- The stored record of a guard rectangle. -/
theorem fresh_eq (ext : Externals) :
    Collision.Collision ext =
      [(⟨⟨F32.fin 0, F32.fin 0⟩, ⟨F32.fin 0, F32.fin 32768⟩⟩,
          guardPlacement ext ⟨F32.fin 0, F32.fin 0⟩ (rect 0 0 0 32768)),
       (⟨⟨F32.fin 0, F32.fin 0⟩, ⟨F32.fin 32768, F32.fin 0⟩⟩,
          guardPlacement ext ⟨F32.fin 0, F32.fin 0⟩ (rect 0 0 32768 0)),
       (⟨⟨F32.fin (-28672), F32.fin 4096⟩, ⟨F32.fin 4096, F32.fin 4096⟩⟩,
          guardPlacement ext ⟨F32.fin 4096, F32.fin 4096⟩ (rect (-32768) 0 0 0)),
       (⟨⟨F32.fin 4096, F32.fin (-28672)⟩, ⟨F32.fin 4096, F32.fin 4096⟩⟩,
          guardPlacement ext ⟨F32.fin 4096, F32.fin 4096⟩ (rect 0 (-32768) 0 0))] := by
  simp [Collision.Collision, Collision.insert, guardGlyph, guardPlacement, scaledBox, rect,
    F32.fmax_fin_fin, F32.div_fin_fin]
  norm_num

theorem fresh_query_empty (ext : Externals) (q : Box)
    (h : F32.lt (F32.fin 0) q.min_corner.x = true ∧ F32.lt (F32.fin 0) q.min_corner.y = true ∧
      F32.lt q.max_corner.x (F32.fin 4096) = true ∧ F32.lt q.max_corner.y (F32.fin 4096) = true) :
    RTree.query (Collision.Collision ext) q = [] := by
  obtain ⟨h1, h2, h3, h4⟩ := h
  rw [fresh_eq]
  simp [RTree.query, List.filter, Box.intersects, F32.gt, h1, h2, h3, h4]

theorem query_append (t1 t2 : RTree) (q : Box) :
    RTree.query (t1 ++ t2) q = RTree.query t1 q ++ RTree.query t2 q := by
  simp [RTree.query]

theorem insert_eq_append (tree : RTree) (glyphs : List GlyphBox) (anchor : CollisionAnchor)
    (s : F32) (r : PlacementRange) (h : Bool) (p : F32) :
    Collision.insert tree glyphs anchor s r h p = tree ++ Collision.insert [] glyphs anchor s r h p := by
  simp [Collision.insert]

theorem place_accepted (ext : Externals) (tree : RTree) (boxes : List GlyphBox)
    (anchor : CollisionAnchor) (minPlacementScale maxPlacementScale padding : F32)
    (horizontal : Bool)
    (h : F32.lt (Collision.getPlacementScale tree boxes (placeFloor boxes minPlacementScale)
      maxPlacementScale padding) (F32.fin 0) = false) :
    Collision.place ext tree boxes anchor minPlacementScale maxPlacementScale padding horizontal =
      (some ⟨F32.div (ext.log (Collision.getPlacementScale tree boxes
            (placeFloor boxes minPlacementScale) maxPlacementScale padding)) (ext.log (F32.fin 2)),
          Collision.getPlacementRange ext tree (placeGlyphs ext boxes anchor horizontal)
            (Collision.getPlacementScale tree boxes (placeFloor boxes minPlacementScale)
              maxPlacementScale padding)⟩,
        Collision.insert tree (placeGlyphs ext boxes anchor horizontal) anchor
          (Collision.getPlacementScale tree boxes (placeFloor boxes minPlacementScale)
            maxPlacementScale padding)
          (Collision.getPlacementRange ext tree (placeGlyphs ext boxes anchor horizontal)
            (Collision.getPlacementScale tree boxes (placeFloor boxes minPlacementScale)
              maxPlacementScale padding)) horizontal padding) := by
  simp [Collision.place, h]

theorem placeFloor_single_le (g : GlyphBox) (m : F32) (h : F32.le g.minScale m = true) :
    placeFloor [g] m = m := by
  simp only [placeFloor, List.foldl, util.min, util.max, F32.gt]
  cases hg : g.minScale <;> cases m <;> simp_all [F32.le, F32.lt]

theorem getPlacementScale_single (tree : RTree) (g : GlyphBox)
    (minPlacementScale maxPlacementScale pad : F32)
    (hin : outsideTile g.anchor = false)
    (hskip : F32.ge (F32.fmax minPlacementScale g.minScale) g.maxScale = false) :
    Collision.getPlacementScale tree [g] minPlacementScale maxPlacementScale pad =
      match blockingLoop g.anchor g.box (F32.fmax minPlacementScale g.minScale) g.maxScale
          maxPlacementScale pad
          (tree.query (scaledBox g.anchor g.bbox (F32.fmax minPlacementScale g.minScale)))
          minPlacementScale with
      | none => F32.fin (-1)
      | some m => m := by
  simp only [Collision.getPlacementScale, glyphLoop, hin, hskip, Bool.false_eq_true, if_false]
  cases blockingLoop g.anchor g.box (F32.fmax minPlacementScale g.minScale) g.maxScale
    maxPlacementScale pad
    (tree.query (scaledBox g.anchor g.bbox (F32.fmax minPlacementScale g.minScale)))
    minPlacementScale <;> rfl

/-! ### The concrete scenario of the spec (C9) -/

/-- C9: the concrete scenario of the spec.  On a freshly constructed engine,
with padding 0 and window `[1, 10]`, each label one glyph with
`box = bbox = [-50,-50]-[50,50]`, `minScale <= 1` and `maxScale >= 10`: label
A anchored at `(1000, 1000)` is resolved at scale 1; after A is committed at
scale 1 (by `insert`, with any rotation range and flag), label B anchored at
`(1080, 1000)` is resolved at the x-axis clearance `(50 + 50 + 0) / 80`, which
is greater than 1; and `place` itself accepts A at scale 1 and commits it so. -/
theorem scenario_two_labels (ext : Externals) (minA maxA minB maxB : F32)
    (hminA : F32.le minA (F32.fin 1) = true) (hmaxA : F32.ge maxA (F32.fin 10) = true)
    (hminB : F32.le minB (F32.fin 1) = true) (hmaxB : F32.ge maxB (F32.fin 10) = true) :
    Collision.getPlacementScale (Collision.Collision ext) [glyphAt squareBox 1000 1000 minA maxA]
        (F32.fin 1) (F32.fin 10) (F32.fin 0) = F32.fin 1 ∧
    (∀ (range : PlacementRange) (horizontal : Bool),
      Collision.getPlacementScale
        (Collision.insert (Collision.Collision ext) [glyphAt squareBox 1000 1000 minA maxA]
          ⟨F32.fin 1000, F32.fin 1000⟩ (F32.fin 1) range horizontal (F32.fin 0))
        [glyphAt squareBox 1080 1000 minB maxB] (F32.fin 1) (F32.fin 10) (F32.fin 0) =
          F32.fin ((50 + 50 + 0) / 80)) ∧
    F32.gt (F32.fin ((50 + 50 + 0) / 80)) (F32.fin 1) = true ∧
    Collision.place ext (Collision.Collision ext) [glyphAt squareBox 1000 1000 minA maxA]
        ⟨F32.fin 1000, F32.fin 1000⟩ (F32.fin 1) (F32.fin 10) (F32.fin 0) false =
      (some ⟨F32.div (ext.log (F32.fin 1)) (ext.log (F32.fin 2)),
          (F32.mul (F32.fin 2) ext.pi, F32.fin 0)⟩,
        Collision.insert (Collision.Collision ext) [glyphAt squareBox 1000 1000 minA maxA]
          ⟨F32.fin 1000, F32.fin 1000⟩ (F32.fin 1) (F32.mul (F32.fin 2) ext.pi, F32.fin 0) false
          (F32.fin 0)) := by
  have hA1 : F32.fmax (F32.fin 1) minA = F32.fin 1 := F32.fmax_of_le hminA
  have hB1 : F32.fmax (F32.fin 1) minB = F32.fin 1 := F32.fmax_of_le hminB
  have hA2 : F32.ge (F32.fin 1) maxA = false :=
    F32.le_eq_false_of_lt (F32.lt_le_chain (by simp : F32.lt (F32.fin 1) (F32.fin 10) = true) hmaxA)
  have hB2 : F32.ge (F32.fin 1) maxB = false :=
    F32.le_eq_false_of_lt (F32.lt_le_chain (by simp : F32.lt (F32.fin 1) (F32.fin 10) = true) hmaxB)
  have hA3 : F32.lt (F32.fin (5 / 4)) maxA = true :=
    F32.lt_le_chain (by simp; norm_num : F32.lt (F32.fin (5 / 4)) (F32.fin 10) = true) hmaxA
  have hB3 : F32.lt (F32.fin (5 / 4)) maxB = true :=
    F32.lt_le_chain (by simp; norm_num : F32.lt (F32.fin (5 / 4)) (F32.fin 10) = true) hmaxB
  have hinA : outsideTile (glyphAt squareBox 1000 1000 minA maxA).anchor = false := by
    simp [outsideTile, glyphAt, F32.gt]; norm_num
  have hinB : outsideTile (glyphAt squareBox 1080 1000 minB maxB).anchor = false := by
    simp [outsideTile, glyphAt, F32.gt]; norm_num
  have hqA : RTree.query (Collision.Collision ext)
      (scaledBox ⟨F32.fin 1000, F32.fin 1000⟩ squareBox (F32.fin 1)) = [] := by
    apply fresh_query_empty
    simp [scaledBox, squareBox, rect, F32.div_fin_fin]
    norm_num
  have hscaleA : Collision.getPlacementScale (Collision.Collision ext)
      [glyphAt squareBox 1000 1000 minA maxA] (F32.fin 1) (F32.fin 10) (F32.fin 0) = F32.fin 1 := by
    rw [getPlacementScale_single _ _ _ _ _ hinA (by simpa [glyphAt, hA1] using hA2)]
    simp only [glyphAt, hA1, hqA, blockingLoop]
  refine ⟨hscaleA, ?_, ?_, ?_⟩
  · intro range horizontal
    have hq : RTree.query (Collision.Collision ext)
        (scaledBox ⟨F32.fin 1080, F32.fin 1000⟩ squareBox (F32.fin 1)) = [] := by
      apply fresh_query_empty
      simp [scaledBox, squareBox, rect, F32.div_fin_fin]
      norm_num
    have hcfs : ∀ (b : CollisionRect) (r : Bool) (pr : PlacementRange) (ps mx : F32),
        collisionFreeScale ⟨F32.fin 1080, F32.fin 1000⟩ squareBox (F32.fin 0)
          { anchor := ⟨F32.fin 1000, F32.fin 1000⟩, bbox := b, box := squareBox, rotate := r,
            placementRange := pr, placementScale := ps, maxScale := mx, padding := F32.fin 0 } =
          F32.fin (5 / 4) := by
      intro b r pr ps mx
      simp [collisionFreeScale, squareBox, rect, F32.fmax_fin_fin, F32.div_fin_fin, F32.div,
        F32.isnan, F32.fmax, F32.fmin, F32.lt]
      norm_num
    simp only [squareBox, rect] at hcfs
    rw [insert_eq_append, getPlacementScale_single _ _ _ _ _ hinB (by simpa [glyphAt, hB1] using hB2)]
    simp only [glyphAt, hB1, query_append, hq, List.nil_append]
    simp [Collision.insert, blockingLoop, hcfs, CollisionPoint.eq, F32.gt, hA1, hA3, hB3,
      RTree.query, List.filter, Box.intersects, scaledBox, squareBox, rect, F32.div_fin_fin]
    norm_num [blockingLoop, hcfs, CollisionPoint.eq, F32.gt, hA3, hB3]
  · simp; norm_num
  · have hfloor : placeFloor [glyphAt squareBox 1000 1000 minA maxA] (F32.fin 1) = F32.fin 1 :=
      placeFloor_single_le _ _ hminA
    rw [place_accepted _ _ _ _ _ _ _ _ (by rw [hfloor, hscaleA]; simp), hfloor, hscaleA]
    have hglyphs : placeGlyphs ext [glyphAt squareBox 1000 1000 minA maxA]
        ⟨F32.fin 1000, F32.fin 1000⟩ false = [glyphAt squareBox 1000 1000 minA maxA] := by
      simp [placeGlyphs, placeBBox, glyphAt]
    have hrange : Collision.getPlacementRange ext (Collision.Collision ext)
        [glyphAt squareBox 1000 1000 minA maxA] (F32.fin 1) =
        (F32.mul (F32.fin 2) ext.pi, F32.fin 0) := by
      simp only [Collision.getPlacementRange, List.foldl, glyphAt, hqA]
    rw [hglyphs, hrange]

/-- C9 at a concrete input: label A with scale bounds `[0, 10]`, label B with
scale bounds `[1, +inf]`. -/
theorem scenario_two_labels_witness :
    Collision.getPlacementScale (Collision.Collision sampleExternals)
        [glyphAt squareBox 1000 1000 (F32.fin 0) (F32.fin 10)]
        (F32.fin 1) (F32.fin 10) (F32.fin 0) = F32.fin 1 ∧
    (∀ (range : PlacementRange) (horizontal : Bool),
      Collision.getPlacementScale
        (Collision.insert (Collision.Collision sampleExternals)
          [glyphAt squareBox 1000 1000 (F32.fin 0) (F32.fin 10)]
          ⟨F32.fin 1000, F32.fin 1000⟩ (F32.fin 1) range horizontal (F32.fin 0))
        [glyphAt squareBox 1080 1000 (F32.fin 1) F32.pinf] (F32.fin 1) (F32.fin 10) (F32.fin 0) =
          F32.fin ((50 + 50 + 0) / 80)) :=
  have h := scenario_two_labels sampleExternals (F32.fin 0) (F32.fin 10) (F32.fin 1) F32.pinf
    (by simp) (by simp) (by simp) (by simp [F32.ge, F32.le])
  ⟨h.1, h.2.1⟩

/-! ### Labels whose queries return nothing (C4) -/

theorem glyphLoop_no_hit (tree : RTree) (maxPlacementScale pad minPlacementScale : F32) :
    ∀ glyphs : List GlyphBox,
      (∀ glyph ∈ glyphs, outsideTile glyph.anchor = false) →
      (∀ glyph ∈ glyphs, tree.query
        (scaledBox glyph.anchor glyph.bbox (F32.fmax minPlacementScale glyph.minScale)) = []) →
      glyphLoop tree maxPlacementScale pad glyphs minPlacementScale = some minPlacementScale := by
  intro glyphs
  induction glyphs with
  | nil => intro _ _; rfl
  | cons g rest ih =>
    intro hin hq
    have ih' := ih (fun x hx => hin x (List.mem_cons_of_mem _ hx))
      (fun x hx => hq x (List.mem_cons_of_mem _ hx))
    unfold glyphLoop
    simp only [hin g (List.mem_cons_self _ _), Bool.false_eq_true, if_false]
    split
    · exact ih'
    · simp only [hq g (List.mem_cons_self _ _), blockingLoop]
      exact ih'

/-- C4, as amended: when every glyph anchor is in the tile and no glyph's
scaled query box (anchor plus bbox corners divided by
`fmax(minPlacementScale, glyph.minScale)`) intersects the bounding box of a
stored entry, `getPlacementScale` returns exactly the `minPlacementScale` it
was given. -/
theorem getPlacementScale_no_hit (tree : RTree) (glyphs : List GlyphBox)
    (minPlacementScale maxPlacementScale pad : F32)
    (hin : ∀ glyph ∈ glyphs, outsideTile glyph.anchor = false)
    (hmiss : ∀ glyph ∈ glyphs, ∀ value ∈ tree,
      value.1.intersects
        (scaledBox glyph.anchor glyph.bbox (F32.fmax minPlacementScale glyph.minScale)) = false) :
    Collision.getPlacementScale tree glyphs minPlacementScale maxPlacementScale pad =
      minPlacementScale := by
  have hq : ∀ glyph ∈ glyphs, tree.query
      (scaledBox glyph.anchor glyph.bbox (F32.fmax minPlacementScale glyph.minScale)) = [] := by
    intro g hg
    simp only [RTree.query, List.filter_eq_nil_iff]
    intro v hv
    simp [hmiss g hg v hv]
  simp [Collision.getPlacementScale, glyphLoop_no_hit tree maxPlacementScale pad minPlacementScale
    glyphs hin hq]

theorem getPlacementRange_no_hit (ext : Externals) (tree : RTree) (s : F32) :
    ∀ (glyphs : List GlyphBox) (init : PlacementRange),
      (∀ glyph ∈ glyphs, tree.query (scaledBox glyph.anchor glyph.bbox s) = []) →
      glyphs.foldl (fun placementRange glyph =>
        (tree.query (scaledBox glyph.anchor glyph.bbox s)).foldl
          (rangeStep ext glyph s) placementRange) init = init := by
  intro glyphs
  induction glyphs with
  | nil => intro _ _; rfl
  | cons g rest ih =>
    intro init h
    simp only [List.foldl, h g (List.mem_cons_self _ _)]
    exact ih init (fun x hx => h x (List.mem_cons_of_mem _ hx))

/-- C4, counterexample to "labels whose boxes are disjoint at every scale of
the window are both accepted at minPlacementScale": with padding 0 and window
`[1, 4]` the boxes of `wideQueryLabel` and `offsetLabel` are apart on the x
axis at every scale `s` in `[1, 4]`; `offsetLabel` is accepted on the fresh
engine at scale 1; then the resolver returns 4 for `wideQueryLabel`, not the
floor 1, and `place` accepts it at scale 4. -/
theorem disjoint_labels_floor_raised :
    (∀ s : ℚ, 1 ≤ s → s ≤ 4 →
      separatedAt (F32.fin s) (F32.fin 0) wideQueryLabel.anchor wideQueryLabel.box
        offsetLabel.anchor offsetLabel.box = true) ∧
    (∀ ext : Externals,
      (Collision.place ext (Collision.Collision ext) [offsetLabel] ⟨F32.fin 1000, F32.fin 1000⟩
        (F32.fin 1) (F32.fin 4) (F32.fin 0) false).1 =
        some ⟨F32.div (ext.log (F32.fin 1)) (ext.log (F32.fin 2)),
          (F32.mul (F32.fin 2) ext.pi, F32.fin 0)⟩) ∧
    (∀ ext : Externals,
      Collision.getPlacementScale
        (Collision.place ext (Collision.Collision ext) [offsetLabel] ⟨F32.fin 1000, F32.fin 1000⟩
          (F32.fin 1) (F32.fin 4) (F32.fin 0) false).2
        [wideQueryLabel] (F32.fin 1) (F32.fin 4) (F32.fin 0) = F32.fin 4) ∧
    (∀ ext : Externals,
      (Collision.place ext
        (Collision.place ext (Collision.Collision ext) [offsetLabel] ⟨F32.fin 1000, F32.fin 1000⟩
          (F32.fin 1) (F32.fin 4) (F32.fin 0) false).2
        [wideQueryLabel] ⟨F32.fin 1010, F32.fin 1025⟩ (F32.fin 1) (F32.fin 4) (F32.fin 0) false).1 =
        some ⟨F32.div (ext.log (F32.fin 4)) (ext.log (F32.fin 2)),
          (F32.mul (F32.fin 2) ext.pi, F32.fin 0)⟩) := by
  have hA : ∀ ext : Externals,
      Collision.place ext (Collision.Collision ext) [offsetLabel] ⟨F32.fin 1000, F32.fin 1000⟩
        (F32.fin 1) (F32.fin 4) (F32.fin 0) false =
      (some ⟨F32.div (ext.log (F32.fin 1)) (ext.log (F32.fin 2)),
          (F32.mul (F32.fin 2) ext.pi, F32.fin 0)⟩,
        Collision.Collision ext ++ Collision.insert [] [offsetLabel] ⟨F32.fin 1000, F32.fin 1000⟩
          (F32.fin 1) (F32.mul (F32.fin 2) ext.pi, F32.fin 0) false (F32.fin 0)) := by
    intro ext
    have hq : RTree.query (Collision.Collision ext)
        (scaledBox ⟨F32.fin 1000, F32.fin 1000⟩ (rect 100 (-50) 200 50) (F32.fin 1)) = [] := by
      apply fresh_query_empty
      simp [scaledBox, rect, F32.div_fin_fin]
      norm_num
    have hfloor : placeFloor [offsetLabel] (F32.fin 1) = F32.fin 1 :=
      placeFloor_single_le _ _ (by simp [offsetLabel, glyphAt])
    have hscale : Collision.getPlacementScale (Collision.Collision ext) [offsetLabel]
        (F32.fin 1) (F32.fin 4) (F32.fin 0) = F32.fin 1 := by
      rw [getPlacementScale_single _ _ _ _ _
        (by simp [outsideTile, offsetLabel, glyphAt, F32.gt]; norm_num)
        (by simp [offsetLabel, glyphAt, F32.fmax_fin_fin, F32.ge, F32.le])]
      simp only [offsetLabel, glyphAt, F32.fmax_fin_fin]
      norm_num [hq, blockingLoop]
    have hglyphs : placeGlyphs ext [offsetLabel] ⟨F32.fin 1000, F32.fin 1000⟩ false =
        [offsetLabel] := by
      simp [placeGlyphs, placeBBox, offsetLabel, glyphAt]
    have hrange : Collision.getPlacementRange ext (Collision.Collision ext) [offsetLabel]
        (F32.fin 1) = (F32.mul (F32.fin 2) ext.pi, F32.fin 0) :=
      getPlacementRange_no_hit ext _ _ _ _ (by simpa [offsetLabel, glyphAt] using hq)
    rw [place_accepted _ _ _ _ _ _ _ _ (by rw [hfloor, hscale]; simp), hfloor, hscale, hglyphs,
      hrange, insert_eq_append]
  have hB : ∀ ext : Externals,
      Collision.getPlacementScale
        (Collision.Collision ext ++ Collision.insert [] [offsetLabel] ⟨F32.fin 1000, F32.fin 1000⟩
          (F32.fin 1) (F32.mul (F32.fin 2) ext.pi, F32.fin 0) false (F32.fin 0))
        [wideQueryLabel] (F32.fin 1) (F32.fin 4) (F32.fin 0) = F32.fin 4 := by
    intro ext
    have hq : RTree.query (Collision.Collision ext)
        (scaledBox ⟨F32.fin 1010, F32.fin 1025⟩ (rect (-300) (-300) 300 300) (F32.fin 1)) = [] := by
      apply fresh_query_empty
      simp [scaledBox, rect, F32.div_fin_fin]
      norm_num
    have hcfs : ∀ (b : CollisionRect) (r : Bool) (pr : PlacementRange) (ps mx : F32),
        collisionFreeScale ⟨F32.fin 1010, F32.fin 1025⟩ squareBox (F32.fin 0)
          { anchor := ⟨F32.fin 1000, F32.fin 1000⟩, bbox := b, box := rect 100 (-50) 200 50,
            rotate := r, placementRange := pr, placementScale := ps, maxScale := mx,
            padding := F32.fin 0 } = F32.fin 4 := by
      intro b r pr ps mx
      simp [collisionFreeScale, squareBox, rect, F32.fmax_fin_fin, F32.fmin_fin_fin,
        F32.div, F32.isnan]
      norm_num [F32.fmax_fin_fin, F32.fmin_fin_fin]
    simp only [squareBox, rect] at hcfs
    rw [getPlacementScale_single _ _ _ _ _
      (by simp [outsideTile, wideQueryLabel, glyphAt, F32.gt]; norm_num)
      (by simp [wideQueryLabel, glyphAt, F32.fmax_fin_fin, F32.ge, F32.le])]
    simp only [wideQueryLabel, glyphAt, F32.fmax_fin_fin, query_append]
    norm_num [hq]
    simp [Collision.insert, offsetLabel, glyphAt, blockingLoop, hcfs, CollisionPoint.eq, F32.gt,
      RTree.query, List.filter, Box.intersects, scaledBox, squareBox, rect, F32.div_fin_fin,
      F32.fmax_fin_fin, F32.lt]
    norm_num [blockingLoop, hcfs, CollisionPoint.eq, F32.gt, F32.lt]
  refine ⟨?_, ?_, ?_, ?_⟩
  · intro s h1 h4
    have hs : s ≠ 0 := by linarith
    have hpos : (0 : ℚ) < s := by linarith
    simp only [separatedAt, wideQueryLabel, offsetLabel, glyphAt, squareBox, rect,
      F32.div_fin_fin _ _ hs, F32.add_fin_fin, F32.le_fin_fin, Bool.or_eq_true, decide_eq_true_eq]
    left; left; left
    have h50 : (50 : ℚ) / s ≥ 10 := by
      rw [ge_iff_le, le_div_iff₀ hpos]; linarith
    have h100 : (100 : ℚ) / s = 50 / s + 50 / s := by ring
    rw [h100]
    simp only [zero_div, add_zero]
    linarith
  · intro ext; rw [hA ext]
  · intro ext
    rw [hA ext]
    exact hB ext
  · intro ext
    rw [hA ext]
    have hfloor : placeFloor [wideQueryLabel] (F32.fin 1) = F32.fin 1 :=
      placeFloor_single_le _ _ (by simp [wideQueryLabel, glyphAt])
    rw [place_accepted _ _ _ _ _ _ _ _ (by rw [hfloor, hB ext]; simp), hfloor, hB ext]
    have hq : RTree.query (Collision.Collision ext)
        (scaledBox ⟨F32.fin 1010, F32.fin 1025⟩ squareBox (F32.fin 4)) = [] := by
      apply fresh_query_empty
      simp [scaledBox, squareBox, rect, F32.div]
      norm_num
    have hrange : Collision.getPlacementRange ext
        (Collision.Collision ext ++ Collision.insert [] [offsetLabel] ⟨F32.fin 1000, F32.fin 1000⟩
          (F32.fin 1) (F32.mul (F32.fin 2) ext.pi, F32.fin 0) false (F32.fin 0))
        (placeGlyphs ext [wideQueryLabel] ⟨F32.fin 1010, F32.fin 1025⟩ false) (F32.fin 4) =
        (F32.mul (F32.fin 2) ext.pi, F32.fin 0) := by
      apply getPlacementRange_no_hit
      intro g hg
      simp only [placeGlyphs, placeBBox, wideQueryLabel, glyphAt, Bool.false_eq_true, if_false,
        List.map, List.mem_singleton] at hg
      subst hg
      rw [query_append, hq]
      simp [Collision.insert, offsetLabel, glyphAt, RTree.query, List.filter, Box.intersects,
        scaledBox, squareBox, rect, F32.div, F32.fmax_fin_fin, F32.gt]
      norm_num
    rw [hrange]

/-- C4 (amended) at a concrete input: one glyph in the middle of the freshly
constructed tile. -/
theorem getPlacementScale_no_hit_witness :
    Collision.getPlacementScale (Collision.Collision sampleExternals)
      [glyphAt squareBox 1000 1000 (F32.fin 0) F32.pinf] (F32.fin 1) (F32.fin 10) (F32.fin 0) =
      F32.fin 1 :=
  getPlacementScale_no_hit _ _ _ _ _
    (by simp [outsideTile, glyphAt, F32.gt]; norm_num)
    (by
      intro g hg v hv
      rw [List.mem_singleton] at hg
      subst hg
      have hq := fresh_query_empty sampleExternals
        (scaledBox ⟨F32.fin 1000, F32.fin 1000⟩ squareBox (F32.fin 1))
        (by simp [scaledBox, squareBox, rect, F32.div]; norm_num)
      simp only [RTree.query, List.filter_eq_nil_iff] at hq
      simpa [glyphAt, F32.fmax_fin_fin] using hq v hv)

/-! ### Order of `F32` -/

namespace F32

theorem le_chain {a b c : F32} (h1 : le a b = true) (h2 : le b c = true) : le a c = true := by
  cases a <;> cases b <;> cases c <;> simp_all [le]
  exact h1.trans h2

theorem le_self {a : F32} (h : isnan a = false) : le a a = true := by
  cases a <;> simp_all [le, isnan]

theorem not_nan_of_le_left {a b : F32} (h : le a b = true) : isnan a = false := by
  cases a <;> cases b <;> simp_all [le, isnan]

theorem not_nan_of_le_right {a b : F32} (h : le a b = true) : isnan b = false := by
  cases a <;> cases b <;> simp_all [le, isnan]

theorem le_fmax_right {a b c : F32} (h : le c b = true) : le c (fmax a b) = true := by
  cases a <;> cases b <;> cases c <;>
    first
    | (simp_all [le, fmax, lt]; done)
    | (rw [fmax_fin_fin]; simp_all [le])

theorem lt_eq_false_of_le {a b : F32} (h : le a b = true) : lt b a = false := by
  cases a <;> cases b <;> simp_all [le, lt]

end F32

/-! ### `util::min`, `util::max` and the floor of `place` -/

theorem util_min_fin_fin (a b : ℚ) : util.min (F32.fin a) (F32.fin b) = F32.fin (min a b) := by
  simp only [util.min, F32.lt_fin_fin, decide_eq_true_eq]
  split
  · rw [min_eq_right (le_of_lt ‹b < a›)]
  · rw [min_eq_left (not_lt.mp ‹¬ b < a›)]

theorem util_max_fin_fin (a b : ℚ) : util.max (F32.fin a) (F32.fin b) = F32.fin (max a b) := by
  simp only [util.max, F32.gt_fin_fin, decide_eq_true_eq]
  split
  · rw [max_eq_right (le_of_lt ‹a < b›)]
  · rw [max_eq_left (not_lt.mp ‹¬ a < b›)]

theorem util_min_not_nan {a b : F32} (h : F32.isnan a = false) :
    F32.isnan (util.min a b) = false := by
  cases a <;> cases b <;>
    first
    | (rw [util_min_fin_fin]; rfl)
    | simp_all [util.min, F32.isnan, F32.lt]

theorem util_min_le_left {a b : F32} (h : F32.isnan a = false) :
    F32.le (util.min a b) a = true := by
  cases a <;> cases b <;>
    first
    | (rw [util_min_fin_fin]; simp)
    | simp_all [util.min, F32.isnan, F32.lt, F32.le]

theorem util_min_le_right {a b : F32} (ha : F32.isnan a = false) (hb : F32.isnan b = false) :
    F32.le (util.min a b) b = true := by
  cases a <;> cases b <;>
    first
    | (rw [util_min_fin_fin]; simp)
    | simp_all [util.min, F32.isnan, F32.lt, F32.le]

/-- The `util::min` fold of `place` over the glyphs' `minScale`, started from a
number, is a number below the start and below every glyph `minScale` that is
a number. -/
theorem minScale_fold_spec :
    ∀ (boxes : List GlyphBox) (init : F32), F32.isnan init = false →
      F32.isnan (boxes.foldl (fun minScale box => util.min minScale box.minScale) init) = false ∧
      F32.le (boxes.foldl (fun minScale box => util.min minScale box.minScale) init) init = true ∧
      ∀ glyph ∈ boxes, F32.isnan glyph.minScale = false →
        F32.le (boxes.foldl (fun minScale box => util.min minScale box.minScale) init)
          glyph.minScale = true := by
  intro boxes
  induction boxes with
  | nil =>
    intro init h
    exact ⟨h, F32.le_self h, fun g hg => by cases hg⟩
  | cons b rest ih =>
    intro init h
    obtain ⟨h1, h2, h3⟩ := ih (util.min init b.minScale) (util_min_not_nan h)
    refine ⟨h1, F32.le_chain h2 (util_min_le_left h), ?_⟩
    intro g hg hgn
    rcases List.mem_cons.mp hg with rfl | hmem
    · exact F32.le_chain h2 (util_min_le_right h hgn)
    · exact h3 g hmem hgn

theorem placeFloor_of_le (boxes : List GlyphBox) (minPlacementScale : F32) (glyph : GlyphBox)
    (hmem : glyph ∈ boxes) (hle : F32.le glyph.minScale minPlacementScale = true) :
    placeFloor boxes minPlacementScale = minPlacementScale := by
  obtain ⟨_, _, h3⟩ := minScale_fold_spec boxes F32.pinf rfl
  have h := F32.le_chain (h3 glyph hmem (F32.not_nan_of_le_left hle)) hle
  simp [placeFloor, util.max, F32.gt, F32.lt_eq_false_of_le h]

/-! ### Never-displayable glyphs (C5) -/

theorem glyphLoop_all_skipped (tree : RTree) (maxPlacementScale pad minPlacementScale : F32) :
    ∀ glyphs : List GlyphBox,
      (∀ glyph ∈ glyphs, outsideTile glyph.anchor = false) →
      (∀ glyph ∈ glyphs, F32.ge glyph.minScale glyph.maxScale = true) →
      glyphLoop tree maxPlacementScale pad glyphs minPlacementScale = some minPlacementScale := by
  intro glyphs
  induction glyphs with
  | nil => intro _ _; rfl
  | cons g rest ih =>
    intro hin hge
    have hskip : F32.ge (F32.fmax minPlacementScale g.minScale) g.maxScale = true :=
      F32.le_fmax_right (hge g (List.mem_cons_self _ _))
    unfold glyphLoop
    simp only [hin g (List.mem_cons_self _ _), Bool.false_eq_true, if_false, hskip, if_true]
    exact ih (fun x hx => hin x (List.mem_cons_of_mem _ hx))
      (fun x hx => hge x (List.mem_cons_of_mem _ hx))

/-- C5, as amended: for a label whose glyph anchors are in the tile and whose
every glyph has `minScale >= maxScale`, the resolver adds no constraint: the
scale `place` accepts is the floor `place` hands to the resolver, the caller's
`minPlacementScale` raised to the smallest glyph `minScale`; `place` accepts
the label at that scale unless it is negative; and the scale is the caller's
`minPlacementScale` itself when some glyph's `minScale` does not exceed it. -/
theorem place_never_displayable (ext : Externals) (tree : RTree) (boxes : List GlyphBox)
    (anchor : CollisionAnchor) (minPlacementScale maxPlacementScale padding : F32)
    (horizontal : Bool)
    (hin : ∀ glyph ∈ boxes, outsideTile glyph.anchor = false)
    (hnever : ∀ glyph ∈ boxes, F32.ge glyph.minScale glyph.maxScale = true) :
    Collision.getPlacementScale tree boxes (placeFloor boxes minPlacementScale)
        maxPlacementScale padding = placeFloor boxes minPlacementScale ∧
    (F32.lt (placeFloor boxes minPlacementScale) (F32.fin 0) = false →
      (Collision.place ext tree boxes anchor minPlacementScale maxPlacementScale padding
          horizontal).1 =
        some ⟨F32.div (ext.log (placeFloor boxes minPlacementScale)) (ext.log (F32.fin 2)),
          Collision.getPlacementRange ext tree (placeGlyphs ext boxes anchor horizontal)
            (placeFloor boxes minPlacementScale)⟩) ∧
    ((∃ glyph ∈ boxes, F32.le glyph.minScale minPlacementScale = true) →
      placeFloor boxes minPlacementScale = minPlacementScale) := by
  have hscale : Collision.getPlacementScale tree boxes (placeFloor boxes minPlacementScale)
      maxPlacementScale padding = placeFloor boxes minPlacementScale := by
    simp [Collision.getPlacementScale, glyphLoop_all_skipped tree maxPlacementScale padding
      (placeFloor boxes minPlacementScale) boxes hin hnever]
  refine ⟨hscale, ?_, ?_⟩
  · intro hpos
    rw [place_accepted _ _ _ _ _ _ _ _ (by rw [hscale]; exact hpos), hscale]
  · rintro ⟨g, hg, hle⟩
    exact placeFloor_of_le boxes minPlacementScale g hg hle

/-- C5 (amended) at a concrete input: `neverShownGlyph` on the freshly
constructed engine with the caller's floor 1. -/
theorem place_never_displayable_witness :
    Collision.getPlacementScale (Collision.Collision sampleExternals) [neverShownGlyph]
      (placeFloor [neverShownGlyph] (F32.fin 1)) (F32.fin 10) (F32.fin 0) =
      placeFloor [neverShownGlyph] (F32.fin 1) :=
  (place_never_displayable sampleExternals (Collision.Collision sampleExternals) [neverShownGlyph]
    ⟨F32.fin 1000, F32.fin 1000⟩ (F32.fin 1) (F32.fin 10) (F32.fin 0) false
    (by simp [outsideTile, neverShownGlyph, glyphAt, F32.gt]; norm_num)
    (by simp [neverShownGlyph, glyphAt]; norm_num)).1

/-- C5, counterexample: `neverShownGlyph` has `minScale = 5 >= maxScale = 3`
and its anchor in the tile; with the caller's floor 1 and window `[1, 10]`
the resolver, run as `place` runs it, returns 5 and `place` accepts the label
at scale 5 (zoom `log 5 / log 2`), not at the caller's `minPlacementScale`
1. -/
theorem never_displayable_above_caller_floor :
    F32.ge neverShownGlyph.minScale neverShownGlyph.maxScale = true ∧
    outsideTile neverShownGlyph.anchor = false ∧
    (∀ ext : Externals,
      Collision.getPlacementScale (Collision.Collision ext) [neverShownGlyph]
        (placeFloor [neverShownGlyph] (F32.fin 1)) (F32.fin 10) (F32.fin 0) = F32.fin 5) ∧
    (∀ ext : Externals,
      (Collision.place ext (Collision.Collision ext) [neverShownGlyph]
        ⟨F32.fin 1000, F32.fin 1000⟩ (F32.fin 1) (F32.fin 10) (F32.fin 0) false).1 =
        some ⟨F32.div (ext.log (F32.fin 5)) (ext.log (F32.fin 2)),
          (F32.mul (F32.fin 2) ext.pi, F32.fin 0)⟩) := by
  have hge : F32.ge neverShownGlyph.minScale neverShownGlyph.maxScale = true := by
    simp [neverShownGlyph, glyphAt]; norm_num
  have hin : outsideTile neverShownGlyph.anchor = false := by
    simp [outsideTile, neverShownGlyph, glyphAt, F32.gt]; norm_num
  have hfloor : placeFloor [neverShownGlyph] (F32.fin 1) = F32.fin 5 := by
    simp [placeFloor, util.min, util.max, neverShownGlyph, glyphAt, F32.lt, F32.gt]
  have hscale : ∀ ext : Externals,
      Collision.getPlacementScale (Collision.Collision ext) [neverShownGlyph]
        (placeFloor [neverShownGlyph] (F32.fin 1)) (F32.fin 10) (F32.fin 0) = F32.fin 5 := by
    intro ext
    rw [hfloor]
    simp [Collision.getPlacementScale, glyphLoop_all_skipped (Collision.Collision ext) (F32.fin 10)
      (F32.fin 0) (F32.fin 5) [neverShownGlyph] (by simpa using hin) (by simpa using hge)]
  refine ⟨hge, hin, hscale, ?_⟩
  intro ext
  have hs := hscale ext
  rw [place_accepted _ _ _ _ _ _ _ _ (by rw [hs]; simp), hs]
  have hq : RTree.query (Collision.Collision ext)
      (scaledBox ⟨F32.fin 1000, F32.fin 1000⟩ squareBox (F32.fin 5)) = [] := by
    apply fresh_query_empty
    simp [scaledBox, squareBox, rect, F32.div]
    norm_num
  have hrange : Collision.getPlacementRange ext (Collision.Collision ext)
      (placeGlyphs ext [neverShownGlyph] ⟨F32.fin 1000, F32.fin 1000⟩ false) (F32.fin 5) =
      (F32.mul (F32.fin 2) ext.pi, F32.fin 0) := by
    apply getPlacementRange_no_hit
    intro g hg
    simp only [placeGlyphs, placeBBox, neverShownGlyph, glyphAt, Bool.false_eq_true, if_false,
      List.map, List.mem_singleton] at hg
    subst hg
    exact hq
  rw [hrange]

/-! ### Stored anchors (C7) -/

theorem glyphLoop_some_inside (tree : RTree) (maxPlacementScale pad : F32)
    (glyphs : List GlyphBox) (minPlacementScale r : F32)
    (h : glyphLoop tree maxPlacementScale pad glyphs minPlacementScale = some r) :
    ∀ glyph ∈ glyphs, outsideTile glyph.anchor = false := by
  intro g hg
  by_contra hout
  have hout' : outsideTile g.anchor = true := by simpa using hout
  rw [glyphLoop_outside tree maxPlacementScale pad glyphs minPlacementScale ⟨g, hg, hout'⟩] at h
  cases h

theorem inTile_of_not_outside (p : CollisionPoint) (h : outsideTile p = false)
    (hx : F32.isnan p.x = false) (hy : F32.isnan p.y = false) : inTile p = true := by
  obtain ⟨x, y⟩ := p
  cases x <;> cases y <;>
    simp_all [outsideTile, inTile, F32.isnan, F32.lt, F32.gt, F32.le]

theorem place_accepted_inside (tree : RTree) (boxes : List GlyphBox)
    (minPlacementScale maxPlacementScale padding : F32)
    (h : F32.lt (Collision.getPlacementScale tree boxes (placeFloor boxes minPlacementScale)
      maxPlacementScale padding) (F32.fin 0) = false) :
    ∀ glyph ∈ boxes, outsideTile glyph.anchor = false := by
  unfold Collision.getPlacementScale at h
  cases hloop : glyphLoop tree maxPlacementScale padding boxes
      (placeFloor boxes minPlacementScale) with
  | none => rw [hloop] at h; simp at h
  | some r => exact glyphLoop_some_inside _ _ _ _ _ _ hloop

theorem place_mem (ext : Externals) (tree : RTree) (boxes : List GlyphBox)
    (anchor : CollisionAnchor) (minPlacementScale maxPlacementScale padding : F32)
    (horizontal : Bool) (value : PlacementValue)
    (hv : value ∈ (Collision.place ext tree boxes anchor minPlacementScale maxPlacementScale
      padding horizontal).2) :
    value ∈ tree ∨
      (value.2.anchor = anchor ∧
        F32.lt (Collision.getPlacementScale tree boxes (placeFloor boxes minPlacementScale)
          maxPlacementScale padding) (F32.fin 0) = false) := by
  by_cases h : F32.lt (Collision.getPlacementScale tree boxes
      (placeFloor boxes minPlacementScale) maxPlacementScale padding) (F32.fin 0) = true
  · left
    simpa [Collision.place, h] using hv
  · have h' : F32.lt (Collision.getPlacementScale tree boxes
        (placeFloor boxes minPlacementScale) maxPlacementScale padding) (F32.fin 0) = false := by
      simpa using h
    rw [place_accepted _ _ _ _ _ _ _ _ h'] at hv
    simp only [Collision.insert, List.mem_append, List.mem_map] at hv
    rcases hv with hv | ⟨g, _, rfl⟩
    · exact Or.inl hv
    · exact Or.inr ⟨rfl, h'⟩

/-- C7, as amended: in every index state reachable from construction by
`place` calls whose anchor argument has no NaN coordinate and is the anchor
field of at least one glyph of the label, every stored `PlacementBox` has its
anchor inside `[0,4096] x [0,4096]`; and in such a state a `place` call for a
label with a glyph anchor outside that square (`x < 0`, `x > 4096`, `y < 0` or
`y > 4096`) is rejected and stores nothing. -/
theorem stored_anchors_in_tile (ext : Externals) (tree : RTree)
    (hreach : Collision.ReachableAnchored ext tree) :
    (∀ value ∈ tree, inTile value.2.anchor = true) ∧
    (∀ (boxes : List GlyphBox) (anchor : CollisionAnchor)
        (minPlacementScale maxPlacementScale padding : F32) (horizontal : Bool),
      (∃ glyph ∈ boxes, outsideTile glyph.anchor = true) →
      Collision.place ext tree boxes anchor minPlacementScale maxPlacementScale padding
        horizontal = (none, tree)) := by
  constructor
  · induction hreach with
    | construct =>
      intro value hv
      rw [fresh_eq] at hv
      simp only [List.mem_cons, List.mem_singleton, List.not_mem_nil, or_false] at hv
      rcases hv with rfl | rfl | rfl | rfl <;> simp [guardPlacement, inTile]
    | place tree boxes anchor mn mx padding horizontal _ hglyph hx hy ih =>
      intro value hv
      rcases place_mem ext tree boxes anchor mn mx padding horizontal value hv with
        hold | ⟨ha, hacc⟩
      · exact ih value hold
      · obtain ⟨g, hg, hga⟩ := hglyph
        have hin := place_accepted_inside tree boxes mn mx padding hacc g hg
        rw [ha]
        rw [hga] at hin
        exact inTile_of_not_outside anchor hin hx hy
  · intro boxes anchor mn mx padding horizontal hout
    apply place_negative
    rw [getPlacementScale_of_outside tree boxes _ mx padding hout]
    simp

theorem fresh_center_scale (ext : Externals) (maxPlacementScale : F32) :
    Collision.getPlacementScale (Collision.Collision ext)
      [glyphAt squareBox 1000 1000 (F32.fin 0) F32.pinf] (F32.fin 1) maxPlacementScale
      (F32.fin 0) = F32.fin 1 := by
  have hq : RTree.query (Collision.Collision ext)
      (scaledBox ⟨F32.fin 1000, F32.fin 1000⟩ squareBox (F32.fin 1)) = [] := by
    apply fresh_query_empty
    simp [scaledBox, squareBox, rect, F32.div]
    norm_num
  rw [getPlacementScale_single _ _ _ _ _
    (by simp [outsideTile, glyphAt, F32.gt]; norm_num)
    (by simp [glyphAt, F32.fmax_fin_fin, F32.ge, F32.le])]
  simp only [glyphAt, F32.fmax_fin_fin]
  norm_num [hq, blockingLoop]

theorem fresh_center_place (ext : Externals) (anchor : CollisionAnchor) :
    Collision.place ext (Collision.Collision ext)
      [glyphAt squareBox 1000 1000 (F32.fin 0) F32.pinf] anchor (F32.fin 1) (F32.fin 10)
      (F32.fin 0) false =
    (some ⟨F32.div (ext.log (F32.fin 1)) (ext.log (F32.fin 2)),
        (F32.mul (F32.fin 2) ext.pi, F32.fin 0)⟩,
      Collision.insert (Collision.Collision ext)
        [glyphAt squareBox 1000 1000 (F32.fin 0) F32.pinf] anchor (F32.fin 1)
        (F32.mul (F32.fin 2) ext.pi, F32.fin 0) false (F32.fin 0)) := by
  have hfloor : placeFloor [glyphAt squareBox 1000 1000 (F32.fin 0) F32.pinf] (F32.fin 1) =
      F32.fin 1 := placeFloor_single_le _ _ (by simp [glyphAt])
  have hscale := fresh_center_scale ext (F32.fin 10)
  have hq : RTree.query (Collision.Collision ext)
      (scaledBox ⟨F32.fin 1000, F32.fin 1000⟩ squareBox (F32.fin 1)) = [] := by
    apply fresh_query_empty
    simp [scaledBox, squareBox, rect, F32.div]
    norm_num
  have hglyphs : placeGlyphs ext [glyphAt squareBox 1000 1000 (F32.fin 0) F32.pinf] anchor
      false = [glyphAt squareBox 1000 1000 (F32.fin 0) F32.pinf] := by
    simp [placeGlyphs, placeBBox, glyphAt]
  have hrange : Collision.getPlacementRange ext (Collision.Collision ext)
      [glyphAt squareBox 1000 1000 (F32.fin 0) F32.pinf] (F32.fin 1) =
      (F32.mul (F32.fin 2) ext.pi, F32.fin 0) :=
    getPlacementRange_no_hit ext _ _ _ _ (by simpa [glyphAt] using hq)
  rw [place_accepted _ _ _ _ _ _ _ _ (by rw [hfloor, hscale]; simp), hfloor, hscale, hglyphs,
    hrange]

/-- C7 (amended) at a concrete input: the index after one accepted `place`
call on the freshly constructed engine, anchored at the glyph's anchor
`(1000, 1000)`; a second call for a glyph anchored at `(5000, 1000)` is
rejected and leaves that index as it is. -/
theorem stored_anchors_in_tile_witness :
    (Collision.place sampleExternals (Collision.Collision sampleExternals)
      [glyphAt squareBox 1000 1000 (F32.fin 0) F32.pinf] ⟨F32.fin 1000, F32.fin 1000⟩
      (F32.fin 1) (F32.fin 10) (F32.fin 0) false).2.all
      (fun value => inTile value.2.anchor) = true ∧
    Collision.place sampleExternals
        (Collision.place sampleExternals (Collision.Collision sampleExternals)
          [glyphAt squareBox 1000 1000 (F32.fin 0) F32.pinf] ⟨F32.fin 1000, F32.fin 1000⟩
          (F32.fin 1) (F32.fin 10) (F32.fin 0) false).2
        [glyphAt squareBox 5000 1000 (F32.fin 0) F32.pinf] ⟨F32.fin 5000, F32.fin 1000⟩
        (F32.fin 1) (F32.fin 10) (F32.fin 0) false =
      (none,
        (Collision.place sampleExternals (Collision.Collision sampleExternals)
          [glyphAt squareBox 1000 1000 (F32.fin 0) F32.pinf] ⟨F32.fin 1000, F32.fin 1000⟩
          (F32.fin 1) (F32.fin 10) (F32.fin 0) false).2) :=
  have h := stored_anchors_in_tile sampleExternals _
    (Collision.ReachableAnchored.place (Collision.Collision sampleExternals)
      [glyphAt squareBox 1000 1000 (F32.fin 0) F32.pinf] ⟨F32.fin 1000, F32.fin 1000⟩
      (F32.fin 1) (F32.fin 10) (F32.fin 0) false Collision.ReachableAnchored.construct
      ⟨glyphAt squareBox 1000 1000 (F32.fin 0) F32.pinf, List.mem_singleton.mpr rfl, rfl⟩
      rfl rfl)
  ⟨List.all_eq_true.mpr (fun value hv => h.1 value hv),
    h.2 [glyphAt squareBox 5000 1000 (F32.fin 0) F32.pinf] ⟨F32.fin 5000, F32.fin 1000⟩
      (F32.fin 1) (F32.fin 10) (F32.fin 0) false
      ⟨glyphAt squareBox 5000 1000 (F32.fin 0) F32.pinf, List.mem_singleton.mpr rfl,
        by simp [outsideTile, glyphAt, F32.gt, F32.lt]; norm_num⟩⟩

/-- C7, counterexample: on the freshly constructed engine, `place` is called
with the anchor argument `(5000, 5000)` for a label whose one glyph carries
the anchor `(1000, 1000)`.  The state after the call is reachable from
construction by a `place` call, the call is accepted, and the index then
holds a `PlacementBox` whose anchor `(5000, 5000)` is outside the tile. -/
theorem stored_anchor_outside_tile :
    (∀ ext : Externals, Collision.Reachable ext
      (Collision.place ext (Collision.Collision ext)
        [glyphAt squareBox 1000 1000 (F32.fin 0) F32.pinf] ⟨F32.fin 5000, F32.fin 5000⟩
        (F32.fin 1) (F32.fin 10) (F32.fin 0) false).2) ∧
    (∀ ext : Externals,
      (Collision.place ext (Collision.Collision ext)
        [glyphAt squareBox 1000 1000 (F32.fin 0) F32.pinf] ⟨F32.fin 5000, F32.fin 5000⟩
        (F32.fin 1) (F32.fin 10) (F32.fin 0) false).1 ≠ none) ∧
    (∀ ext : Externals, ∃ value ∈
      (Collision.place ext (Collision.Collision ext)
        [glyphAt squareBox 1000 1000 (F32.fin 0) F32.pinf] ⟨F32.fin 5000, F32.fin 5000⟩
        (F32.fin 1) (F32.fin 10) (F32.fin 0) false).2,
      value.2.anchor = ⟨F32.fin 5000, F32.fin 5000⟩ ∧ inTile value.2.anchor = false) := by
  refine ⟨fun ext => Collision.Reachable.place _ _ _ _ _ _ _ Collision.Reachable.construct, ?_, ?_⟩
  · intro ext
    rw [fresh_center_place]
    simp
  · intro ext
    rw [fresh_center_place]
    refine ⟨_, List.mem_append_right _ (List.mem_singleton.mpr rfl), rfl, ?_⟩
    simp [inTile]
    norm_num

/-! ### Merging glyphs (C10) -/

theorem util_max_not_nan {a b : F32} (h : F32.isnan a = false) :
    F32.isnan (util.max a b) = false := by
  cases a <;> cases b <;>
    first
    | (rw [util_max_fin_fin]; rfl)
    | simp_all [util.max, F32.isnan, F32.lt, F32.gt]

theorem util_max_ge_left {a b : F32} (h : F32.isnan a = false) :
    F32.le a (util.max a b) = true := by
  cases a <;> cases b <;>
    first
    | (rw [util_max_fin_fin]; simp)
    | simp_all [util.max, F32.isnan, F32.lt, F32.gt, F32.le]

theorem util_max_ge_right {a b : F32} (ha : F32.isnan a = false) (hb : F32.isnan b = false) :
    F32.le b (util.max a b) = true := by
  cases a <;> cases b <;>
    first
    | (rw [util_max_fin_fin]; simp)
    | simp_all [util.max, F32.isnan, F32.lt, F32.gt, F32.le]

theorem util_min_choice (a b : F32) : util.min a b = a ∨ util.min a b = b := by
  unfold util.min; split <;> simp

theorem util_max_choice (a b : F32) : util.max a b = a ∨ util.max a b = b := by
  unfold util.max; split <;> simp

theorem eq_pinf_of_pinf_le {x : F32} (h : F32.le F32.pinf x = true) : x = F32.pinf := by
  cases x <;> simp_all [F32.le]

theorem eq_ninf_of_le_ninf {x : F32} (h : F32.le x F32.ninf = true) : x = F32.ninf := by
  cases x <;> simp_all [F32.le]

/-- A `util::min` fold of a field `f` over glyphs, all numbers: the result is a
number below the start and below every `f glyph`, and it is the start or one
of the `f glyph`. -/
theorem foldl_min_spec (f : GlyphBox → F32) :
    ∀ (glyphs : List GlyphBox) (init : F32), F32.isnan init = false →
      (∀ glyph ∈ glyphs, F32.isnan (f glyph) = false) →
      F32.isnan (glyphs.foldl (fun a glyph => util.min a (f glyph)) init) = false ∧
      F32.le (glyphs.foldl (fun a glyph => util.min a (f glyph)) init) init = true ∧
      (∀ glyph ∈ glyphs,
        F32.le (glyphs.foldl (fun a glyph => util.min a (f glyph)) init) (f glyph) = true) ∧
      (glyphs.foldl (fun a glyph => util.min a (f glyph)) init = init ∨
        ∃ glyph ∈ glyphs, glyphs.foldl (fun a glyph => util.min a (f glyph)) init = f glyph) := by
  intro glyphs
  induction glyphs with
  | nil =>
    intro init h _
    exact ⟨h, F32.le_self h, fun g hg => absurd hg (List.not_mem_nil g), Or.inl rfl⟩
  | cons b rest ih =>
    intro init h hall
    have hb := hall b (List.mem_cons_self _ _)
    obtain ⟨h1, h2, h3, h4⟩ := ih (util.min init (f b)) (util_min_not_nan h)
      (fun g hg => hall g (List.mem_cons_of_mem _ hg))
    refine ⟨h1, F32.le_chain h2 (util_min_le_left h), ?_, ?_⟩
    · intro g hg
      rcases List.mem_cons.mp hg with rfl | hmem
      · exact F32.le_chain h2 (util_min_le_right h hb)
      · exact h3 g hmem
    · rcases h4 with h4 | ⟨g, hg, h4⟩
      · rcases util_min_choice init (f b) with hc | hc
        · left; simp only [List.foldl]; rw [h4, hc]
        · right; exact ⟨b, List.mem_cons_self _ _, by simp only [List.foldl]; rw [h4, hc]⟩
      · right; exact ⟨g, List.mem_cons_of_mem _ hg, h4⟩

/-- A `util::max` fold of a field `f` over glyphs, all numbers: the result is a
number above the start and above every `f glyph`, and it is the start or one
of the `f glyph`. -/
theorem foldl_max_spec (f : GlyphBox → F32) :
    ∀ (glyphs : List GlyphBox) (init : F32), F32.isnan init = false →
      (∀ glyph ∈ glyphs, F32.isnan (f glyph) = false) →
      F32.isnan (glyphs.foldl (fun a glyph => util.max a (f glyph)) init) = false ∧
      F32.le init (glyphs.foldl (fun a glyph => util.max a (f glyph)) init) = true ∧
      (∀ glyph ∈ glyphs,
        F32.le (f glyph) (glyphs.foldl (fun a glyph => util.max a (f glyph)) init) = true) ∧
      (glyphs.foldl (fun a glyph => util.max a (f glyph)) init = init ∨
        ∃ glyph ∈ glyphs, glyphs.foldl (fun a glyph => util.max a (f glyph)) init = f glyph) := by
  intro glyphs
  induction glyphs with
  | nil =>
    intro init h _
    exact ⟨h, F32.le_self h, fun g hg => absurd hg (List.not_mem_nil g), Or.inl rfl⟩
  | cons b rest ih =>
    intro init h hall
    have hb := hall b (List.mem_cons_self _ _)
    obtain ⟨h1, h2, h3, h4⟩ := ih (util.max init (f b)) (util_max_not_nan h)
      (fun g hg => hall g (List.mem_cons_of_mem _ hg))
    refine ⟨h1, F32.le_chain (util_max_ge_left h) h2, ?_, ?_⟩
    · intro g hg
      rcases List.mem_cons.mp hg with rfl | hmem
      · exact F32.le_chain (util_max_ge_right h hb) h2
      · exact h3 g hmem
    · rcases h4 with h4 | ⟨g, hg, h4⟩
      · rcases util_max_choice init (f b) with hc | hc
        · left; simp only [List.foldl]; rw [h4, hc]
        · right; exact ⟨b, List.mem_cons_self _ _, by simp only [List.foldl]; rw [h4, hc]⟩
      · right; exact ⟨g, List.mem_cons_of_mem _ hg, h4⟩

/-- The fields of the glyph `getMergedGlyphs` returns, each as its own fold. -/
theorem getMergedGlyphs_fields (dflt : GlyphBox) (glyphs : List GlyphBox) (horizontal : Bool)
    (anchor : CollisionAnchor) :
    (getMergedGlyphs dflt glyphs horizontal anchor).box.tl.x =
        glyphs.foldl (fun a glyph => util.min a glyph.box.tl.x) F32.pinf ∧
    (getMergedGlyphs dflt glyphs horizontal anchor).box.tl.y =
        glyphs.foldl (fun a glyph => util.min a glyph.box.tl.y) F32.pinf ∧
    (getMergedGlyphs dflt glyphs horizontal anchor).box.br.x =
        glyphs.foldl (fun a glyph => util.max a glyph.box.br.x) F32.ninf ∧
    (getMergedGlyphs dflt glyphs horizontal anchor).box.br.y =
        glyphs.foldl (fun a glyph => util.max a glyph.box.br.y) F32.ninf ∧
    (getMergedGlyphs dflt glyphs horizontal anchor).minScale =
        glyphs.foldl (fun a glyph => util.max a glyph.minScale) dflt.minScale := by
  unfold getMergedGlyphs
  generalize hinit : ({ dflt with
      box := ⟨⟨F32.pinf, F32.pinf⟩, ⟨F32.ninf, F32.ninf⟩⟩
      rotate := horizontal
      anchor := anchor } : GlyphBox) = init
  have e1 : F32.pinf = init.box.tl.x := by rw [← hinit]
  have e2 : F32.pinf = init.box.tl.y := by rw [← hinit]
  have e3 : F32.ninf = init.box.br.x := by rw [← hinit]
  have e4 : F32.ninf = init.box.br.y := by rw [← hinit]
  have e5 : dflt.minScale = init.minScale := by rw [← hinit]
  rw [e5]
  nth_rewrite 1 [e1]
  nth_rewrite 1 [e2]
  nth_rewrite 1 [e3]
  nth_rewrite 1 [e4]
  clear hinit e1 e2 e3 e4 e5
  induction glyphs generalizing init with
  | nil => simp
  | cons g rest ih =>
    simp only [List.foldl]
    exact ih _

theorem F32.le_antisymm_eq {a b : F32} (h1 : F32.le a b = true) (h2 : F32.le b a = true) :
    a = b := by
  cases a <;> cases b <;> simp_all [F32.le]
  exact le_antisymm h1 h2

/-- C10, as amended: for a non-empty glyph list whose box coordinates and
minimum scales are numbers (not NaN), the glyph `getMergedGlyphs` returns has
as box the union bounding rectangle of the glyphs' boxes (it contains every
glyph box, and each of its four sides is the side of some glyph box, so it is
the smallest such rectangle), and its `minScale` is the maximum of the glyphs'
`minScale` and the `minScale` of a default-constructed `GlyphBox`, with which
the accumulator starts: it is above all of them and equal to one of them.  It
is the maximum among the glyphs whenever some glyph's `minScale` is at least
that default. -/
theorem getMergedGlyphs_union (dflt : GlyphBox) (glyphs : List GlyphBox) (horizontal : Bool)
    (anchor : CollisionAnchor) (hne : glyphs ≠ [])
    (hbox : ∀ glyph ∈ glyphs,
      F32.isnan glyph.box.tl.x = false ∧ F32.isnan glyph.box.tl.y = false ∧
      F32.isnan glyph.box.br.x = false ∧ F32.isnan glyph.box.br.y = false)
    (hscale : ∀ glyph ∈ glyphs, F32.isnan glyph.minScale = false)
    (hdflt : F32.isnan dflt.minScale = false) :
    (∀ glyph ∈ glyphs,
      F32.le (getMergedGlyphs dflt glyphs horizontal anchor).box.tl.x glyph.box.tl.x = true ∧
      F32.le (getMergedGlyphs dflt glyphs horizontal anchor).box.tl.y glyph.box.tl.y = true ∧
      F32.le glyph.box.br.x (getMergedGlyphs dflt glyphs horizontal anchor).box.br.x = true ∧
      F32.le glyph.box.br.y (getMergedGlyphs dflt glyphs horizontal anchor).box.br.y = true) ∧
    (∃ glyph ∈ glyphs,
      (getMergedGlyphs dflt glyphs horizontal anchor).box.tl.x = glyph.box.tl.x) ∧
    (∃ glyph ∈ glyphs,
      (getMergedGlyphs dflt glyphs horizontal anchor).box.tl.y = glyph.box.tl.y) ∧
    (∃ glyph ∈ glyphs,
      (getMergedGlyphs dflt glyphs horizontal anchor).box.br.x = glyph.box.br.x) ∧
    (∃ glyph ∈ glyphs,
      (getMergedGlyphs dflt glyphs horizontal anchor).box.br.y = glyph.box.br.y) ∧
    (∀ glyph ∈ glyphs,
      F32.le glyph.minScale (getMergedGlyphs dflt glyphs horizontal anchor).minScale = true) ∧
    F32.le dflt.minScale (getMergedGlyphs dflt glyphs horizontal anchor).minScale = true ∧
    ((getMergedGlyphs dflt glyphs horizontal anchor).minScale = dflt.minScale ∨
      ∃ glyph ∈ glyphs,
        (getMergedGlyphs dflt glyphs horizontal anchor).minScale = glyph.minScale) ∧
    ((∃ glyph ∈ glyphs, F32.le dflt.minScale glyph.minScale = true) →
      ∃ glyph ∈ glyphs,
        (getMergedGlyphs dflt glyphs horizontal anchor).minScale = glyph.minScale) := by
  obtain ⟨e1, e2, e3, e4, e5⟩ := getMergedGlyphs_fields dflt glyphs horizontal anchor
  obtain ⟨g0, hg0⟩ := List.exists_mem_of_ne_nil glyphs hne
  obtain ⟨_, _, a3, a4⟩ := foldl_min_spec (fun g => g.box.tl.x) glyphs F32.pinf rfl
    (fun g hg => (hbox g hg).1)
  obtain ⟨_, _, b3, b4⟩ := foldl_min_spec (fun g => g.box.tl.y) glyphs F32.pinf rfl
    (fun g hg => (hbox g hg).2.1)
  obtain ⟨_, _, c3, c4⟩ := foldl_max_spec (fun g => g.box.br.x) glyphs F32.ninf rfl
    (fun g hg => (hbox g hg).2.2.1)
  obtain ⟨_, _, d3, d4⟩ := foldl_max_spec (fun g => g.box.br.y) glyphs F32.ninf rfl
    (fun g hg => (hbox g hg).2.2.2)
  obtain ⟨_, m2, m3, m4⟩ := foldl_max_spec (fun g => g.minScale) glyphs dflt.minScale hdflt hscale
  rw [e1, e2, e3, e4, e5]
  refine ⟨fun g hg => ⟨a3 g hg, b3 g hg, c3 g hg, d3 g hg⟩, ?_, ?_, ?_, ?_, m3, m2, m4, ?_⟩
  · rcases a4 with h | h
    · exact ⟨g0, hg0, by
        have := a3 g0 hg0
        rw [h] at this ⊢
        exact (eq_pinf_of_pinf_le this).symm⟩
    · exact h
  · rcases b4 with h | h
    · exact ⟨g0, hg0, by
        have := b3 g0 hg0
        rw [h] at this ⊢
        exact (eq_pinf_of_pinf_le this).symm⟩
    · exact h
  · rcases c4 with h | h
    · exact ⟨g0, hg0, by
        have := c3 g0 hg0
        rw [h] at this ⊢
        exact (eq_ninf_of_le_ninf this).symm⟩
    · exact h
  · rcases d4 with h | h
    · exact ⟨g0, hg0, by
        have := d3 g0 hg0
        rw [h] at this ⊢
        exact (eq_ninf_of_le_ninf this).symm⟩
    · exact h
  · rintro ⟨g, hg, hle⟩
    rcases m4 with h | h
    · refine ⟨g, hg, ?_⟩
      have hge := m3 g hg
      rw [h] at hge ⊢
      exact F32.le_antisymm_eq hle hge
    · exact h

/-- C10 (amended) at a concrete input: two glyphs with boxes
`[-50,-50]-[50,50]` and `[100,-50]-[200,50]` merged with the default
`zeroDefaultGlyph`; the merged box contains both glyph boxes. -/
theorem getMergedGlyphs_union_witness :
    (F32.le (getMergedGlyphs zeroDefaultGlyph
        [glyphAt squareBox 1000 1000 (F32.fin 1) F32.pinf, offsetLabel] true
        ⟨F32.fin 1000, F32.fin 1000⟩).box.tl.x offsetLabel.box.tl.x = true ∧
      F32.le (getMergedGlyphs zeroDefaultGlyph
        [glyphAt squareBox 1000 1000 (F32.fin 1) F32.pinf, offsetLabel] true
        ⟨F32.fin 1000, F32.fin 1000⟩).box.tl.y offsetLabel.box.tl.y = true ∧
      F32.le offsetLabel.box.br.x (getMergedGlyphs zeroDefaultGlyph
        [glyphAt squareBox 1000 1000 (F32.fin 1) F32.pinf, offsetLabel] true
        ⟨F32.fin 1000, F32.fin 1000⟩).box.br.x = true ∧
      F32.le offsetLabel.box.br.y (getMergedGlyphs zeroDefaultGlyph
        [glyphAt squareBox 1000 1000 (F32.fin 1) F32.pinf, offsetLabel] true
        ⟨F32.fin 1000, F32.fin 1000⟩).box.br.y = true) :=
  (getMergedGlyphs_union zeroDefaultGlyph
    [glyphAt squareBox 1000 1000 (F32.fin 1) F32.pinf, offsetLabel] true
    ⟨F32.fin 1000, F32.fin 1000⟩ (by simp)
    (by
      intro g hg
      simp only [List.mem_cons, List.mem_singleton, List.not_mem_nil, or_false] at hg
      rcases hg with rfl | rfl <;>
        simp [glyphAt, offsetLabel, squareBox, rect, F32.isnan])
    (by
      intro g hg
      simp only [List.mem_cons, List.mem_singleton, List.not_mem_nil, or_false] at hg
      rcases hg with rfl | rfl <;> simp [glyphAt, offsetLabel, F32.isnan])
    (by simp [zeroDefaultGlyph, glyphAt, F32.isnan])).1 offsetLabel (by simp)

/-- C10, counterexample: merging the one glyph `negativeFloorGlyph`, whose
`minScale` is `-1`, into a default-constructed glyph whose `minScale` is `0`
gives `minScale = 0`, which is not the maximum `minScale` among the glyphs,
`-1`. -/
theorem merged_minScale_keeps_default :
    (getMergedGlyphs zeroDefaultGlyph [negativeFloorGlyph] true
      ⟨F32.fin 1000, F32.fin 1000⟩).minScale = F32.fin 0 ∧
    negativeFloorGlyph.minScale = F32.fin (-1) ∧
    (getMergedGlyphs zeroDefaultGlyph [negativeFloorGlyph] true
      ⟨F32.fin 1000, F32.fin 1000⟩).minScale ≠ negativeFloorGlyph.minScale := by
  have h : (getMergedGlyphs zeroDefaultGlyph [negativeFloorGlyph] true
      ⟨F32.fin 1000, F32.fin 1000⟩).minScale = F32.fin 0 := by
    simp [getMergedGlyphs, zeroDefaultGlyph, negativeFloorGlyph, glyphAt, util.max, F32.gt,
      F32.lt]
  refine ⟨h, rfl, ?_⟩
  rw [h]
  simp [negativeFloorGlyph, glyphAt]

/-! ### Labels at the same anchor (C3) -/

theorem glyphLoop_cons (tree : RTree) (maxPlacementScale pad : F32) (g : GlyphBox)
    (rest : List GlyphBox) (m : F32) :
    glyphLoop tree maxPlacementScale pad (g :: rest) m =
      if outsideTile g.anchor then none
      else if F32.ge (F32.fmax m g.minScale) g.maxScale then
        glyphLoop tree maxPlacementScale pad rest m
      else
        match blockingLoop g.anchor g.box (F32.fmax m g.minScale) g.maxScale maxPlacementScale pad
            (tree.query (scaledBox g.anchor g.bbox (F32.fmax m g.minScale))) m with
        | none => none
        | some m' => glyphLoop tree maxPlacementScale pad rest m' := by
  rw [glyphLoop]

theorem glyphLoop_append (tree : RTree) (maxPlacementScale pad : F32) :
    ∀ (pre post : List GlyphBox) (minPlacementScale : F32),
      glyphLoop tree maxPlacementScale pad (pre ++ post) minPlacementScale =
        match glyphLoop tree maxPlacementScale pad pre minPlacementScale with
        | none => none
        | some m => glyphLoop tree maxPlacementScale pad post m := by
  intro pre
  induction pre with
  | nil => intro post m; rfl
  | cons g rest ih =>
    intro post m
    simp only [List.cons_append, glyphLoop_cons]
    by_cases hout : outsideTile g.anchor = true
    · simp [hout]
    · simp only [hout, Bool.false_eq_true, if_false]
      split
      · exact ih post m
      · cases blockingLoop g.anchor g.box (F32.fmax m g.minScale) g.maxScale maxPlacementScale pad
          (tree.query (scaledBox g.anchor g.bbox (F32.fmax m g.minScale))) m with
        | none => rfl
        | some m' => exact ih post m'

theorem blockingLoop_same_anchor (na : CollisionAnchor) (nb : CollisionRect)
    (minScale maxScale maxPlacementScale pad : F32) :
    ∀ (blocking : List PlacementValue) (minPlacementScale : F32),
      (∃ value ∈ blocking, na.eq value.2.anchor = true) →
      blockingLoop na nb minScale maxScale maxPlacementScale pad blocking minPlacementScale =
        none := by
  intro blocking
  induction blocking with
  | nil => intro _ h; obtain ⟨v, hv, _⟩ := h; cases hv
  | cons v rest ih =>
    intro m h
    unfold blockingLoop
    by_cases hv : na.eq v.2.anchor = true
    · simp [hv]
    · have hrest : ∃ value ∈ rest, na.eq value.2.anchor = true := by
        obtain ⟨w, hw, hwa⟩ := h
        rcases List.mem_cons.mp hw with rfl | hmem
        · exact absurd hwa hv
        · exact ⟨w, hmem, hwa⟩
      simp only [hv, Bool.false_eq_true, if_false]
      split_ifs <;> first | rfl | exact ih _ hrest

/-- A glyph that is not skipped and whose query returns a stored placement
with the glyph's own anchor makes the resolver return `-1`, wherever the
glyph stands in the list. -/
theorem getPlacementScale_same_anchor (tree : RTree) (pre post : List GlyphBox) (glyph : GlyphBox)
    (minPlacementScale maxPlacementScale pad : F32)
    (hskip : F32.ge
      (F32.fmax (Collision.getPlacementScale tree pre minPlacementScale maxPlacementScale pad)
        glyph.minScale) glyph.maxScale = false)
    (hhit : ∃ value ∈ tree.query (scaledBox glyph.anchor glyph.bbox
        (F32.fmax (Collision.getPlacementScale tree pre minPlacementScale maxPlacementScale pad)
          glyph.minScale)),
      glyph.anchor.eq value.2.anchor = true) :
    Collision.getPlacementScale tree (pre ++ glyph :: post) minPlacementScale maxPlacementScale
      pad = F32.fin (-1) := by
  unfold Collision.getPlacementScale at hskip hhit ⊢
  rw [glyphLoop_append]
  cases hpre : glyphLoop tree maxPlacementScale pad pre minPlacementScale with
  | none => rfl
  | some m =>
    rw [hpre] at hskip hhit
    simp only at hskip hhit ⊢
    rw [glyphLoop_cons]
    by_cases hout : outsideTile glyph.anchor = true
    · simp [hout]
    · simp only [hout, Bool.false_eq_true, if_false, hskip]
      rw [blockingLoop_same_anchor _ _ _ _ _ _ _ _ hhit]

/-- C3, as amended: two labels anchored at the same point, whose coordinates
are not NaN.  If the second label has a glyph with that anchor that the
resolver does not skip (the floor reached at the glyph, raised to the glyph's
`minScale`, is below the glyph's `maxScale`) and whose index query returns an
entry stored by the first `place` call, the second `place` call returns the
empty property and leaves the index as it is, whatever the scale windows,
paddings and horizontal flags are. -/
theorem second_label_same_anchor (ext : Externals) (tree : RTree) (boxes : List GlyphBox)
    (anchor : CollisionAnchor) (minPlacementScale maxPlacementScale padding : F32)
    (horizontal : Bool) (pre post : List GlyphBox) (glyph : GlyphBox)
    (minPlacementScale2 maxPlacementScale2 padding2 : F32) (horizontal2 : Bool)
    (hnum : anchor.eq anchor = true)
    (hanchor : glyph.anchor = anchor)
    (hskip : F32.ge
      (F32.fmax
        (Collision.getPlacementScale
          (Collision.place ext tree boxes anchor minPlacementScale maxPlacementScale padding
            horizontal).2
          pre (placeFloor (pre ++ glyph :: post) minPlacementScale2) maxPlacementScale2 padding2)
        glyph.minScale) glyph.maxScale = false)
    (hhit : ∃ value ∈
      (Collision.place ext tree boxes anchor minPlacementScale maxPlacementScale padding
        horizontal).2.query
        (scaledBox glyph.anchor glyph.bbox
          (F32.fmax
            (Collision.getPlacementScale
              (Collision.place ext tree boxes anchor minPlacementScale maxPlacementScale padding
                horizontal).2
              pre (placeFloor (pre ++ glyph :: post) minPlacementScale2) maxPlacementScale2
              padding2)
            glyph.minScale)),
      value ∉ tree) :
    Collision.place ext
      (Collision.place ext tree boxes anchor minPlacementScale maxPlacementScale padding
        horizontal).2
      (pre ++ glyph :: post) anchor minPlacementScale2 maxPlacementScale2 padding2 horizontal2 =
      (none,
        (Collision.place ext tree boxes anchor minPlacementScale maxPlacementScale padding
          horizontal).2) := by
  obtain ⟨value, hq, hnew⟩ := hhit
  have hmem : value ∈ (Collision.place ext tree boxes anchor minPlacementScale maxPlacementScale
      padding horizontal).2 := by
    simp only [RTree.query, List.mem_filter] at hq
    exact hq.1
  have hva : value.2.anchor = anchor := by
    rcases place_mem ext tree boxes anchor minPlacementScale maxPlacementScale padding horizontal
      value hmem with h | ⟨h, _⟩
    · exact absurd h hnew
    · exact h
  have hsame : glyph.anchor.eq value.2.anchor = true := by rw [hanchor, hva]; exact hnum
  have hscale := getPlacementScale_same_anchor _ pre post glyph
    (placeFloor (pre ++ glyph :: post) minPlacementScale2) maxPlacementScale2 padding2 hskip
    ⟨value, hq, hsame⟩
  exact place_negative _ _ _ _ _ _ _ _ (by rw [hscale]; simp)

theorem place_single_no_hit (ext : Externals) (tree : RTree) (g : GlyphBox)
    (anchor : CollisionAnchor) (mn mx pad : F32)
    (hbb : g.bbox = g.box) (hle : F32.le g.minScale mn = true)
    (hin : outsideTile g.anchor = false) (hskip : F32.ge mn g.maxScale = false)
    (hq : tree.query (scaledBox g.anchor g.bbox mn) = []) (hpos : F32.lt mn (F32.fin 0) = false) :
    Collision.place ext tree [g] anchor mn mx pad false =
      (some ⟨F32.div (ext.log mn) (ext.log (F32.fin 2)), (F32.mul (F32.fin 2) ext.pi, F32.fin 0)⟩,
        Collision.insert tree [g] anchor mn (F32.mul (F32.fin 2) ext.pi, F32.fin 0) false pad) := by
  have hfloor : placeFloor [g] mn = mn := placeFloor_single_le g mn hle
  have hfmax : F32.fmax mn g.minScale = mn := F32.fmax_of_le hle
  have hscale : Collision.getPlacementScale tree [g] mn mx pad = mn := by
    rw [getPlacementScale_single _ _ _ _ _ hin (by rw [hfmax]; exact hskip), hfmax, hq]
    rfl
  have hglyphs : placeGlyphs ext [g] anchor false = [g] := by
    cases g
    simp only at hbb
    subst hbb
    simp [placeGlyphs, placeBBox]
  have hrange : Collision.getPlacementRange ext tree [g] mn =
      (F32.mul (F32.fin 2) ext.pi, F32.fin 0) :=
    getPlacementRange_no_hit ext _ _ _ _ (by
      intro x hx
      rw [List.mem_singleton] at hx
      subst hx
      exact hq)
  rw [place_accepted _ _ _ _ _ _ _ _ (by rw [hfloor, hscale]; exact hpos), hfloor, hscale,
    hglyphs, hrange]

/-- C3, counterexample: on the freshly constructed engine two labels are
placed at the same anchor `(1000, 1000)`, window `[1, 10]`, padding 0, not
horizontal.  The first has the box `[10,10]-[20,20]`, the second the box
`[-20,-20]-[-10,-10]`; each glyph's anchor field is the anchor argument.  The
first call is accepted, and so is the second: its query box does not meet the
box stored for the first label, so the anchors are never compared. -/
theorem same_anchor_both_accepted :
    (∀ ext : Externals,
      (Collision.place ext (Collision.Collision ext) [lowerRightGlyph]
        ⟨F32.fin 1000, F32.fin 1000⟩ (F32.fin 1) (F32.fin 10) (F32.fin 0) false).1 =
        some ⟨F32.div (ext.log (F32.fin 1)) (ext.log (F32.fin 2)),
          (F32.mul (F32.fin 2) ext.pi, F32.fin 0)⟩) ∧
    (∀ ext : Externals,
      (Collision.place ext
        (Collision.place ext (Collision.Collision ext) [lowerRightGlyph]
          ⟨F32.fin 1000, F32.fin 1000⟩ (F32.fin 1) (F32.fin 10) (F32.fin 0) false).2
        [upperLeftGlyph] ⟨F32.fin 1000, F32.fin 1000⟩ (F32.fin 1) (F32.fin 10) (F32.fin 0)
        false).1 =
        some ⟨F32.div (ext.log (F32.fin 1)) (ext.log (F32.fin 2)),
          (F32.mul (F32.fin 2) ext.pi, F32.fin 0)⟩) ∧
    lowerRightGlyph.anchor = ⟨F32.fin 1000, F32.fin 1000⟩ ∧
    upperLeftGlyph.anchor = ⟨F32.fin 1000, F32.fin 1000⟩ := by
  have hA : ∀ ext : Externals,
      Collision.place ext (Collision.Collision ext) [lowerRightGlyph]
        ⟨F32.fin 1000, F32.fin 1000⟩ (F32.fin 1) (F32.fin 10) (F32.fin 0) false =
      (some ⟨F32.div (ext.log (F32.fin 1)) (ext.log (F32.fin 2)),
          (F32.mul (F32.fin 2) ext.pi, F32.fin 0)⟩,
        Collision.insert (Collision.Collision ext) [lowerRightGlyph]
          ⟨F32.fin 1000, F32.fin 1000⟩ (F32.fin 1) (F32.mul (F32.fin 2) ext.pi, F32.fin 0) false
          (F32.fin 0)) := by
    intro ext
    apply place_single_no_hit
    · rfl
    · simp [lowerRightGlyph, glyphAt]
    · simp [outsideTile, lowerRightGlyph, glyphAt, F32.gt]; norm_num
    · simp [lowerRightGlyph, glyphAt, F32.ge, F32.le]
    · apply fresh_query_empty
      simp [scaledBox, lowerRightGlyph, glyphAt, rect, F32.div]
      norm_num
    · simp
  refine ⟨fun ext => by rw [hA ext], ?_, rfl, rfl⟩
  intro ext
  rw [hA ext, place_single_no_hit]
  · rfl
  · simp [upperLeftGlyph, glyphAt]
  · simp [outsideTile, upperLeftGlyph, glyphAt, F32.gt]; norm_num
  · simp [upperLeftGlyph, glyphAt, F32.ge, F32.le]
  · rw [insert_eq_append, query_append, fresh_query_empty]
    · simp [Collision.insert, lowerRightGlyph, upperLeftGlyph, glyphAt, RTree.query, List.filter,
        Box.intersects, scaledBox, rect, F32.div, F32.fmax_fin_fin, F32.gt]
    · simp [scaledBox, upperLeftGlyph, glyphAt, rect, F32.div]
      norm_num
  · simp

/-- C3 (amended) at a concrete input: `centerGlyph` is placed twice at its
anchor `(1000, 1000)` on the freshly constructed engine; the second call is
rejected and leaves the index as it is. -/
theorem second_label_same_anchor_witness :
    Collision.place sampleExternals
      (Collision.place sampleExternals (Collision.Collision sampleExternals) [centerGlyph]
        ⟨F32.fin 1000, F32.fin 1000⟩ (F32.fin 1) (F32.fin 10) (F32.fin 0) false).2
      [centerGlyph] ⟨F32.fin 1000, F32.fin 1000⟩ (F32.fin 1) (F32.fin 10) (F32.fin 0)
      true =
      (none,
        (Collision.place sampleExternals (Collision.Collision sampleExternals) [centerGlyph]
          ⟨F32.fin 1000, F32.fin 1000⟩ (F32.fin 1) (F32.fin 10) (F32.fin 0) false).2) :=
  second_label_same_anchor sampleExternals (Collision.Collision sampleExternals) [centerGlyph]
    ⟨F32.fin 1000, F32.fin 1000⟩ (F32.fin 1) (F32.fin 10) (F32.fin 0) false [] [] centerGlyph
    (F32.fin 1) (F32.fin 10) (F32.fin 0) true
    (by simp [CollisionPoint.eq])
    rfl
    (by
      have hfloor : placeFloor ([] ++ centerGlyph :: []) (F32.fin 1) = F32.fin 1 :=
        placeFloor_single_le _ _ (by simp [centerGlyph, glyphAt])
      rw [hfloor]
      simp [Collision.getPlacementScale, glyphLoop, centerGlyph, glyphAt, F32.fmax_fin_fin,
        F32.ge, F32.le])
    (by
      have hfloor : placeFloor ([] ++ centerGlyph :: []) (F32.fin 1) = F32.fin 1 :=
        placeFloor_single_le _ _ (by simp [centerGlyph, glyphAt])
      rw [hfloor]
      have hplace := fresh_center_place sampleExternals ⟨F32.fin 1000, F32.fin 1000⟩
      simp only [centerGlyph] at hplace ⊢
      rw [hplace]
      refine ⟨(scaledBox ⟨F32.fin 1000, F32.fin 1000⟩ squareBox (F32.fin 1),
        { anchor := ⟨F32.fin 1000, F32.fin 1000⟩, bbox := squareBox, box := squareBox,
          rotate := false,
          placementRange := (F32.mul (F32.fin 2) sampleExternals.pi, F32.fin 0),
          placementScale := F32.fin 1, maxScale := F32.pinf, padding := F32.fin 0 }), ?_, ?_⟩
      · simp [Collision.getPlacementScale, glyphLoop, RTree.query, Collision.insert, glyphAt,
          F32.fmax_fin_fin, Box.intersects, scaledBox, squareBox, rect, F32.div, F32.gt]
        norm_num
      · rw [fresh_eq]
        simp [guardPlacement, scaledBox, squareBox, rect, F32.div])

/-! ### More order facts of `F32` -/

namespace F32

theorem raisedTo_chain {a b c : F32} (h1 : raisedTo a b) (h2 : raisedTo b c) : raisedTo a c := by
  rcases h1 with rfl | h1
  · exact h2
  · rcases h2 with rfl | h2
    · exact Or.inr h1
    · right
      cases a <;> cases b <;> cases c <;> simp_all [lt]
      exact h1.trans h2

theorem raisedTo_not_nan {a b : F32} (h : raisedTo a b) (hb : isnan b = false) :
    isnan a = false := by
  rcases h with rfl | h
  · exact hb
  · cases a <;> cases b <;> simp_all [lt, isnan]

theorem raisedTo_le {a b : F32} (h : raisedTo a b) (hb : isnan b = false) : le a b = true := by
  rcases h with rfl | h
  · exact le_self hb
  · cases a <;> cases b <;> simp_all [lt, le]
    exact le_of_lt h

theorem le_of_lt_eq_false {a b : F32} (ha : isnan a = false) (hb : isnan b = false)
    (h : lt a b = false) : le b a = true := by
  cases a <;> cases b <;> simp_all [lt, le, isnan]

theorem fmax_not_nan {a b : F32} (ha : isnan a = false) : isnan (fmax a b) = false := by
  cases a <;> cases b <;>
    first
    | (simp_all [fmax, lt, isnan]; done)
    | (rw [fmax_fin_fin]; rfl)

theorem fmin_not_nan {a b : F32} (ha : isnan a = false) : isnan (fmin a b) = false := by
  cases a <;> cases b <;>
    first
    | (simp_all [fmin, lt, isnan]; done)
    | (rw [fmin_fin_fin]; rfl)

end F32

/-! ### The running scale is only raised -/

theorem collisionFreeScale_not_nan (na : CollisionAnchor) (nb : CollisionRect) (pad : F32)
    (placement : PlacementBox) : F32.isnan (collisionFreeScale na nb pad placement) = false := by
  unfold collisionFreeScale
  simp only
  apply F32.fmin_not_nan
  split_ifs with h
  · rfl
  · simp only [Bool.or_eq_true, not_or, Bool.not_eq_true] at h
    exact F32.fmax_not_nan h.1

theorem blockingLoop_cons (na : CollisionAnchor) (nb : CollisionRect)
    (minScale maxScale maxPlacementScale pad : F32) (value : PlacementValue)
    (rest : List PlacementValue) (m : F32) :
    blockingLoop na nb minScale maxScale maxPlacementScale pad (value :: rest) m =
      if na.eq value.2.anchor then none
      else if F32.gt
          (if F32.gt (collisionFreeScale na nb pad value.2) m &&
              F32.gt (collisionFreeScale na nb pad value.2) minScale &&
              F32.lt (collisionFreeScale na nb pad value.2) maxScale &&
              F32.lt (collisionFreeScale na nb pad value.2) value.2.maxScale
            then collisionFreeScale na nb pad value.2 else m) maxPlacementScale then none
      else blockingLoop na nb minScale maxScale maxPlacementScale pad rest
        (if F32.gt (collisionFreeScale na nb pad value.2) m &&
            F32.gt (collisionFreeScale na nb pad value.2) minScale &&
            F32.lt (collisionFreeScale na nb pad value.2) maxScale &&
            F32.lt (collisionFreeScale na nb pad value.2) value.2.maxScale
          then collisionFreeScale na nb pad value.2 else m) := by
  rw [blockingLoop]

/-- The inner loop of the resolver, when it runs to its end: the running scale
was only raised; no entry has the new anchor; and the clearance scale of every
entry that is below both ceilings is at most the scale after the loop or at
most the glyph's own floor. -/
theorem blockingLoop_spec (na : CollisionAnchor) (nb : CollisionRect)
    (minScale maxScale maxPlacementScale pad : F32) :
    ∀ (blocking : List PlacementValue) (m r : F32),
      blockingLoop na nb minScale maxScale maxPlacementScale pad blocking m = some r →
      F32.raisedTo m r ∧
      ∀ value ∈ blocking,
        na.eq value.2.anchor = false ∧
        (F32.lt (collisionFreeScale na nb pad value.2) maxScale = true →
          F32.lt (collisionFreeScale na nb pad value.2) value.2.maxScale = true →
          F32.isnan r = false → F32.isnan minScale = false →
          F32.le (collisionFreeScale na nb pad value.2) r = true ∨
          F32.le (collisionFreeScale na nb pad value.2) minScale = true) := by
  intro blocking
  induction blocking with
  | nil =>
    intro m r h
    simp only [blockingLoop, Option.some.injEq] at h
    exact ⟨Or.inl h, fun v hv => absurd hv (List.not_mem_nil v)⟩
  | cons v rest ih =>
    intro m r h
    rw [blockingLoop_cons] at h
    by_cases heq : na.eq v.2.anchor = true
    · simp [heq] at h
    · simp only [heq, Bool.false_eq_true, if_false] at h
      have heq' : na.eq v.2.anchor = false := by simpa using heq
      by_cases hcond : (F32.gt (collisionFreeScale na nb pad v.2) m &&
          F32.gt (collisionFreeScale na nb pad v.2) minScale &&
          F32.lt (collisionFreeScale na nb pad v.2) maxScale &&
          F32.lt (collisionFreeScale na nb pad v.2) v.2.maxScale) = true
      · simp only [hcond, if_true] at h
        split_ifs at h
        obtain ⟨hr, hall⟩ := ih _ r h
        simp only [Bool.and_eq_true] at hcond
        refine ⟨F32.raisedTo_chain (Or.inr hcond.1.1.1) hr, ?_⟩
        intro w hw
        rcases List.mem_cons.mp hw with rfl | hmem
        · exact ⟨heq', fun _ _ hrn _ => Or.inl (F32.raisedTo_le hr hrn)⟩
        · exact hall w hmem
      · simp only [hcond, Bool.false_eq_true, if_false] at h
        split_ifs at h
        obtain ⟨hr, hall⟩ := ih _ r h
        refine ⟨hr, ?_⟩
        intro w hw
        rcases List.mem_cons.mp hw with rfl | hmem
        · refine ⟨heq', fun h1 h2 hrn hmn => ?_⟩
          have hc := collisionFreeScale_not_nan na nb pad w.2
          simp only [h1, h2, Bool.and_true, Bool.and_eq_true, not_and, Bool.not_eq_true] at hcond
          by_cases hgm : F32.gt (collisionFreeScale na nb pad w.2) m = true
          · right
            exact F32.le_of_lt_eq_false hmn hc (hcond hgm)
          · left
            have hgm' : F32.lt m (collisionFreeScale na nb pad w.2) = false := by
              simpa [F32.gt] using hgm
            exact F32.le_chain
              (F32.le_of_lt_eq_false (F32.raisedTo_not_nan hr hrn) hc hgm')
              (F32.raisedTo_le hr hrn)
        · exact hall w hmem

theorem glyphLoop_raised (tree : RTree) (maxPlacementScale pad : F32) :
    ∀ (glyphs : List GlyphBox) (m r : F32),
      glyphLoop tree maxPlacementScale pad glyphs m = some r → F32.raisedTo m r := by
  intro glyphs
  induction glyphs with
  | nil =>
    intro m r h
    simp only [glyphLoop, Option.some.injEq] at h
    exact Or.inl h
  | cons g rest ih =>
    intro m r h
    rw [glyphLoop_cons] at h
    split_ifs at h
    · exact ih m r h
    · cases hb : blockingLoop g.anchor g.box (F32.fmax m g.minScale) g.maxScale
          maxPlacementScale pad (tree.query (scaledBox g.anchor g.bbox (F32.fmax m g.minScale)))
          m with
      | none => rw [hb] at h; cases h
      | some mb =>
        rw [hb] at h
        exact F32.raisedTo_chain (blockingLoop_spec _ _ _ _ _ _ _ _ _ hb).1 (ih mb r h)

/-- The clearance formula over the rationals: from the scale
`min(max(s1, s2), max(s3, s4))` on, two boxes whose anchors differ on both
axes are apart by the padding on the x axis or on the y axis. -/
theorem clearance_sound_rat (nax nay ntlx ntly nbrx nbry oax oay otlx otly obrx obry p t : ℚ)
    (ht : 0 < t) (hdx : nax ≠ oax) (hdy : nay ≠ oay)
    (h : min (max ((otlx - nbrx - p) / (nax - oax)) ((obrx - ntlx + p) / (nax - oax)))
        (max ((otly - nbry - p) / (nay - oay)) ((obry - ntly + p) / (nay - oay))) ≤ t) :
    nax + nbrx / t + p / t ≤ oax + otlx / t ∨ oax + obrx / t + p / t ≤ nax + ntlx / t ∨
    nay + nbry / t + p / t ≤ oay + otly / t ∨ oay + obry / t + p / t ≤ nay + ntly / t := by
  have axis : ∀ (na oa ntl nbr otl obr : ℚ), na ≠ oa →
      max ((otl - nbr - p) / (na - oa)) ((obr - ntl + p) / (na - oa)) ≤ t →
      na + nbr / t + p / t ≤ oa + otl / t ∨ oa + obr / t + p / t ≤ na + ntl / t := by
    intro na oa ntl nbr otl obr hne hmax
    have h1 := le_trans (le_max_left _ _) hmax
    have h2 := le_trans (le_max_right _ _) hmax
    rcases lt_or_gt_of_ne hne with hlt | hgt
    · left
      have hd : na - oa < 0 := by linarith
      have h1' : otl - nbr - p ≥ t * (na - oa) := by
        have := (div_le_iff_of_neg hd).mp h1
        linarith
      have e : na + nbr / t + p / t = na + (nbr + p) / t := by ring
      rw [e]
      have : (nbr + p) / t ≤ (oa - na) + otl / t := by
        rw [div_le_iff₀ ht]
        have : ((oa - na) + otl / t) * t = (oa - na) * t + otl := by
          field_simp
        rw [this]
        nlinarith
      linarith
    · right
      have hd : 0 < na - oa := by linarith
      have h2' : obr - ntl + p ≤ t * (na - oa) := (div_le_iff₀ hd).mp h2
      have e : oa + obr / t + p / t = oa + (obr + p) / t := by ring
      rw [e]
      have : (obr + p) / t ≤ (na - oa) + ntl / t := by
        rw [div_le_iff₀ ht]
        have : ((na - oa) + ntl / t) * t = (na - oa) * t + ntl := by
          field_simp
        rw [this]
        nlinarith
      linarith
  rcases min_le_iff.mp h with hx | hy
  · rcases axis nax oax ntlx nbrx otlx obrx hdx hx with h' | h'
    · exact Or.inl h'
    · exact Or.inr (Or.inl h')
  · rcases axis nay oay ntly nbry otly obry hdy hy with h' | h'
    · exact Or.inr (Or.inr (Or.inl h'))
    · exact Or.inr (Or.inr (Or.inr h'))

theorem F32.fin_of_finite {x : F32} (h : F32.isFinite x = true) : ∃ q, x = F32.fin q := by
  cases x <;> simp_all [F32.isFinite]

theorem CollisionPoint.fin_of_pointFinite {p : CollisionPoint}
    (h : CollisionPoint.isFinite p = true) : ∃ a b, p = ⟨F32.fin a, F32.fin b⟩ := by
  obtain ⟨x, y⟩ := p
  simp only [CollisionPoint.isFinite, Bool.and_eq_true] at h
  obtain ⟨a, rfl⟩ := F32.fin_of_finite h.1
  obtain ⟨b, rfl⟩ := F32.fin_of_finite h.2
  exact ⟨a, b, rfl⟩

theorem CollisionRect.fin_of_rectFinite {r : CollisionRect}
    (h : CollisionRect.isFinite r = true) :
    ∃ a b c d, r = ⟨⟨F32.fin a, F32.fin b⟩, ⟨F32.fin c, F32.fin d⟩⟩ := by
  obtain ⟨tl, br⟩ := r
  simp only [CollisionRect.isFinite, Bool.and_eq_true] at h
  obtain ⟨a, b, rfl⟩ := CollisionPoint.fin_of_pointFinite h.1
  obtain ⟨c, d, rfl⟩ := CollisionPoint.fin_of_pointFinite h.2
  exact ⟨a, b, c, d, rfl⟩

/-- The clearance scale of the source on finite inputs whose anchors differ on
both axes, as a rational expression. -/
theorem collisionFreeScale_fin (nax nay ntlx ntly nbrx nbry oax oay otlx otly obrx obry p : ℚ)
    (pad : F32) (placement : PlacementBox)
    (hpad : effectivePadding pad placement = F32.fin p)
    (hoa : placement.anchor = ⟨F32.fin oax, F32.fin oay⟩)
    (hob : placement.box = ⟨⟨F32.fin otlx, F32.fin otly⟩, ⟨F32.fin obrx, F32.fin obry⟩⟩)
    (hdx : nax ≠ oax) (hdy : nay ≠ oay) :
    collisionFreeScale ⟨F32.fin nax, F32.fin nay⟩
        ⟨⟨F32.fin ntlx, F32.fin ntly⟩, ⟨F32.fin nbrx, F32.fin nbry⟩⟩ pad placement =
      F32.fin (min (max ((otlx - nbrx - p) / (nax - oax)) ((obrx - ntlx + p) / (nax - oax)))
        (max ((otly - nbry - p) / (nay - oay)) ((obry - ntly + p) / (nay - oay)))) := by
  have hp : F32.mul (F32.fmax pad placement.padding) (F32.fin 8) = F32.fin p := hpad
  unfold collisionFreeScale
  simp only [hp, hoa, hob, F32.sub_fin_fin, F32.add_fin_fin,
    F32.div_fin_fin _ _ (sub_ne_zero.mpr hdx), F32.div_fin_fin _ _ (sub_ne_zero.mpr hdy),
    F32.isnan, Bool.or_self, Bool.false_eq_true, if_false, F32.fmax_fin_fin, F32.fmin_fin_fin]

theorem centerIndex_eq : centerIndex = Collision.Collision sampleExternals ++ [centerEntry] := by
  simp [centerIndex, centerEntry, Collision.insert, centerGlyph, glyphAt, F32.fmax_fin_fin]

theorem centerIndex_query_shifted :
    centerIndex.query (scaledBox ⟨F32.fin 1080, F32.fin 1010⟩ squareBox (F32.fin 1)) =
      [centerEntry] := by
  rw [centerIndex_eq, query_append, fresh_query_empty]
  · simp [RTree.query, centerEntry, List.filter, Box.intersects, scaledBox, squareBox, rect,
      F32.div, F32.gt]
    norm_num
  · simp [scaledBox, squareBox, rect, F32.div]
    norm_num

theorem le_of_gt_eq_false {a b : F32} (ha : F32.isnan a = false) (hb : F32.isnan b = false)
    (h : F32.gt a b = false) : F32.le a b = true :=
  F32.le_of_lt_eq_false hb ha h

theorem blockingLoop_bounded (na : CollisionAnchor) (nb : CollisionRect)
    (minScale maxScale maxPlacementScale pad : F32) :
    ∀ (blocking : List PlacementValue) (m r : F32),
      blockingLoop na nb minScale maxScale maxPlacementScale pad blocking m = some r →
      F32.le m maxPlacementScale = true → F32.le r maxPlacementScale = true := by
  intro blocking
  induction blocking with
  | nil =>
    intro m r h hm
    simp only [blockingLoop, Option.some.injEq] at h
    rw [← h]; exact hm
  | cons v rest ih =>
    intro m r h hm
    rw [blockingLoop_cons] at h
    have hmx : F32.isnan maxPlacementScale = false := F32.not_nan_of_le_right hm
    split_ifs at h with h1 h2 h3 h4
    · exact ih _ r h (le_of_gt_eq_false (collisionFreeScale_not_nan _ _ _ _) hmx
        (by simpa using h3))
    · exact ih _ r h hm

theorem glyphLoop_bounded (tree : RTree) (maxPlacementScale pad : F32) :
    ∀ (glyphs : List GlyphBox) (m r : F32),
      glyphLoop tree maxPlacementScale pad glyphs m = some r →
      F32.le m maxPlacementScale = true → F32.le r maxPlacementScale = true := by
  intro glyphs
  induction glyphs with
  | nil =>
    intro m r h hm
    simp only [glyphLoop, Option.some.injEq] at h
    rw [← h]; exact hm
  | cons g rest ih =>
    intro m r h hm
    rw [glyphLoop_cons] at h
    split_ifs at h
    · exact ih m r h hm
    · cases hb : blockingLoop g.anchor g.box (F32.fmax m g.minScale) g.maxScale
          maxPlacementScale pad (tree.query (scaledBox g.anchor g.bbox (F32.fmax m g.minScale)))
          m with
      | none => rw [hb] at h; cases h
      | some mb =>
        rw [hb] at h
        exact ih mb r h (blockingLoop_bounded _ _ _ _ _ _ _ _ _ hb hm)

/-- C20: for every index state, glyph list and padding, and every window with
`minPlacementScale <= maxPlacementScale`, the result of `getPlacementScale` is
the sentinel `-1` or lies in the window: the running scale is only raised,
and a raise past `maxPlacementScale` returns the sentinel. -/
theorem getPlacementScale_in_window (tree : RTree) (glyphs : List GlyphBox)
    (minPlacementScale maxPlacementScale pad : F32)
    (hwindow : F32.le minPlacementScale maxPlacementScale = true) :
    Collision.getPlacementScale tree glyphs minPlacementScale maxPlacementScale pad =
        F32.fin (-1) ∨
    (F32.le minPlacementScale
        (Collision.getPlacementScale tree glyphs minPlacementScale maxPlacementScale pad) = true ∧
      F32.le (Collision.getPlacementScale tree glyphs minPlacementScale maxPlacementScale pad)
        maxPlacementScale = true) := by
  unfold Collision.getPlacementScale
  cases h : glyphLoop tree maxPlacementScale pad glyphs minPlacementScale with
  | none => exact Or.inl rfl
  | some r =>
    right
    have hr := glyphLoop_bounded tree maxPlacementScale pad glyphs minPlacementScale r h hwindow
    exact ⟨F32.raisedTo_le (glyphLoop_raised _ _ _ _ _ _ h) (F32.not_nan_of_le_left hr), hr⟩

/-- C20 at a concrete input: `shiftedGlyph` resolved on `centerIndex` with the
window `[1, 10]`. -/
theorem getPlacementScale_in_window_witness :
    Collision.getPlacementScale centerIndex [shiftedGlyph] (F32.fin 1) (F32.fin 10) (F32.fin 0) =
        F32.fin (-1) ∨
    (F32.le (F32.fin 1)
        (Collision.getPlacementScale centerIndex [shiftedGlyph] (F32.fin 1) (F32.fin 10)
          (F32.fin 0)) = true ∧
      F32.le (Collision.getPlacementScale centerIndex [shiftedGlyph] (F32.fin 1) (F32.fin 10)
        (F32.fin 0)) (F32.fin 10) = true) :=
  getPlacementScale_in_window centerIndex [shiftedGlyph] (F32.fin 1) (F32.fin 10) (F32.fin 0)
    (by simp)

/-! ### Soundness of the pairwise clearance formula (C19) -/

/-- C19: soundness of the pairwise clearance formula.  For a new box
`[ntlx, ntly]-[nbrx, nbry]` at anchor `(nax, nay)` and a stored box
`[otlx, otly]-[obrx, obry]` at anchor `(oax, oay)` with `nax != oax` and
`nay != oay`, and effective padding `p`, the resolver's clearance scale is
`min(max(s1, s2), max(s3, s4))` with `s1 = (otlx - nbrx - p) / (nax - oax)`,
`s2 = (obrx - ntlx + p) / (nax - oax)`, `s3 = (otly - nbry - p) / (nay - oay)`,
`s4 = (obry - ntly + p) / (nay - oay)`, and at every scale `s > 0` with
`s >= min(max(s1, s2), max(s3, s4))` the two boxes scaled by `1/s` about their
anchors are apart by at least `p/s` on the x axis or on the y axis. -/
theorem clearance_formula_sound
    (nax nay ntlx ntly nbrx nbry oax oay otlx otly obrx obry p : ℚ)
    (pad : F32) (placement : PlacementBox)
    (hpad : effectivePadding pad placement = F32.fin p)
    (hoa : placement.anchor = ⟨F32.fin oax, F32.fin oay⟩)
    (hob : placement.box = ⟨⟨F32.fin otlx, F32.fin otly⟩, ⟨F32.fin obrx, F32.fin obry⟩⟩)
    (hdx : nax ≠ oax) (hdy : nay ≠ oay) :
    collisionFreeScale ⟨F32.fin nax, F32.fin nay⟩
        ⟨⟨F32.fin ntlx, F32.fin ntly⟩, ⟨F32.fin nbrx, F32.fin nbry⟩⟩ pad placement =
      F32.fin (min (max ((otlx - nbrx - p) / (nax - oax)) ((obrx - ntlx + p) / (nax - oax)))
        (max ((otly - nbry - p) / (nay - oay)) ((obry - ntly + p) / (nay - oay)))) ∧
    ∀ s : ℚ, 0 < s →
      min (max ((otlx - nbrx - p) / (nax - oax)) ((obrx - ntlx + p) / (nax - oax)))
        (max ((otly - nbry - p) / (nay - oay)) ((obry - ntly + p) / (nay - oay))) ≤ s →
      separatedAt (F32.fin s) (F32.fin p) ⟨F32.fin nax, F32.fin nay⟩
        ⟨⟨F32.fin ntlx, F32.fin ntly⟩, ⟨F32.fin nbrx, F32.fin nbry⟩⟩
        ⟨F32.fin oax, F32.fin oay⟩
        ⟨⟨F32.fin otlx, F32.fin otly⟩, ⟨F32.fin obrx, F32.fin obry⟩⟩ = true := by
  refine ⟨collisionFreeScale_fin nax nay ntlx ntly nbrx nbry oax oay otlx otly obrx obry p pad
    placement hpad hoa hob hdx hdy, ?_⟩
  intro s hs hle
  have hsound := clearance_sound_rat nax nay ntlx ntly nbrx nbry oax oay otlx otly obrx obry p s
    hs hdx hdy hle
  have hs0 : s ≠ 0 := ne_of_gt hs
  simp only [separatedAt, F32.div_fin_fin _ _ hs0, F32.add_fin_fin, F32.le_fin_fin,
    Bool.or_eq_true, decide_eq_true_eq]
  tauto

/-- C19 at a concrete input: the new box `[-50,-50]-[50,50]` at `(1080, 1010)`
against `centerEntry` with padding 0; the clearance scale is `5/4`, and at that
scale the boxes are apart. -/
theorem clearance_formula_sound_witness :
    separatedAt (F32.fin (5 / 4)) (F32.fin 0) ⟨F32.fin 1080, F32.fin 1010⟩
      ⟨⟨F32.fin (-50), F32.fin (-50)⟩, ⟨F32.fin 50, F32.fin 50⟩⟩
      ⟨F32.fin 1000, F32.fin 1000⟩
      ⟨⟨F32.fin (-50), F32.fin (-50)⟩, ⟨F32.fin 50, F32.fin 50⟩⟩ = true :=
  (clearance_formula_sound 1080 1010 (-50) (-50) 50 50 1000 1000 (-50) (-50) 50 50 0
    (F32.fin 0) centerEntry.2
    (by simp [effectivePadding, centerEntry, F32.fmax_fin_fin])
    rfl rfl (by norm_num) (by norm_num)).2 (5 / 4) (by norm_num) (by norm_num)

/-! ### What `insert` stores (C17) -/

/-- C17: `insert` appends exactly one entry per glyph, in glyph order: the
index grows by the number of glyphs, the entries stored before keep their
places, and the entry at place `tree.length + i` is the one built from the
`i`-th glyph: its bounding box is
`(anchor + bbox.tl / m, anchor + bbox.br / m)` with
`m = fmax(placementScale, glyph.minScale)`, and its `PlacementBox` records the
anchor, the glyph's box and bbox, the flag, the rotation range, the padding,
the glyph's `maxScale` and `placementScale = m`. -/
theorem insert_entries (tree : RTree) (glyphs : List GlyphBox) (anchor : CollisionAnchor)
    (placementScale : F32) (placementRange : PlacementRange) (horizontal : Bool)
    (padding : F32) :
    (Collision.insert tree glyphs anchor placementScale placementRange horizontal
      padding).length = tree.length + glyphs.length ∧
    (∀ i : Nat, i < tree.length →
      (Collision.insert tree glyphs anchor placementScale placementRange horizontal
        padding)[i]? = tree[i]?) ∧
    ∀ i : Nat,
      (Collision.insert tree glyphs anchor placementScale placementRange horizontal
        padding)[tree.length + i]? =
      (glyphs[i]?).map (fun glyph =>
        (({ min_corner :=
              ⟨F32.add anchor.x
                  (F32.div glyph.bbox.tl.x (F32.fmax placementScale glyph.minScale)),
                F32.add anchor.y
                  (F32.div glyph.bbox.tl.y (F32.fmax placementScale glyph.minScale))⟩
            max_corner :=
              ⟨F32.add anchor.x
                  (F32.div glyph.bbox.br.x (F32.fmax placementScale glyph.minScale)),
                F32.add anchor.y
                  (F32.div glyph.bbox.br.y (F32.fmax placementScale glyph.minScale))⟩ } : Box),
          ({ anchor := anchor
             bbox := glyph.bbox
             box := glyph.box
             rotate := horizontal
             placementRange := placementRange
             placementScale := F32.fmax placementScale glyph.minScale
             maxScale := glyph.maxScale
             padding := padding } : PlacementBox))) := by
  refine ⟨by simp [Collision.insert], ?_, ?_⟩
  · intro i hi
    simp only [Collision.insert]
    exact List.getElem?_append_left hi
  · intro i
    simp only [Collision.insert]
    rw [List.getElem?_append_right (Nat.le_add_right _ _), Nat.add_sub_cancel_left,
      List.getElem?_map]
    rfl

/-! ### The floor `place` hands to the resolver (C14) -/

/-- C14, as amended: for every non-empty label whose glyph `minScale` values
are numbers (not NaN), the floor `place` hands to the resolver is the caller's
`minPlacementScale` raised with `util::max` to the minimum, not the maximum,
of the glyphs' `minScale` values: some glyph has the smallest `minScale` of
the label, the floor is `util::max(minPlacementScale, that minScale)`, and
`place` rejects the label exactly when the resolver, started at this floor,
returns a negative scale. -/
theorem placeFloor_is_min (boxes : List GlyphBox) (minPlacementScale : F32)
    (hne : boxes ≠ []) (hnum : ∀ glyph ∈ boxes, F32.isnan glyph.minScale = false) :
    ∃ glyph ∈ boxes,
      (∀ other ∈ boxes, F32.le glyph.minScale other.minScale = true) ∧
      placeFloor boxes minPlacementScale = util.max minPlacementScale glyph.minScale ∧
      ∀ (ext : Externals) (tree : RTree) (anchor : CollisionAnchor)
        (maxPlacementScale padding : F32) (horizontal : Bool),
        ((Collision.place ext tree boxes anchor minPlacementScale maxPlacementScale padding
            horizontal).1 = none ↔
          F32.lt (Collision.getPlacementScale tree boxes
            (util.max minPlacementScale glyph.minScale) maxPlacementScale padding)
            (F32.fin 0) = true) := by
  obtain ⟨_, _, h3, h4⟩ := foldl_min_spec (fun g => g.minScale) boxes F32.pinf rfl hnum
  obtain ⟨g0, hg0⟩ := List.exists_mem_of_ne_nil boxes hne
  have hattained : ∃ glyph ∈ boxes,
      boxes.foldl (fun a glyph => util.min a glyph.minScale) F32.pinf = glyph.minScale := by
    rcases h4 with h | h
    · refine ⟨g0, hg0, ?_⟩
      have := h3 g0 hg0
      rw [h] at this ⊢
      exact (eq_pinf_of_pinf_le this).symm
    · exact h
  obtain ⟨g, hg, hfold⟩ := hattained
  have hfloor : placeFloor boxes minPlacementScale = util.max minPlacementScale g.minScale := by
    simp only [placeFloor]
    rw [hfold]
  refine ⟨g, hg, fun other ho => by rw [← hfold]; exact h3 other ho, hfloor, ?_⟩
  intro ext tree anchor maxPlacementScale padding horizontal
  rw [← hfloor]
  constructor
  · intro hnone
    by_contra hneg
    have hneg' : F32.lt (Collision.getPlacementScale tree boxes
        (placeFloor boxes minPlacementScale) maxPlacementScale padding) (F32.fin 0) = false := by
      simpa using hneg
    rw [place_accepted _ _ _ _ _ _ _ _ hneg'] at hnone
    cases hnone
  · intro hneg
    rw [place_negative _ _ _ _ _ _ _ _ hneg]

/-- C14 (amended) at a concrete input: the label `mixedFloorLabel` with the
caller's floor `1/2`. -/
theorem placeFloor_is_min_witness :
    ∃ glyph ∈ mixedFloorLabel,
      (∀ other ∈ mixedFloorLabel, F32.le glyph.minScale other.minScale = true) ∧
      placeFloor mixedFloorLabel (F32.fin (1 / 2)) = util.max (F32.fin (1 / 2)) glyph.minScale :=
  have h := placeFloor_is_min mixedFloorLabel (F32.fin (1 / 2)) (by simp [mixedFloorLabel])
    (by
      intro g hg
      simp only [mixedFloorLabel, List.mem_cons, List.mem_singleton, List.not_mem_nil,
        or_false] at hg
      rcases hg with rfl | rfl <;> simp [glyphAt, F32.isnan])
  h.elim fun g hg => ⟨g, hg.1, hg.2.1, hg.2.2.1⟩

/-- C14, counterexample: for the label `mixedFloorLabel`, whose glyphs have
`minScale` 1 and 3, and the caller's `minPlacementScale = 1/2`, the floor
`place` hands to the resolver is 1, the smallest glyph `minScale`, and not
`max(1/2, max(1, 3)) = 3`. -/
theorem floor_is_smallest_minScale :
    mixedFloorLabel.map (fun glyph => glyph.minScale) = [F32.fin 1, F32.fin 3] ∧
    placeFloor mixedFloorLabel (F32.fin (1 / 2)) = F32.fin 1 ∧
    F32.fmax (F32.fin (1 / 2)) (F32.fmax (F32.fin 1) (F32.fin 3)) = F32.fin 3 ∧
    placeFloor mixedFloorLabel (F32.fin (1 / 2)) ≠
      F32.fmax (F32.fin (1 / 2)) (F32.fmax (F32.fin 1) (F32.fin 3)) := by
  have h1 : placeFloor mixedFloorLabel (F32.fin (1 / 2)) = F32.fin 1 := by
    simp [placeFloor, mixedFloorLabel, util.min, util.max, glyphAt, F32.lt, F32.gt]
    norm_num
  have h2 : F32.fmax (F32.fin (1 / 2)) (F32.fmax (F32.fin 1) (F32.fin 3)) = F32.fin 3 := by
    simp [F32.fmax_fin_fin]
    norm_num
  refine ⟨by simp [mixedFloorLabel, glyphAt], h1, h2, ?_⟩
  rw [h1, h2]
  simp

/-! ### Zero anchor separation (C16) -/

/-- C12, as amended: after construction the index holds exactly four guard
entries: two anchored at `(0, 0)` with the rectangles `(0,0)-(0,32768)` and
`(0,0)-(32768,0)`, two anchored at `(4096, 4096)` with the rectangles
`(-32768,0)-(0,0)` and `(0,-32768)-(0,0)` relative to the anchor (absolute
bounding boxes as listed).  Every guard entry is non-rotating, has placement
scale 1, padding 2, the `maxScale` of a default-constructed glyph, and the
rotation range `{2 * pi, 0}`: its first component is `2 * pi`, its second
`0`. -/
theorem constructed_index (ext : Externals) :
    Collision.Collision ext =
      [(⟨⟨F32.fin 0, F32.fin 0⟩, ⟨F32.fin 0, F32.fin 32768⟩⟩,
          { anchor := ⟨F32.fin 0, F32.fin 0⟩
            bbox := ⟨⟨F32.fin 0, F32.fin 0⟩, ⟨F32.fin 0, F32.fin 32768⟩⟩
            box := ⟨⟨F32.fin 0, F32.fin 0⟩, ⟨F32.fin 0, F32.fin 32768⟩⟩
            rotate := false
            placementRange := (F32.mul ext.pi (F32.fin 2), F32.fin 0)
            placementScale := F32.fin 1
            maxScale := ext.glyphDefault.maxScale
            padding := F32.fin 2 }),
       (⟨⟨F32.fin 0, F32.fin 0⟩, ⟨F32.fin 32768, F32.fin 0⟩⟩,
          { anchor := ⟨F32.fin 0, F32.fin 0⟩
            bbox := ⟨⟨F32.fin 0, F32.fin 0⟩, ⟨F32.fin 32768, F32.fin 0⟩⟩
            box := ⟨⟨F32.fin 0, F32.fin 0⟩, ⟨F32.fin 32768, F32.fin 0⟩⟩
            rotate := false
            placementRange := (F32.mul ext.pi (F32.fin 2), F32.fin 0)
            placementScale := F32.fin 1
            maxScale := ext.glyphDefault.maxScale
            padding := F32.fin 2 }),
       (⟨⟨F32.fin (-28672), F32.fin 4096⟩, ⟨F32.fin 4096, F32.fin 4096⟩⟩,
          { anchor := ⟨F32.fin 4096, F32.fin 4096⟩
            bbox := ⟨⟨F32.fin (-32768), F32.fin 0⟩, ⟨F32.fin 0, F32.fin 0⟩⟩
            box := ⟨⟨F32.fin (-32768), F32.fin 0⟩, ⟨F32.fin 0, F32.fin 0⟩⟩
            rotate := false
            placementRange := (F32.mul ext.pi (F32.fin 2), F32.fin 0)
            placementScale := F32.fin 1
            maxScale := ext.glyphDefault.maxScale
            padding := F32.fin 2 }),
       (⟨⟨F32.fin 4096, F32.fin (-28672)⟩, ⟨F32.fin 4096, F32.fin 4096⟩⟩,
          { anchor := ⟨F32.fin 4096, F32.fin 4096⟩
            bbox := ⟨⟨F32.fin 0, F32.fin (-32768)⟩, ⟨F32.fin 0, F32.fin 0⟩⟩
            box := ⟨⟨F32.fin 0, F32.fin (-32768)⟩, ⟨F32.fin 0, F32.fin 0⟩⟩
            rotate := false
            placementRange := (F32.mul ext.pi (F32.fin 2), F32.fin 0)
            placementScale := F32.fin 1
            maxScale := ext.glyphDefault.maxScale
            padding := F32.fin 2 })] := by
  rw [fresh_eq]
  rfl

/-- C12, counterexample: every guard entry of the constructed index carries
the rotation range `{2 * pi, 0}`; its first component is `2 * pi`, so when
`2 * pi` is not zero the range is not `(0, 2 * pi)`. -/
theorem guard_range_is_two_pi_zero :
    (∀ ext : Externals, ∀ value ∈ Collision.Collision ext,
      value.2.placementRange = (F32.mul ext.pi (F32.fin 2), F32.fin 0)) ∧
    (∀ ext : Externals, F32.mul ext.pi (F32.fin 2) ≠ F32.fin 0 →
      ∀ value ∈ Collision.Collision ext,
        value.2.placementRange ≠ (F32.fin 0, F32.mul ext.pi (F32.fin 2))) ∧
    (∀ value ∈ Collision.Collision sampleExternals,
      value.2.placementRange = (F32.fin (710 / 113), F32.fin 0)) := by
  have h : ∀ ext : Externals, ∀ value ∈ Collision.Collision ext,
      value.2.placementRange = (F32.mul ext.pi (F32.fin 2), F32.fin 0) := by
    intro ext value hv
    rw [fresh_eq] at hv
    simp only [List.mem_cons, List.mem_singleton, List.not_mem_nil, or_false] at hv
    rcases hv with rfl | rfl | rfl | rfl <;> rfl
  refine ⟨h, ?_, ?_⟩
  · intro ext hne value hv heq
    rw [h ext value hv] at heq
    exact hne (congrArg Prod.fst heq)
  · intro value hv
    rw [h sampleExternals value hv]
    simp [sampleExternals]
    norm_num

/-! ### The bbox `place` computes (C11) -/

/-- On finite squares the four corner sums of `place` have the maximum
`max(x12, x22) + max(y12, y22)`. -/
theorem max4_corner_sums (a b c d : ℚ) :
    util.max4 (F32.add (F32.fin a) (F32.fin c)) (F32.add (F32.fin a) (F32.fin d))
        (F32.add (F32.fin b) (F32.fin c)) (F32.add (F32.fin b) (F32.fin d)) =
      F32.add (F32.fmax (F32.fin a) (F32.fin b)) (F32.fmax (F32.fin c) (F32.fin d)) := by
  simp only [util.max4, F32.add_fin_fin, util_max_fin_fin, F32.fmax_fin_fin]
  congr 1
  simp only [max_def]
  split_ifs <;> linarith

/-- C11, as amended: for a horizontal label whose merged box has finite
coordinates, the list `place` rotates and commits holds one glyph, the merged
glyph, and its bbox is the square `{{-d, -d}, {d, d}}` about the anchor whose
half side (not half diagonal) is
`d = sqrt(max(tl.x^2, br.x^2) + max(tl.y^2, br.y^2))`, the distance from the
anchor to the farthest corner of the merged box; for a non-horizontal label
the list holds the caller's glyphs, each with its bbox replaced by its box. -/
theorem placeGlyphs_bbox (ext : Externals) (boxes : List GlyphBox) (anchor : CollisionAnchor)
    (hfin : CollisionRect.isFinite (getMergedGlyphs ext.glyphDefault boxes true anchor).box = true) :
    placeGlyphs ext boxes anchor true =
      [{ getMergedGlyphs ext.glyphDefault boxes true anchor with
          bbox :=
            ⟨⟨F32.neg (ext.sqrt (farthestCornerSq
                  (getMergedGlyphs ext.glyphDefault boxes true anchor).box)),
                F32.neg (ext.sqrt (farthestCornerSq
                  (getMergedGlyphs ext.glyphDefault boxes true anchor).box))⟩,
              ⟨ext.sqrt (farthestCornerSq
                  (getMergedGlyphs ext.glyphDefault boxes true anchor).box),
                ext.sqrt (farthestCornerSq
                  (getMergedGlyphs ext.glyphDefault boxes true anchor).box)⟩⟩ }] ∧
    placeGlyphs ext boxes anchor false =
      boxes.map (fun glyph => { glyph with bbox := glyph.box }) := by
  constructor
  · obtain ⟨a, b, c, d, hbox⟩ := CollisionRect.fin_of_rectFinite hfin
    simp only [placeGlyphs, if_true, List.map_cons, List.map_nil, placeBBox, hbox,
      farthestCornerSq, F32.mul_fin_fin, max4_corner_sums]
  · simp [placeGlyphs, placeBBox]

/-- C11, instance: the one-glyph label with box `[-3,-4]-[3,4]`. -/
theorem placeGlyphs_bbox_witness :
    CollisionRect.isFinite
        (getMergedGlyphs sampleExternals.glyphDefault [threeFourGlyph] true
          ⟨F32.fin 1000, F32.fin 1000⟩).box = true ∧
    placeGlyphs sampleExternals [threeFourGlyph] ⟨F32.fin 1000, F32.fin 1000⟩ true =
      [{ getMergedGlyphs sampleExternals.glyphDefault [threeFourGlyph] true
            ⟨F32.fin 1000, F32.fin 1000⟩ with
          bbox :=
            ⟨⟨F32.neg (sampleExternals.sqrt (farthestCornerSq
                  (getMergedGlyphs sampleExternals.glyphDefault [threeFourGlyph] true
                    ⟨F32.fin 1000, F32.fin 1000⟩).box)),
                F32.neg (sampleExternals.sqrt (farthestCornerSq
                  (getMergedGlyphs sampleExternals.glyphDefault [threeFourGlyph] true
                    ⟨F32.fin 1000, F32.fin 1000⟩).box))⟩,
              ⟨sampleExternals.sqrt (farthestCornerSq
                  (getMergedGlyphs sampleExternals.glyphDefault [threeFourGlyph] true
                    ⟨F32.fin 1000, F32.fin 1000⟩).box),
                sampleExternals.sqrt (farthestCornerSq
                  (getMergedGlyphs sampleExternals.glyphDefault [threeFourGlyph] true
                    ⟨F32.fin 1000, F32.fin 1000⟩).box)⟩⟩ }] ∧
    placeGlyphs sampleExternals [threeFourGlyph] ⟨F32.fin 1000, F32.fin 1000⟩ false =
      [threeFourGlyph].map (fun glyph => { glyph with bbox := glyph.box }) :=
  have h : CollisionRect.isFinite
      (getMergedGlyphs sampleExternals.glyphDefault [threeFourGlyph] true
        ⟨F32.fin 1000, F32.fin 1000⟩).box = true := by
    simp [getMergedGlyphs, threeFourGlyph, glyphAt, rect, util.min, util.max, F32.lt, F32.gt,
      CollisionRect.isFinite, CollisionPoint.isFinite, F32.isFinite]
  ⟨h, placeGlyphs_bbox sampleExternals [threeFourGlyph] ⟨F32.fin 1000, F32.fin 1000⟩ h⟩

/-- C11, counterexample: the label with box `[-3,-4]-[3,4]`, whose farthest
corner is at distance 5 from the anchor.  With any `sqrt` that maps 25 to 5,
`place` gives the merged glyph the bbox `[-5,-5]-[5,5]`: the squared half
diagonal of that square is 50, the squared distance to the farthest corner of
the box is 25. -/
theorem bbox_half_side_is_corner_distance :
    farthestCornerSq threeFourGlyph.box = F32.fin 25 ∧
    halfDiagonalSq (rect (-5) (-5) 5 5) = F32.fin 50 ∧
    F32.fin 50 ≠ F32.fin 25 ∧
    ∀ ext : Externals, ext.sqrt (F32.fin 25) = F32.fin 5 →
      (placeGlyphs ext [threeFourGlyph] ⟨F32.fin 1000, F32.fin 1000⟩ true).map
          (fun glyph => (glyph.box, glyph.bbox)) =
        [(rect (-3) (-4) 3 4, rect (-5) (-5) 5 5)] := by
  refine ⟨?_, ?_, ?_, ?_⟩
  · simp [farthestCornerSq, threeFourGlyph, glyphAt, rect, F32.fmax_fin_fin]
    norm_num
  · simp [halfDiagonalSq, rect]
    norm_num
  · intro h
    injection h with h
    norm_num at h
  · intro ext hsqrt
    have h25 : util.max4 (F32.add (F32.fin ((-3) * (-3))) (F32.fin ((-4) * (-4))))
        (F32.add (F32.fin ((-3) * (-3))) (F32.fin (4 * 4)))
        (F32.add (F32.fin (3 * 3)) (F32.fin ((-4) * (-4))))
        (F32.add (F32.fin (3 * 3)) (F32.fin (4 * 4))) = F32.fin 25 := by
      rw [max4_corner_sums]
      simp [F32.fmax_fin_fin]
      norm_num
    simp only [placeGlyphs, if_true, List.map_cons, List.map_nil, placeBBox, getMergedGlyphs,
      List.foldl_cons, List.foldl_nil, threeFourGlyph, glyphAt, rect]
    simp only [util.min, util.max, F32.lt, F32.gt, if_true, F32.mul_fin_fin, h25, hsqrt,
      F32.neg_fin]

/-! ### The rotation range is a fold over the pairs that pass the pre-check (C18) -/

theorem rangeStep_eq (ext : Externals) (glyph : GlyphBox) (placementScale : F32)
    (placementRange : PlacementRange) (value : PlacementValue) :
    rangeStep ext glyph placementScale placementRange value =
      if rangePrecheck glyph placementScale value then
        (F32.fmin placementRange.1
            (ext.rotationRange glyph value.2 (F32.fmax placementScale value.2.placementScale)).1,
          F32.fmax placementRange.2
            (ext.rotationRange glyph value.2 (F32.fmax placementScale value.2.placementScale)).2)
      else placementRange := by
  unfold rangeStep rangePrecheck
  by_cases h : F32.gt placementScale value.2.placementScale = true
  · simp only [h, if_true]
    split_ifs <;> simp_all
  · simp only [h, if_false]
    split_ifs <;> simp_all

theorem rangeStep_foldl (ext : Externals) (glyph : GlyphBox) (placementScale : F32) :
    ∀ (values : List PlacementValue) (placementRange : PlacementRange),
      values.foldl (rangeStep ext glyph placementScale) placementRange =
        ((((values.filter (rangePrecheck glyph placementScale)).map
              (fun value => (glyph, value))).foldl
            (fun lo p => F32.fmin lo
              (ext.rotationRange p.1 p.2.2 (F32.fmax placementScale p.2.2.placementScale)).1)
            placementRange.1),
          (((values.filter (rangePrecheck glyph placementScale)).map
              (fun value => (glyph, value))).foldl
            (fun hi p => F32.fmax hi
              (ext.rotationRange p.1 p.2.2 (F32.fmax placementScale p.2.2.placementScale)).2)
            placementRange.2)) := by
  intro values
  induction values with
  | nil => intro r; rfl
  | cons value rest ih =>
    intro r
    rw [List.foldl_cons, ih, rangeStep_eq]
    by_cases h : rangePrecheck glyph placementScale value = true
    · simp [h, List.filter_cons]
    · simp [h, List.filter_cons]

theorem getPlacementRange_foldl_from (ext : Externals) (tree : RTree) (placementScale : F32) :
    ∀ (glyphs : List GlyphBox) (placementRange : PlacementRange),
      glyphs.foldl (fun placementRange glyph =>
          (tree.query (scaledBox glyph.anchor glyph.bbox placementScale)).foldl
            (rangeStep ext glyph placementScale) placementRange) placementRange =
        ((rangePairs tree placementScale glyphs).foldl
            (fun lo p => F32.fmin lo
              (ext.rotationRange p.1 p.2.2 (F32.fmax placementScale p.2.2.placementScale)).1)
            placementRange.1,
          (rangePairs tree placementScale glyphs).foldl
            (fun hi p => F32.fmax hi
              (ext.rotationRange p.1 p.2.2 (F32.fmax placementScale p.2.2.placementScale)).2)
            placementRange.2) := by
  intro glyphs
  induction glyphs with
  | nil => intro r; rfl
  | cons glyph rest ih =>
    intro r
    rw [List.foldl_cons, rangeStep_foldl, ih]
    simp only [rangePairs, List.foldl_append]

theorem mem_rangePairs (tree : RTree) (placementScale : F32) (glyph : GlyphBox)
    (value : PlacementValue) :
    ∀ glyphs : List GlyphBox,
      ((glyph, value) ∈ rangePairs tree placementScale glyphs ↔
        glyph ∈ glyphs ∧
        value ∈ tree.query (scaledBox glyph.anchor glyph.bbox placementScale) ∧
        rangePrecheck glyph placementScale value = true) := by
  intro glyphs
  induction glyphs with
  | nil => simp [rangePairs]
  | cons g rest ih =>
    rw [rangePairs, List.mem_append, ih]
    simp only [List.mem_map, List.mem_filter, Prod.mk.injEq, List.mem_cons]
    constructor
    · rintro (⟨v, ⟨hq, hp⟩, rfl, rfl⟩ | ⟨hmem, hq, hp⟩)
      · exact ⟨Or.inl rfl, hq, hp⟩
      · exact ⟨Or.inr hmem, hq, hp⟩
    · rintro ⟨rfl | hmem, hq, hp⟩
      · exact Or.inl ⟨value, ⟨hq, hp⟩, rfl, rfl⟩
      · exact Or.inr ⟨hmem, hq, hp⟩

theorem F32.fmax_of_gt {a b : F32} (h : F32.gt a b = true) : F32.fmax a b = a := by
  cases a <;> cases b <;> simp_all [F32.gt, F32.lt, F32.fmax]
  rename_i x y
  intro hxy
  exact absurd h (not_lt.mpr (le_of_lt hxy))

theorem F32.fmax_of_not_gt {a b : F32} (h : F32.gt a b = false)
    (hb : F32.isnan b = false) : F32.fmax a b = b := by
  cases a <;> cases b <;> simp_all [F32.gt, F32.lt, F32.fmax, F32.isnan]
  rename_i x y
  intro hxy
  exact le_antisymm h hxy

/-- For an entry stored with the bounds `insert` computes, whose placement
scale is a number, the pre-check of the source is the strict overlap of the two
bboxes projected at `fmax(placementScale, b.placementScale)`. -/
theorem rangePrecheck_eq_overlap (glyph : GlyphBox) (placementScale : F32)
    (value : PlacementValue)
    (hstored : value.1 = scaledBox value.2.anchor value.2.bbox value.2.placementScale)
    (hnum : F32.isnan value.2.placementScale = false) :
    rangePrecheck glyph placementScale value =
      overlapAtComparisonScale glyph placementScale value.2 := by
  unfold rangePrecheck overlapAtComparisonScale
  by_cases h : F32.gt placementScale value.2.placementScale = true
  · simp only [h, if_true, F32.fmax_of_gt h]
  · have h2 : F32.gt placementScale value.2.placementScale = false := by simpa using h
    simp only [h2, Bool.false_eq_true, if_false, F32.fmax_of_not_gt h2 hnum]
    rw [hstored]
    simp only [F32.gt]
    cases F32.lt _ _ <;> cases F32.lt _ _ <;> cases F32.lt _ _ <;> cases F32.lt _ _ <;> rfl

theorem insert_stored_bounds (tree : RTree) (glyphs : List GlyphBox) (anchor : CollisionAnchor)
    (placementScale : F32) (placementRange : PlacementRange) (horizontal : Bool) (padding : F32)
    (h : ∀ value ∈ tree,
      value.1 = scaledBox value.2.anchor value.2.bbox value.2.placementScale) :
    ∀ value ∈ Collision.insert tree glyphs anchor placementScale placementRange horizontal
        padding,
      value.1 = scaledBox value.2.anchor value.2.bbox value.2.placementScale := by
  intro value hv
  simp only [Collision.insert, List.mem_append, List.mem_map] at hv
  rcases hv with hv | ⟨glyph, _, rfl⟩
  · exact h value hv
  · rfl

theorem reachable_stored_bounds (ext : Externals) (tree : RTree)
    (h : Collision.Reachable ext tree) :
    ∀ value ∈ tree,
      value.1 = scaledBox value.2.anchor value.2.bbox value.2.placementScale := by
  induction h with
  | construct =>
    unfold Collision.Collision
    exact insert_stored_bounds _ _ _ _ _ _ _
      (insert_stored_bounds _ _ _ _ _ _ _ (fun v hv => absurd hv (List.not_mem_nil v)))
  | place tree boxes anchor mn mx pad horizontal _ ih =>
    by_cases hneg : F32.lt (Collision.getPlacementScale tree boxes (placeFloor boxes mn) mx pad)
        (F32.fin 0) = true
    · rw [place_negative ext tree boxes anchor mn mx pad horizontal hneg]
      exact ih
    · have hneg2 : F32.lt (Collision.getPlacementScale tree boxes (placeFloor boxes mn) mx pad)
          (F32.fin 0) = false := by simpa using hneg
      rw [place_accepted ext tree boxes anchor mn mx pad horizontal hneg2]
      exact insert_stored_bounds _ _ _ _ _ _ _ ih

/-- C18: with `rotationRange` an arbitrary function, on an index whose entries
carry the bounds `insert` computes and a placement scale that is a number,
`getPlacementRange` returns the pair (`fmin` fold of `range[0]` from `2 * pi`,
`fmax` fold of `range[1]` from `0`) over the list of (glyph, stored neighbour)
pairs; that list holds exactly the pairs of a glyph of the label and an entry
returned by the glyph's index query whose bboxes, projected at
`fmax(placementScale, neighbour.placementScale)`, overlap strictly on both
axes; when the list is empty the result is `(2 * pi, 0)`. -/
theorem getPlacementRange_pairs (ext : Externals) (tree : RTree) (glyphs : List GlyphBox)
    (placementScale : F32)
    (hstored : ∀ value ∈ tree,
      value.1 = scaledBox value.2.anchor value.2.bbox value.2.placementScale)
    (hnum : ∀ value ∈ tree, F32.isnan value.2.placementScale = false) :
    Collision.getPlacementRange ext tree glyphs placementScale =
      ((rangePairs tree placementScale glyphs).foldl
          (fun lo p => F32.fmin lo
            (ext.rotationRange p.1 p.2.2 (F32.fmax placementScale p.2.2.placementScale)).1)
          (F32.mul (F32.fin 2) ext.pi),
        (rangePairs tree placementScale glyphs).foldl
          (fun hi p => F32.fmax hi
            (ext.rotationRange p.1 p.2.2 (F32.fmax placementScale p.2.2.placementScale)).2)
          (F32.fin 0)) ∧
    (∀ glyph value, (glyph, value) ∈ rangePairs tree placementScale glyphs ↔
      glyph ∈ glyphs ∧
      value ∈ tree.query (scaledBox glyph.anchor glyph.bbox placementScale) ∧
      overlapAtComparisonScale glyph placementScale value.2 = true) ∧
    (rangePairs tree placementScale glyphs = [] →
      Collision.getPlacementRange ext tree glyphs placementScale =
        (F32.mul (F32.fin 2) ext.pi, F32.fin 0)) := by
  have hfold := getPlacementRange_foldl_from ext tree placementScale glyphs
    (F32.mul (F32.fin 2) ext.pi, F32.fin 0)
  refine ⟨hfold, ?_, ?_⟩
  · intro glyph value
    rw [mem_rangePairs]
    constructor
    · rintro ⟨hg, hq, hp⟩
      have hmem : value ∈ tree := (List.mem_filter.mp hq).1
      exact ⟨hg, hq, by
        rw [← rangePrecheck_eq_overlap glyph placementScale value (hstored value hmem)
          (hnum value hmem)]
        exact hp⟩
    · rintro ⟨hg, hq, hp⟩
      have hmem : value ∈ tree := (List.mem_filter.mp hq).1
      exact ⟨hg, hq, by
        rw [rangePrecheck_eq_overlap glyph placementScale value (hstored value hmem)
          (hnum value hmem)]
        exact hp⟩
  · intro hnil
    unfold Collision.getPlacementRange
    rw [hfold, hnil]
    rfl

theorem centerIndex_stored_bounds :
    ∀ value ∈ centerIndex,
      value.1 = scaledBox value.2.anchor value.2.bbox value.2.placementScale :=
  insert_stored_bounds _ _ _ _ _ _ _
    (reachable_stored_bounds sampleExternals _ Collision.Reachable.construct)

theorem centerIndex_scales :
    ∀ value ∈ centerIndex, F32.isnan value.2.placementScale = false := by
  intro value hv
  rw [centerIndex_eq, fresh_eq] at hv
  simp only [List.cons_append, List.nil_append, List.mem_cons, List.mem_singleton,
    List.not_mem_nil, or_false] at hv
  rcases hv with rfl | rfl | rfl | rfl | rfl <;> rfl

theorem centerIndex_pairs_shifted :
    rangePairs centerIndex (F32.fin 1) [shiftedGlyph] = [(shiftedGlyph, centerEntry)] := by
  have hq : centerIndex.query (scaledBox shiftedGlyph.anchor shiftedGlyph.bbox (F32.fin 1)) =
      [centerEntry] := centerIndex_query_shifted
  have hp : rangePrecheck shiftedGlyph (F32.fin 1) centerEntry = true := by
    simp [rangePrecheck, shiftedGlyph, centerEntry, glyphAt, scaledBox, squareBox, rect,
      F32.div, F32.gt]
    norm_num
  simp only [rangePairs, hq, List.filter_cons, hp, if_true, List.filter_nil, List.map_cons,
    List.map_nil, List.append_nil]

/-- C18 at a concrete input: `shiftedGlyph` at scale 1 on the index holding
the guards and `centerGlyph` committed at scale 1.  The list of pairs holds the
one pair of `shiftedGlyph` with the stored `centerGlyph`. -/
theorem getPlacementRange_pairs_witness :
    (∀ value ∈ centerIndex,
      value.1 = scaledBox value.2.anchor value.2.bbox value.2.placementScale) ∧
    (∀ value ∈ centerIndex, F32.isnan value.2.placementScale = false) ∧
    rangePairs centerIndex (F32.fin 1) [shiftedGlyph] = [(shiftedGlyph, centerEntry)] ∧
    Collision.getPlacementRange sampleExternals centerIndex [shiftedGlyph] (F32.fin 1) =
      ((rangePairs centerIndex (F32.fin 1) [shiftedGlyph]).foldl
          (fun lo p => F32.fmin lo
            (sampleExternals.rotationRange p.1 p.2.2
              (F32.fmax (F32.fin 1) p.2.2.placementScale)).1)
          (F32.mul (F32.fin 2) sampleExternals.pi),
        (rangePairs centerIndex (F32.fin 1) [shiftedGlyph]).foldl
          (fun hi p => F32.fmax hi
            (sampleExternals.rotationRange p.1 p.2.2
              (F32.fmax (F32.fin 1) p.2.2.placementScale)).2)
          (F32.fin 0)) ∧
    (∀ glyph value, (glyph, value) ∈ rangePairs centerIndex (F32.fin 1) [shiftedGlyph] ↔
      glyph ∈ [shiftedGlyph] ∧
      value ∈ centerIndex.query (scaledBox glyph.anchor glyph.bbox (F32.fin 1)) ∧
      overlapAtComparisonScale glyph (F32.fin 1) value.2 = true) ∧
    (rangePairs centerIndex (F32.fin 1) [shiftedGlyph] = [] →
      Collision.getPlacementRange sampleExternals centerIndex [shiftedGlyph] (F32.fin 1) =
        (F32.mul (F32.fin 2) sampleExternals.pi, F32.fin 0)) :=
  ⟨centerIndex_stored_bounds, centerIndex_scales, centerIndex_pairs_shifted,
    getPlacementRange_pairs sampleExternals centerIndex [shiftedGlyph] (F32.fin 1)
      centerIndex_stored_bounds centerIndex_scales⟩

/-! ### Which list `place` resolves the scale on (C15) -/

theorem indexWith_eq (ext : Externals) (glyph : GlyphBox) :
    indexWith ext glyph =
      Collision.Collision ext ++
        [(scaledBox glyph.anchor glyph.bbox (F32.fmax (F32.fin 1) glyph.minScale),
          { anchor := glyph.anchor
            bbox := glyph.bbox
            box := glyph.box
            rotate := false
            placementRange := (F32.mul (F32.fin 2) ext.pi, F32.fin 0)
            placementScale := F32.fmax (F32.fin 1) glyph.minScale
            maxScale := glyph.maxScale
            padding := F32.fin 0 })] := by
  simp [indexWith, Collision.insert]

theorem wide_on_caller_boxes (ext : Externals) :
    Collision.getPlacementScale (indexWith ext offsetLabel) [wideQueryLabel]
      (F32.fin 1) (F32.fin 4) (F32.fin 0) = F32.fin 4 := by
  have hq : RTree.query (Collision.Collision ext)
      (scaledBox ⟨F32.fin 1010, F32.fin 1025⟩ (rect (-300) (-300) 300 300) (F32.fin 1)) = [] := by
    apply fresh_query_empty
    simp [scaledBox, rect, F32.div_fin_fin]
    norm_num
  have hcfs : ∀ (b : CollisionRect) (r : Bool) (pr : PlacementRange) (ps mx : F32),
      collisionFreeScale ⟨F32.fin 1010, F32.fin 1025⟩ squareBox (F32.fin 0)
        { anchor := ⟨F32.fin 1000, F32.fin 1000⟩, bbox := b, box := rect 100 (-50) 200 50,
          rotate := r, placementRange := pr, placementScale := ps, maxScale := mx,
          padding := F32.fin 0 } = F32.fin 4 := by
    intro b r pr ps mx
    simp [collisionFreeScale, squareBox, rect, F32.fmax_fin_fin, F32.fmin_fin_fin,
      F32.div, F32.isnan]
    norm_num [F32.fmax_fin_fin, F32.fmin_fin_fin]
  simp only [squareBox, rect] at hcfs
  rw [getPlacementScale_single _ _ _ _ _
    (by simp [outsideTile, wideQueryLabel, glyphAt, F32.gt]; norm_num)
    (by simp [wideQueryLabel, glyphAt, F32.fmax_fin_fin, F32.ge, F32.le]), indexWith_eq]
  simp only [wideQueryLabel, glyphAt, F32.fmax_fin_fin, query_append]
  norm_num [hq]
  simp [offsetLabel, glyphAt, blockingLoop, hcfs, CollisionPoint.eq, F32.gt,
    RTree.query, List.filter, Box.intersects, scaledBox, squareBox, rect, F32.div_fin_fin,
    F32.fmax_fin_fin, F32.lt]
  norm_num [blockingLoop, hcfs, CollisionPoint.eq, F32.gt, F32.lt]

theorem wide_on_built_glyphs (ext : Externals) :
    Collision.getPlacementScale (indexWith ext offsetLabel)
      (placeGlyphs ext [wideQueryLabel] ⟨F32.fin 1010, F32.fin 1025⟩ false)
      (F32.fin 1) (F32.fin 4) (F32.fin 0) = F32.fin 1 := by
  have hq : RTree.query (Collision.Collision ext)
      (scaledBox ⟨F32.fin 1010, F32.fin 1025⟩ squareBox (F32.fin 1)) = [] := by
    apply fresh_query_empty
    simp [scaledBox, squareBox, rect, F32.div_fin_fin]
    norm_num
  have hg : placeGlyphs ext [wideQueryLabel] ⟨F32.fin 1010, F32.fin 1025⟩ false =
      [glyphAt squareBox 1010 1025 (F32.fin 0) F32.pinf] := by
    simp [placeGlyphs, placeBBox, wideQueryLabel, glyphAt]
  rw [hg, getPlacementScale_single _ _ _ _ _
    (by simp [outsideTile, glyphAt, F32.gt]; norm_num)
    (by simp [glyphAt, F32.fmax_fin_fin, F32.ge, F32.le]), indexWith_eq]
  simp only [glyphAt, F32.fmax_fin_fin, query_append]
  norm_num [hq]
  simp [offsetLabel, glyphAt, blockingLoop, RTree.query, List.filter, Box.intersects,
    scaledBox, squareBox, rect, F32.div_fin_fin, F32.fmax_fin_fin, F32.lt, F32.gt]
  norm_num [blockingLoop]

theorem nearby_on_caller_boxes (ext : Externals) :
    Collision.getPlacementScale (indexWith ext centerGlyph) [nearbyGlyph]
      (F32.fin 1) (F32.fin 4) (F32.fin 2) = F32.fin 1 := by
  have hq : RTree.query (Collision.Collision ext)
      (scaledBox ⟨F32.fin 1090, F32.fin 1000⟩ (rect (-30) (-40) 30 40) (F32.fin 1)) = [] := by
    apply fresh_query_empty
    simp [scaledBox, rect, F32.div_fin_fin]
    norm_num
  rw [getPlacementScale_single _ _ _ _ _
    (by simp [outsideTile, nearbyGlyph, glyphAt, F32.gt]; norm_num)
    (by simp [nearbyGlyph, glyphAt, F32.fmax_fin_fin, F32.ge, F32.le]), indexWith_eq]
  simp only [nearbyGlyph, glyphAt, F32.fmax_fin_fin, query_append]
  norm_num [hq]
  simp [centerGlyph, glyphAt, blockingLoop, RTree.query, List.filter, Box.intersects,
    scaledBox, squareBox, rect, F32.div_fin_fin, F32.fmax_fin_fin, F32.lt, F32.gt]
  norm_num [blockingLoop]

theorem nearby_built_glyphs (ext : Externals)
    (hsqrt : ext.sqrt (F32.fin 2500) = F32.fin 50)
    (hmin : ext.glyphDefault.minScale = F32.fin 0)
    (hmax : ext.glyphDefault.maxScale = F32.pinf) :
    placeGlyphs ext [nearbyGlyph] ⟨F32.fin 1090, F32.fin 1000⟩ true =
      [{ bbox := rect (-50) (-50) 50 50
         box := rect (-30) (-40) 30 40
         rotate := true
         anchor := ⟨F32.fin 1090, F32.fin 1000⟩
         minScale := F32.fin 0
         maxScale := F32.pinf }] := by
  have h2500 : util.max4 (F32.add (F32.fin ((-30) * (-30))) (F32.fin ((-40) * (-40))))
      (F32.add (F32.fin ((-30) * (-30))) (F32.fin (40 * 40)))
      (F32.add (F32.fin (30 * 30)) (F32.fin ((-40) * (-40))))
      (F32.add (F32.fin (30 * 30)) (F32.fin (40 * 40))) = F32.fin 2500 := by
    rw [max4_corner_sums]
    simp [F32.fmax_fin_fin]
    norm_num
  simp only [placeGlyphs, if_true, List.map_cons, List.map_nil, placeBBox, getMergedGlyphs,
    List.foldl_cons, List.foldl_nil, nearbyGlyph, glyphAt, rect, hmin, hmax]
  simp only [util.min, util.max, F32.lt, F32.gt, if_true, F32.mul_fin_fin, h2500, hsqrt,
    F32.neg_fin]
  simp

theorem nearby_on_built_glyphs (ext : Externals)
    (hsqrt : ext.sqrt (F32.fin 2500) = F32.fin 50)
    (hmin : ext.glyphDefault.minScale = F32.fin 0)
    (hmax : ext.glyphDefault.maxScale = F32.pinf) :
    Collision.getPlacementScale (indexWith ext centerGlyph)
      (placeGlyphs ext [nearbyGlyph] ⟨F32.fin 1090, F32.fin 1000⟩ true)
      (F32.fin 1) (F32.fin 4) (F32.fin 2) = F32.fin (16 / 15) := by
  have hq : RTree.query (Collision.Collision ext)
      (scaledBox ⟨F32.fin 1090, F32.fin 1000⟩ (rect (-50) (-50) 50 50) (F32.fin 1)) = [] := by
    apply fresh_query_empty
    simp [scaledBox, rect, F32.div_fin_fin]
    norm_num
  have hcfs : ∀ (b : CollisionRect) (r : Bool) (pr : PlacementRange) (ps mx : F32),
      collisionFreeScale ⟨F32.fin 1090, F32.fin 1000⟩ (rect (-30) (-40) 30 40) (F32.fin 2)
        { anchor := ⟨F32.fin 1000, F32.fin 1000⟩, bbox := b, box := rect (-50) (-50) 50 50,
          rotate := r, placementRange := pr, placementScale := ps, maxScale := mx,
          padding := F32.fin 0 } = F32.fin (16 / 15) := by
    intro b r pr ps mx
    simp [collisionFreeScale, rect, F32.fmax_fin_fin, F32.fmin_fin_fin, F32.div, F32.isnan]
    norm_num [F32.fmax_fin_fin, F32.fmin_fin_fin, F32.fmax, F32.fmin, F32.lt]
  simp only [rect] at hcfs hq
  rw [nearby_built_glyphs ext hsqrt hmin hmax, getPlacementScale_single _ _ _ _ _
    (by simp [outsideTile, F32.gt]; norm_num)
    (by simp [F32.fmax_fin_fin, F32.ge, F32.le]), indexWith_eq]
  simp only [rect, F32.fmax_fin_fin, query_append]
  norm_num [hq]
  simp [centerGlyph, glyphAt, blockingLoop, hcfs, CollisionPoint.eq, F32.gt,
    RTree.query, List.filter, Box.intersects, scaledBox, squareBox, rect, F32.div_fin_fin,
    F32.fmax_fin_fin, F32.lt]
  norm_num [blockingLoop, hcfs, CollisionPoint.eq, F32.gt, F32.lt]

/-- C15: `place` resolves the scale on the caller's `boxes`, not on the list
`glyphs` it builds, rotates and commits.  In general its outcome is written
with `getPlacementScale` on `boxes`.  Non-horizontal instance: on the index
holding `offsetLabel`, the label `wideQueryLabel` (caller's bbox
`[-300,-300]-[300,300]`, box `[-50,-50]-[50,50]`) with window `[1, 4]` and
padding 0 is resolved to 4 on `boxes` and `place` accepts it at 4, while the
resolver on the built list (bbox set to box) returns 1.  Horizontal instance,
for any `sqrt` with `sqrt(2500) = 50` and a default glyph with `minScale = 0`,
`maxScale = +inf`: on the index holding `centerGlyph`, the label `nearbyGlyph`
with window `[1, 4]` and padding 2 is resolved to 1 on `boxes` and `place`
accepts it at 1, while the resolver on the merged glyph with its square bbox
returns 16/15; at scale 1 the two boxes are not kept apart by the padding
`2 * 8 = 16`. -/
theorem place_resolves_on_caller_boxes :
    (∀ (ext : Externals) (tree : RTree) (boxes : List GlyphBox) (anchor : CollisionAnchor)
        (minPlacementScale maxPlacementScale padding : F32) (horizontal : Bool),
      Collision.place ext tree boxes anchor minPlacementScale maxPlacementScale padding
          horizontal =
        if F32.lt (Collision.getPlacementScale tree boxes (placeFloor boxes minPlacementScale)
            maxPlacementScale padding) (F32.fin 0) then (none, tree)
        else
          (some ⟨F32.div (ext.log (Collision.getPlacementScale tree boxes
                (placeFloor boxes minPlacementScale) maxPlacementScale padding))
                (ext.log (F32.fin 2)),
              Collision.getPlacementRange ext tree (placeGlyphs ext boxes anchor horizontal)
                (Collision.getPlacementScale tree boxes (placeFloor boxes minPlacementScale)
                  maxPlacementScale padding)⟩,
            Collision.insert tree (placeGlyphs ext boxes anchor horizontal) anchor
              (Collision.getPlacementScale tree boxes (placeFloor boxes minPlacementScale)
                maxPlacementScale padding)
              (Collision.getPlacementRange ext tree (placeGlyphs ext boxes anchor horizontal)
                (Collision.getPlacementScale tree boxes (placeFloor boxes minPlacementScale)
                  maxPlacementScale padding))
              horizontal padding)) ∧
    (∀ ext : Externals,
      Collision.getPlacementScale (indexWith ext offsetLabel) [wideQueryLabel]
          (placeFloor [wideQueryLabel] (F32.fin 1)) (F32.fin 4) (F32.fin 0) = F32.fin 4 ∧
      Collision.getPlacementScale (indexWith ext offsetLabel)
          (placeGlyphs ext [wideQueryLabel] ⟨F32.fin 1010, F32.fin 1025⟩ false)
          (placeFloor [wideQueryLabel] (F32.fin 1)) (F32.fin 4) (F32.fin 0) = F32.fin 1 ∧
      Option.map PlacementProperty.zoom
          (Collision.place ext (indexWith ext offsetLabel) [wideQueryLabel]
            ⟨F32.fin 1010, F32.fin 1025⟩ (F32.fin 1) (F32.fin 4) (F32.fin 0) false).1 =
        some (F32.div (ext.log (F32.fin 4)) (ext.log (F32.fin 2)))) ∧
    (∃ ext : Externals, ext.sqrt (F32.fin 2500) = F32.fin 50 ∧
      ext.glyphDefault.minScale = F32.fin 0 ∧ ext.glyphDefault.maxScale = F32.pinf) ∧
    (∀ ext : Externals, ext.sqrt (F32.fin 2500) = F32.fin 50 →
      ext.glyphDefault.minScale = F32.fin 0 → ext.glyphDefault.maxScale = F32.pinf →
      Collision.getPlacementScale (indexWith ext centerGlyph) [nearbyGlyph]
          (placeFloor [nearbyGlyph] (F32.fin 1)) (F32.fin 4) (F32.fin 2) = F32.fin 1 ∧
      Collision.getPlacementScale (indexWith ext centerGlyph)
          (placeGlyphs ext [nearbyGlyph] ⟨F32.fin 1090, F32.fin 1000⟩ true)
          (placeFloor [nearbyGlyph] (F32.fin 1)) (F32.fin 4) (F32.fin 2) = F32.fin (16 / 15) ∧
      Option.map PlacementProperty.zoom
          (Collision.place ext (indexWith ext centerGlyph) [nearbyGlyph]
            ⟨F32.fin 1090, F32.fin 1000⟩ (F32.fin 1) (F32.fin 4) (F32.fin 2) true).1 =
        some (F32.div (ext.log (F32.fin 1)) (ext.log (F32.fin 2)))) ∧
    separatedAt (F32.fin 1) (F32.fin 16) nearbyGlyph.anchor nearbyGlyph.box
      centerGlyph.anchor centerGlyph.box = false := by
  have hfw : placeFloor [wideQueryLabel] (F32.fin 1) = F32.fin 1 :=
    placeFloor_single_le _ _ (by simp [wideQueryLabel, glyphAt])
  have hfn : placeFloor [nearbyGlyph] (F32.fin 1) = F32.fin 1 :=
    placeFloor_single_le _ _ (by simp [nearbyGlyph, glyphAt])
  refine ⟨?_, ?_, ?_, ?_, ?_⟩
  · intro ext tree boxes anchor mn mx pad horizontal
    rfl
  · intro ext
    refine ⟨by rw [hfw]; exact wide_on_caller_boxes ext,
      by rw [hfw]; exact wide_on_built_glyphs ext, ?_⟩
    rw [place_accepted _ _ _ _ _ _ _ _ (by rw [hfw, wide_on_caller_boxes ext]; simp), hfw,
      wide_on_caller_boxes ext]
    rfl
  · exact ⟨{ sampleExternals with sqrt := fun _ => F32.fin 50 }, rfl, rfl, rfl⟩
  · intro ext hsqrt hmin hmax
    refine ⟨by rw [hfn]; exact nearby_on_caller_boxes ext,
      by rw [hfn]; exact nearby_on_built_glyphs ext hsqrt hmin hmax, ?_⟩
    rw [place_accepted _ _ _ _ _ _ _ _ (by rw [hfn, nearby_on_caller_boxes ext]; simp), hfn,
      nearby_on_caller_boxes ext]
    rfl
  · simp [separatedAt, nearbyGlyph, centerGlyph, glyphAt, squareBox, rect, F32.div]
    norm_num

/-! ### The zoom round trip (C13) -/

